import Mathlib

/-!
# LearnOpenGL: the Application frame loop, the free-look camera and the singleton

A shallow embedding of `Engine::Application` as found in the two copies of
`Application.cpp` of the repository:

* namespace `Engine`     : `LearnOpenGL/LearnOpenGL/src/Application.cpp`
* namespace `EngineRoot` : `LearnOpenGL/src/Application.cpp`

Modelling conventions.

* Arithmetic on `float`/`double` is taken over an arbitrary linearly ordered
  field `K` (instantiated with `ℚ` for evaluation and with `ℝ` for the
  trigonometric statements); decimal literals are read as exact rationals and
  the casts between `float` and `double` are the identity.
* Calls into GLFW, glad, OpenGL, the Renderer, the Camera and the hooks of the
  subclass (`Startup`, `Update`, `FixedUpdate`, `Shutdown`) are recorded as
  events; what the environment answers (time stamps, key states, callbacks
  dispatched by `glfwPollEvents`, success of the initialisation steps) is an
  explicit input.
* The hooks and the external calls are taken not to modify the members of
  `Application` behind its back; what `Renderer::Init` leaves in the renderer
  is part of the environment.
* Dereferencing a null `m_cameraRef` / `m_lightSpot` has no defined result:
  the functions that do so return `none`.
* The frame counters are natural numbers; their wrap-around plays no role in
  what is stated here.
* The render loop does not terminate by itself: it is run on a finite script
  of frame inputs, and its result says whether it exited, is still running
  when the script is used up, or stopped on a null dereference.
-/

namespace Engine

/-- The three-component vector `glm::vec3`. -/
structure vec3 (K : Type) where
  x : K
  y : K
  z : K
deriving DecidableEq

namespace vec3

variable {K : Type}

/-- Value-initialised vector `vec3()`. -/
def zero [Zero K] : vec3 K := ⟨0, 0, 0⟩

/-- Component-wise sum, `a + b` (used by `translation += ...`). -/
def add [Add K] (a b : vec3 K) : vec3 K := ⟨a.x + b.x, a.y + b.y, a.z + b.z⟩

/-- Component-wise difference, `a - b` (used by `translation -= ...`). -/
def sub [Sub K] (a b : vec3 K) : vec3 K := ⟨a.x - b.x, a.y - b.y, a.z - b.z⟩

/-- Scalar multiple, `k * v`. -/
def smul [Mul K] (k : K) (v : vec3 K) : vec3 K := ⟨k * v.x, k * v.y, k * v.z⟩

/-- The scalar product `glm::dot`. -/
def dot [Add K] [Mul K] (a b : vec3 K) : K := a.x * b.x + a.y * b.y + a.z * b.z

/-- The vector product `glm::cross`. -/
def cross [Sub K] [Mul K] (a b : vec3 K) : vec3 K :=
  ⟨a.y * b.z - b.y * a.z, a.z * b.x - b.z * a.x, a.x * b.y - b.x * a.y⟩

end vec3

/-- The functions of the C math library and of glm whose values are not
computed by this repository: `cos`, `sin`, `sqrt` and `glm::radians`. -/
structure MathFns (K : Type) where
  cos : K → K
  sin : K → K
  sqrt : K → K
  radians : K → K

/-- The length `glm::length v = sqrt (dot v v)`. -/
def length {K : Type} [Add K] [Mul K] (m : MathFns K) (v : vec3 K) : K :=
  m.sqrt (vec3.dot v v)

/-- The unit vector `glm::normalize v = v * inversesqrt (dot v v)`. -/
def normalize {K : Type} [Add K] [Mul K] [One K] [Div K] (m : MathFns K) (v : vec3 K) : vec3 K :=
  vec3.smul (1 / m.sqrt (vec3.dot v v)) v

/-- The part of `Camera` the application reads and writes through
`SetRight/SetUp/SetForward`, `GetRight/GetUp/GetForward` and
`SetAspectRatio`; each setter stores its argument and each getter returns
the stored value. -/
structure Camera (K : Type) where
  right : vec3 K
  up : vec3 K
  forward : vec3 K
  aspectRatio : K
deriving DecidableEq

/-- The spot-light scalars of `Light`: `SetAngle`/`SetBlur` store their
argument, `GetAngleRaw`/`GetBlurRaw` return the stored value. -/
structure Light (K : Type) where
  angle : K
  blur : K
deriving DecidableEq

/-- The members of `Renderer` the application touches: the camera reference
and the spot light, each a pointer that may be null. -/
structure Renderer (K : Type) where
  m_cameraRef : Option (Camera K)
  m_lightSpot : Option (Light K)
deriving DecidableEq

/-- The state of `Engine::Application` together with the close flag of its
GLFW window. The fixed step `m_fixedDeltaTime` is declared in
`Application.hpp`, which is not among the sources (one sixtieth of a second
according to the specification); it is kept as a member and never written. -/
structure Application (K : Type) where
  m_winWidth : Nat
  m_winHeight : Nat
  m_currentTime : K
  m_prevTime : K
  m_deltaTime : K
  m_fixedTimer : K
  m_fixedDeltaTime : K
  m_frameTimer : K
  m_frames : Nat
  m_framesPerSecond : Nat
  m_fps : Nat
  m_mouseLastX : K
  m_mouseLastY : K
  m_yaw : K
  m_pitch : K
  m_gladLoaded : Bool
  windowShouldClose : Bool
  m_rendererInst : Renderer K
deriving DecidableEq

/-- The keys `Application::ProcessInput` asks `glfwGetKey` about. -/
inductive Key where
  | END | F1 | F2 | T | G | Y | H
  | LEFT_CONTROL | LEFT_SHIFT
  | W | S | A | D | SPACE | C
deriving DecidableEq

/-- The calls that leave the application, in the order they are made. Hooks
of the subclass carry their argument. -/
inductive Event (K : Type) where
  | glfwInit
  | glfwCreateWindow (width height : Nat) (title : String) (fullscreen : Bool)
  | glfwGetCursorPos
  | gladLoadGLLoader
  | RendererInit (aspect : K)
  | RendererInitNoArg
  | NewCamera (fov : K)
  | Startup
  | glfwGetTime
  | glfwPollEvents
  | InputProcessInput
  | glfwSetWindowShouldClose
  | glPolygonMode (line : Bool)
  | glViewport (width height : Nat)
  | SetAspectRatio (ratio : K)
  | UpdateAspectRatio (width height : K)
  | UpdateFovV
  | ModifyFovH (value : K)
  | Translate (translation : vec3 K)
  | FixedUpdate (pFixedDeltaTime : K)
  | Update (pDeltaTime : K)
  | Sleep (milliseconds : Nat)
  | Draw (pTime : K)
  | glfwSwapBuffers
  | Shutdown
  | glfwTerminate

namespace Event

variable {K : Type}

/-- Recognises a call of the `Update` hook. -/
def isUpdate : Event K → Bool
  | Update _ => true
  | _ => false

/-- Recognises a call of `Renderer::Draw`. -/
def isDraw : Event K → Bool
  | Draw _ => true
  | _ => false

/-- Recognises a call of `glfwSwapBuffers`. -/
def isSwapBuffers : Event K → Bool
  | glfwSwapBuffers => true
  | _ => false

/-- Recognises a call of `Sleep`. -/
def isSleep : Event K → Bool
  | Sleep _ => true
  | _ => false

/-- Recognises a call of `glfwPollEvents`. -/
def isPollEvents : Event K → Bool
  | glfwPollEvents => true
  | _ => false

/-- Recognises a call of the `Shutdown` hook. -/
def isShutdown : Event K → Bool
  | Shutdown => true
  | _ => false

/-- Recognises a call of `glfwTerminate`. -/
def isTerminate : Event K → Bool
  | glfwTerminate => true
  | _ => false

/-- Recognises the calls made from inside the render loop: reading the
clock, polling, the per-frame hooks, drawing, swapping and sleeping. -/
def isLoopBody : Event K → Bool
  | glfwGetTime => true
  | glfwPollEvents => true
  | InputProcessInput => true
  | Translate _ => true
  | FixedUpdate _ => true
  | Update _ => true
  | Sleep _ => true
  | Draw _ => true
  | glfwSwapBuffers => true
  | _ => false

end Event

/-- What `glfwPollEvents` can deliver to the application: the three
registered callbacks and a close request of the window system. -/
inductive Callback (K : Type) where
  | cursorPos (pPosX pPosY : K)
  | scroll (pOffsetX pOffsetY : K)
  | framebufferSize (pWidth pHeight : Nat)
  | closeRequest

/-- What the environment answers during one iteration of the render loop. -/
structure FrameInput (K : Type) where
  now : K
  callbacks : List (Callback K)
  keys : Key → Bool
  iconified : Bool

/-- What the environment answers during `Application::Init`: whether
`glfwInit`, `glfwCreateWindow` and `gladLoadGLLoader` succeed, the cursor
position, what `Renderer::Init` leaves in the renderer, and the result of
the `Startup` hook. -/
structure InitEnv (K : Type) where
  glfwInitOk : Bool
  windowCreated : Bool
  cursorX : K
  cursorY : K
  gladOk : Bool
  rendererInit : K → Renderer K
  startupOk : Bool

/-- How far the render loop got on a finite script of frame inputs. -/
inductive LoopStatus where
  | exited
  | running
  | fault
deriving DecidableEq

/-- The result of the render loop: the state reached, the events of each
completed iteration, and the status. -/
structure LoopResult (S : Type) (K : Type) where
  state : S
  iterations : List (List (Event K))
  status : LoopStatus

/-- The result of `Application::Run`: the events before the loop, those of
each iteration, those after the loop, and whether `Run` returned. -/
structure RunResult (S : Type) (K : Type) where
  state : S
  before : List (Event K)
  iterations : List (List (Event K))
  after : List (Event K)
  status : LoopStatus

/-- All events of a run in order. -/
def RunResult.trace {S K : Type} (r : RunResult S K) : List (Event K) :=
  r.before ++ r.iterations.flatten ++ r.after

section Mouse

variable {K : Type} [LinearOrderedField K]

/-- The yaw/pitch part of `Application::MouseCallback` (lines 232-244): the
offset from the last recorded position is scaled by `sens`, accumulated, and
the pitch is clamped. The constant `sens` is `0.05` in this copy and `0.08`
in the other one. -/
def MouseCallback.angles (sens : K) (s : Application K) (pPosX pPosY : K) : Application K :=
  let offsetX := pPosX - s.m_mouseLastX
  let offsetY := pPosY - s.m_mouseLastY
  let offsetX := offsetX * sens
  let offsetY := offsetY * sens
  let yaw := s.m_yaw + offsetX
  let pitch := s.m_pitch + offsetY
  let pitch := if pitch > 89 then 89 else if pitch < -89 then -89 else pitch
  { s with m_mouseLastX := pPosX, m_mouseLastY := pPosY, m_yaw := yaw, m_pitch := pitch }

/-- The forward vector of lines 247-251, from yaw and pitch in degrees. -/
def MouseCallback.forward (m : MathFns K) (yaw pitch : K) : vec3 K :=
  normalize m
    ⟨m.cos (m.radians yaw) * m.cos (m.radians pitch),
     m.sin (m.radians pitch),
     m.sin (m.radians yaw) * m.cos (m.radians pitch)⟩

/-- The right vector of line 252. -/
def MouseCallback.right (m : MathFns K) (forward : vec3 K) : vec3 K :=
  normalize m (vec3.cross ⟨0, 1, 0⟩ forward)

/-- The up vector of line 253. -/
def MouseCallback.up (forward right : vec3 K) : vec3 K :=
  vec3.cross forward right

/-- The whole of `Application::MouseCallback`: the angles are updated, then
the basis is recomputed and handed to the camera behind `m_cameraRef`. -/
def MouseCallback (m : MathFns K) (sens : K) (s : Application K) (pPosX pPosY : K) :
    Option (Application K) :=
  let s := MouseCallback.angles sens s pPosX pPosY
  let forward := MouseCallback.forward m s.m_yaw s.m_pitch
  let right := MouseCallback.right m forward
  let up := MouseCallback.up forward right
  match s.m_rendererInst.m_cameraRef with
  | none => none
  | some cam =>
    some { s with m_rendererInst :=
      { s.m_rendererInst with
        m_cameraRef := some { cam with right := right, up := up, forward := forward } } }

/-- The constant `sens` of this copy of `MouseCallback`. -/
def sens : K := 5 / 100

/-- The states after each of a sequence of mouse callbacks, oldest first
(the state before the first callback is not part of the list); `none` once
a callback dereferences a null camera. -/
def mouseStates (m : MathFns K) (sens : K) :
    Application K → List (K × K) → List (Option (Application K))
  | _, [] => []
  | s, p :: ps =>
    match MouseCallback m sens s p.1 p.2 with
    | none => [none]
    | some s' => some s' :: mouseStates m sens s' ps

end Mouse

section Loop

variable {K : Type} [LinearOrderedField K] [FloorRing K]

/-- `Application::UpdateCamera` (lines 224-228): the aspect ratio
`(float)m_winWidth / (float)m_winHeight` is handed to the camera, then
`UpdateFovV` is called. -/
def UpdateCamera (s : Application K) : Option (Application K × List (Event K)) :=
  match s.m_rendererInst.m_cameraRef with
  | none => none
  | some cam =>
    let ratio : K := (s.m_winWidth : K) / (s.m_winHeight : K)
    some ({ s with m_rendererInst :=
              { s.m_rendererInst with m_cameraRef := some { cam with aspectRatio := ratio } } },
          [Event.SetAspectRatio ratio, Event.UpdateFovV])

/-- `Application::SetDimensions` (lines 215-222). -/
def SetDimensions (s : Application K) (pWidth pHeight : Nat) :
    Option (Application K × List (Event K)) :=
  if s.m_rendererInst.m_cameraRef ≠ none ∧ pWidth > 0 ∧ pHeight > 0 then
    UpdateCamera { s with m_winWidth := pWidth, m_winHeight := pHeight }
  else
    some ({ s with m_winWidth := pWidth, m_winHeight := pHeight }, [])

/-- `Application::ScrollCallback` (lines 260-263). -/
def ScrollCallback (s : Application K) (_pOffsetX pOffsetY : K) :
    Option (Application K × List (Event K)) :=
  match s.m_rendererInst.m_cameraRef with
  | none => none
  | some _ => some (s, [Event.ModifyFovH (pOffsetY * -3)])

/-- One callback delivered by `glfwPollEvents`: `mouse_callback`,
`scroll_callback`, `framebuffer_size_callback` (lines 15-29), or the close
flag being raised by the window system. -/
def dispatch (m : MathFns K) (s : Application K) :
    Callback K → Option (Application K × List (Event K))
  | Callback.cursorPos pPosX pPosY =>
    match MouseCallback m sens s pPosX pPosY with
    | none => none
    | some s' => some (s', [])
  | Callback.scroll pOffsetX pOffsetY => ScrollCallback s pOffsetX pOffsetY
  | Callback.framebufferSize pWidth pHeight =>
    match SetDimensions s pWidth pHeight with
    | none => none
    | some (s', ev) => some (s', ev ++ [Event.glViewport pWidth pHeight])
  | Callback.closeRequest => some ({ s with windowShouldClose := true }, [])

/-- The call `glfwPollEvents()`: the pending callbacks are dispatched in
order. -/
def pollEvents (m : MathFns K) :
    Application K → List (Callback K) → Option (Application K × List (Event K))
  | s, [] => some (s, [])
  | s, c :: cs =>
    match dispatch m s c with
    | none => none
    | some (s', ev) =>
      match pollEvents m s' cs with
      | none => none
      | some (s'', ev') => some (s'', ev ++ ev')

/-- The constant `spotlightSpeed` of `ProcessInput` (line 282). -/
def spotlightSpeed : K := 5 / 1000

/-- Lines 267-275 of `ProcessInput`: End raises the close flag, F1 and F2
select the polygon mode. -/
def ProcessInput.window (s : Application K) (keys : Key → Bool) :
    Application K × List (Event K) :=
  let r : Application K × List (Event K) :=
    if keys Key.END then ({ s with windowShouldClose := true }, [Event.glfwSetWindowShouldClose])
    else (s, [])
  let e1 : List (Event K) := if keys Key.F1 then [Event.glPolygonMode false] else []
  let e2 : List (Event K) := if keys Key.F2 then [Event.glPolygonMode true] else []
  (r.1, r.2 ++ e1 ++ e2)

/-- Lines 284-294 of `ProcessInput`: T widens the cone. -/
def ProcessInput.keyT (r : Renderer K) (keys : Key → Bool) : Option (Renderer K) :=
  if keys Key.T then
    match r.m_lightSpot with
    | none => none
    | some spotLight =>
      let current := spotLight.angle
      if current + spotlightSpeed * 10 ≤ 90 then
        some { r with m_lightSpot := some { spotLight with angle := current + spotlightSpeed * 10 } }
      else some r
  else some r

/-- Lines 295-304 of `ProcessInput`: G narrows the cone. -/
def ProcessInput.keyG (r : Renderer K) (keys : Key → Bool) : Option (Renderer K) :=
  if keys Key.G then
    match r.m_lightSpot with
    | none => none
    | some spotLight =>
      let current := spotLight.angle
      if current - spotlightSpeed * 10 ≥ 0 then
        some { r with m_lightSpot := some { spotLight with angle := current - spotlightSpeed * 10 } }
      else some r
  else some r

/-- Lines 306-315 of `ProcessInput`: Y increases the blur. -/
def ProcessInput.keyY (r : Renderer K) (keys : Key → Bool) : Option (Renderer K) :=
  if keys Key.Y then
    match r.m_lightSpot with
    | none => none
    | some spotLight =>
      let current := spotLight.blur
      if current + spotlightSpeed ≤ 1 then
        some { r with m_lightSpot := some { spotLight with blur := current + spotlightSpeed } }
      else some r
  else some r

/-- Lines 316-325 of `ProcessInput`: H decreases the blur. -/
def ProcessInput.keyH (r : Renderer K) (keys : Key → Bool) : Option (Renderer K) :=
  if keys Key.H then
    match r.m_lightSpot with
    | none => none
    | some spotLight =>
      let current := spotLight.blur
      if current - spotlightSpeed > 0 then
        some { r with m_lightSpot := some { spotLight with blur := current - spotlightSpeed } }
      else some r
  else some r

/-- Lines 282-325 of `ProcessInput`: the four spot-light keys in order. -/
def ProcessInput.spotLight (r : Renderer K) (keys : Key → Bool) : Option (Renderer K) :=
  match ProcessInput.keyT r keys with
  | none => none
  | some r1 =>
    match ProcessInput.keyG r1 keys with
    | none => none
    | some r2 =>
      match ProcessInput.keyY r2 keys with
      | none => none
      | some r3 => ProcessInput.keyH r3 keys

/-- Lines 327-333 of `ProcessInput`: the movement speed after the
modifiers. -/
def ProcessInput.moveSpeed (keys : Key → Bool) : K :=
  let moveSpeed : K := 8
  if keys Key.LEFT_CONTROL then moveSpeed * (2 / 10)
  else if keys Key.LEFT_SHIFT then moveSpeed * 3
  else moveSpeed

/-- Lines 335-353 of `ProcessInput`: the translation accumulated from the
six movement keys. -/
def ProcessInput.translation (keys : Key → Bool) (moveSpeed deltaTime : K) (cam : Camera K) :
    vec3 K :=
  let translation : vec3 K := vec3.zero
  let translation :=
    if keys Key.W then vec3.add translation (vec3.smul (moveSpeed * deltaTime) cam.forward)
    else translation
  let translation :=
    if keys Key.S then vec3.sub translation (vec3.smul (moveSpeed * deltaTime) cam.forward)
    else translation
  let translation :=
    if keys Key.A then vec3.add translation (vec3.smul (moveSpeed * deltaTime) cam.right)
    else translation
  let translation :=
    if keys Key.D then vec3.sub translation (vec3.smul (moveSpeed * deltaTime) cam.right)
    else translation
  let translation :=
    if keys Key.SPACE then vec3.add translation (vec3.smul (moveSpeed * deltaTime) cam.up)
    else translation
  let translation :=
    if keys Key.C then vec3.sub translation (vec3.smul (moveSpeed * deltaTime) cam.up)
    else translation
  translation

/-- `Application::ProcessInput` (lines 265-356). -/
def ProcessInput (s : Application K) (keys : Key → Bool) :
    Option (Application K × List (Event K)) :=
  let w := ProcessInput.window s keys
  match ProcessInput.spotLight w.1.m_rendererInst keys with
  | none => none
  | some r =>
    let s := { w.1 with m_rendererInst := r }
    let moveSpeed : K := ProcessInput.moveSpeed keys
    match s.m_rendererInst.m_cameraRef with
    | none => none
    | some cam =>
      let translation := ProcessInput.translation keys moveSpeed s.m_deltaTime cam
      some (s, w.2 ++ [Event.Translate translation])

/-- `Application::Init` (lines 129-213): the events of the steps attempted,
and the value returned. Window hints, window placement and the registration
of the callbacks do not touch the state and are left out. -/
def Init (s : Application K) (pTitle : String) (pFullscreen : Bool) (env : InitEnv K) :
    Application K × List (Event K) × Bool :=
  if env.glfwInitOk = false then
    (s, [Event.glfwInit], false)
  else if env.windowCreated = false then
    (s, [Event.glfwInit, Event.glfwCreateWindow s.m_winWidth s.m_winHeight pTitle pFullscreen],
      false)
  else
    let created := Event.glfwCreateWindow s.m_winWidth s.m_winHeight pTitle pFullscreen
    if env.gladOk = false then
      ({ s with
          windowShouldClose := false, m_mouseLastX := env.cursorX, m_mouseLastY := env.cursorY },
        [Event.glfwInit, created, Event.glfwGetCursorPos, Event.gladLoadGLLoader], false)
    else
      let aspect : K := (s.m_winWidth : K) / (s.m_winHeight : K)
      ({ s with
          windowShouldClose := false, m_mouseLastX := env.cursorX, m_mouseLastY := env.cursorY,
          m_gladLoaded := true, m_rendererInst := env.rendererInit aspect },
        [Event.glfwInit, created, Event.glfwGetCursorPos, Event.gladLoadGLLoader,
         Event.RendererInit aspect, Event.Startup], env.startupOk)

/-- Lines 72-92 of `Run`: the time stamp is read and the timers and frame
counters are advanced. -/
def frame.timers (s : Application K) (now : K) : Application K :=
  let prevTime := s.m_currentTime
  let currentTime := now
  let deltaTime := currentTime - prevTime
  let fixedTimer := s.m_fixedTimer + deltaTime
  let frameTimer := s.m_frameTimer + deltaTime
  let frames := s.m_frames + 1
  let framesPerSecond := s.m_framesPerSecond + 1
  let secondsPerUpdate : K := 1 / 2
  if frameTimer ≥ secondsPerUpdate then
    { s with
      m_prevTime := prevTime, m_currentTime := currentTime, m_deltaTime := deltaTime,
      m_fixedTimer := fixedTimer, m_frames := frames,
      m_frameTimer := frameTimer - secondsPerUpdate,
      m_fps := ⌊(framesPerSecond : K) / secondsPerUpdate⌋₊,
      m_framesPerSecond := 0 }
  else
    { s with
      m_prevTime := prevTime, m_currentTime := currentTime, m_deltaTime := deltaTime,
      m_fixedTimer := fixedTimer, m_frames := frames,
      m_frameTimer := frameTimer,
      m_framesPerSecond := framesPerSecond }

/-- Lines 98-103 of `Run`: the fixed-step hook. -/
def frame.fixed (s : Application K) : Application K × List (Event K) :=
  if s.m_fixedTimer ≥ s.m_fixedDeltaTime then
    ({ s with m_fixedTimer := s.m_fixedTimer - s.m_fixedDeltaTime },
      [Event.FixedUpdate s.m_fixedDeltaTime])
  else (s, [])

/-- Lines 107-119 of `Run`: a minimised window sleeps and skips the draw,
otherwise the scene is drawn and the buffers are swapped. -/
def frame.present (s : Application K) (iconified : Bool) : List (Event K) :=
  if iconified then
    if s.m_deltaTime < 50 then [Event.Sleep 50] else []
  else
    [Event.Draw s.m_currentTime, Event.glfwSwapBuffers]

/-- One iteration of the render loop of `Run` (lines 72-119). -/
def frame (m : MathFns K) (s : Application K) (i : FrameInput K) :
    Option (Application K × List (Event K)) :=
  let s := frame.timers s i.now
  match pollEvents m s i.callbacks with
  | none => none
  | some (s, evPoll) =>
    match ProcessInput s i.keys with
    | none => none
    | some (s, evInput) =>
      let f := frame.fixed s
      let s := f.1
      some (s, [Event.glfwGetTime, Event.glfwPollEvents] ++ evPoll ++ evInput ++ f.2
                ++ [Event.Update s.m_deltaTime] ++ frame.present s i.iconified)

/-- The render loop `while (!glfwWindowShouldClose(m_window))` of `Run` on
a script of frame inputs: it exits when the flag is seen at the top of an
iteration, is still running when the script is used up, and faults on a
null dereference. -/
def loop (m : MathFns K) : Application K → List (FrameInput K) → LoopResult (Application K) K
  | s, [] => if s.windowShouldClose then ⟨s, [], LoopStatus.exited⟩ else ⟨s, [], LoopStatus.running⟩
  | s, i :: rest =>
    if s.windowShouldClose then ⟨s, [], LoopStatus.exited⟩
    else
      match frame m s i with
      | none => ⟨s, [], LoopStatus.fault⟩
      | some (s', ev) =>
        let r := loop m s' rest
        ⟨r.state, ev :: r.iterations, r.status⟩

/-- What the environment answers during `Application::Run`. -/
structure RunEnv (K : Type) where
  init : InitEnv K
  startTime : K
  frames : List (FrameInput K)

/-- `Application::Run` (lines 58-127). `Shutdown` and `glfwTerminate` are
reached once the loop has exited or was skipped. -/
def Run (m : MathFns K) (s : Application K) (pWidth pHeight : Nat) (pTitle : String)
    (pFullscreen : Bool) (env : RunEnv K) : RunResult (Application K) K :=
  match SetDimensions s pWidth pHeight with
  | none => ⟨s, [], [], [], LoopStatus.fault⟩
  | some (s, evDim) =>
    let i := Init s pTitle pFullscreen env.init
    if i.2.2 then
      let s := { i.1 with m_currentTime := env.startTime - 2 / 100 }
      let l := loop m s env.frames
      match l.status with
      | LoopStatus.exited =>
        ⟨l.state, evDim ++ i.2.1 ++ [Event.glfwGetTime], l.iterations,
          [Event.Shutdown, Event.glfwTerminate], LoopStatus.exited⟩
      | st => ⟨l.state, evDim ++ i.2.1 ++ [Event.glfwGetTime], l.iterations, [], st⟩
    else
      ⟨i.1, evDim ++ i.2.1, [], [Event.Shutdown, Event.glfwTerminate], LoopStatus.exited⟩

end Loop

end Engine

namespace EngineRoot

open Engine

/-- The state of `Engine::Application` in `LearnOpenGL/src/Application.cpp`
together with the close flag of its GLFW window; here the camera is a member
of the application. -/
structure Application (K : Type) where
  m_winWidth : Nat
  m_winHeight : Nat
  m_currentTime : K
  m_prevTime : K
  m_deltaTime : K
  m_frames : Nat
  m_frameInterval : K
  m_fps : Nat
  m_mouseLastX : K
  m_mouseLastY : K
  m_yaw : K
  m_pitch : K
  m_gladLoaded : Bool
  windowShouldClose : Bool
  m_cameraRef : Option (Camera K)
deriving DecidableEq

/-- What the environment answers during `Application::Init` of this copy:
here `Renderer::Init` returns a status and the camera is created by
`new Camera(75.0f)`. -/
structure InitEnv (K : Type) where
  glfwInitOk : Bool
  windowCreated : Bool
  cursorX : K
  cursorY : K
  gladOk : Bool
  rendererInitOk : Bool
  newCamera : Camera K
  startupOk : Bool

/-- What the environment answers during `Application::Run` of this copy;
`toUShort` is the conversion `(unsigned short)` of a `double`. -/
structure RunEnv (K : Type) where
  init : InitEnv K
  startTime : K
  toUShort : K → Nat
  frames : List (FrameInput K)

section Defs

variable {K : Type} [LinearOrderedField K]

/-- The constant `sens` of this copy of `MouseCallback` (line 227). -/
def sens : K := 8 / 100

/-- The yaw/pitch part of `Application::MouseCallback` (lines 223-235). -/
def MouseCallback.angles (sens : K) (s : Application K) (pPosX pPosY : K) : Application K :=
  let offsetX := pPosX - s.m_mouseLastX
  let offsetY := pPosY - s.m_mouseLastY
  let offsetX := offsetX * sens
  let offsetY := offsetY * sens
  let yaw := s.m_yaw + offsetX
  let pitch := s.m_pitch + offsetY
  let pitch := if pitch > 89 then 89 else if pitch < -89 then -89 else pitch
  { s with m_mouseLastX := pPosX, m_mouseLastY := pPosY, m_yaw := yaw, m_pitch := pitch }

/-- `Application::MouseCallback` (lines 221-249); the basis of lines
237-244 is computed as in the other copy. -/
def MouseCallback (m : MathFns K) (sens : K) (s : Application K) (pPosX pPosY : K) :
    Option (Application K) :=
  let s := MouseCallback.angles sens s pPosX pPosY
  let forward := Engine.MouseCallback.forward m s.m_yaw s.m_pitch
  let right := Engine.MouseCallback.right m forward
  let up := Engine.MouseCallback.up forward right
  match s.m_cameraRef with
  | none => none
  | some cam =>
    some { s with m_cameraRef := some { cam with right := right, up := up, forward := forward } }

/-- The states after each of a sequence of mouse callbacks, oldest first;
`none` once a callback dereferences a null camera. -/
def mouseStates (m : MathFns K) (sens : K) :
    Application K → List (K × K) → List (Option (Application K))
  | _, [] => []
  | s, p :: ps =>
    match MouseCallback m sens s p.1 p.2 with
    | none => [none]
    | some s' => some s' :: mouseStates m sens s' ps

/-- `Application::UpdateCamera` (lines 215-219). -/
def UpdateCamera (s : Application K) : Option (Application K × List (Event K)) :=
  match s.m_cameraRef with
  | none => none
  | some _ =>
    some (s, [Event.UpdateAspectRatio (s.m_winWidth : K) (s.m_winHeight : K), Event.UpdateFovV])

/-- `Application::SetDimensions` (lines 205-213). -/
def SetDimensions (s : Application K) (pWidth pHeight : Nat) :
    Option (Application K × List (Event K)) :=
  if s.m_cameraRef ≠ none then UpdateCamera { s with m_winWidth := pWidth, m_winHeight := pHeight }
  else some ({ s with m_winWidth := pWidth, m_winHeight := pHeight }, [])

/-- `Application::ScrollCallback` (lines 251-254). -/
def ScrollCallback (s : Application K) (_pOffsetX pOffsetY : K) :
    Option (Application K × List (Event K)) :=
  match s.m_cameraRef with
  | none => none
  | some _ => some (s, [Event.ModifyFovH (pOffsetY * -3)])

/-- One callback delivered by `glfwPollEvents` (lines 13-27), or the close
flag being raised by the window system. -/
def dispatch (m : MathFns K) (s : Application K) :
    Callback K → Option (Application K × List (Event K))
  | Callback.cursorPos pPosX pPosY =>
    match MouseCallback m sens s pPosX pPosY with
    | none => none
    | some s' => some (s', [])
  | Callback.scroll pOffsetX pOffsetY => ScrollCallback s pOffsetX pOffsetY
  | Callback.framebufferSize pWidth pHeight =>
    match SetDimensions s pWidth pHeight with
    | none => none
    | some (s', ev) => some (s', ev ++ [Event.glViewport pWidth pHeight])
  | Callback.closeRequest => some ({ s with windowShouldClose := true }, [])

/-- The call `glfwPollEvents()`: the pending callbacks are dispatched in
order. -/
def pollEvents (m : MathFns K) :
    Application K → List (Callback K) → Option (Application K × List (Event K))
  | s, [] => some (s, [])
  | s, c :: cs =>
    match dispatch m s c with
    | none => none
    | some (s', ev) =>
      match pollEvents m s' cs with
      | none => none
      | some (s'', ev') => some (s'', ev ++ ev')

/-- Lines 261-268 of `ProcessInput`: the speed selected by the modifiers. -/
def ProcessInput.speed (keys : Key → Bool) : K :=
  if keys Key.LEFT_CONTROL then 2
  else if keys Key.LEFT_SHIFT then 16
  else 8

/-- `Application::ProcessInput` (lines 256-290); the translation of lines
270-287 is accumulated as in the other copy. -/
def ProcessInput (s : Application K) (keys : Key → Bool) :
    Option (Application K × List (Event K)) :=
  let speed : K := ProcessInput.speed keys
  match s.m_cameraRef with
  | none => none
  | some cam =>
    let translation := Engine.ProcessInput.translation keys speed s.m_deltaTime cam
    some (s, [Event.Translate translation])

/-- `Application::Init` (lines 120-203): the events of the steps attempted,
and the value returned. Window hints, window placement, the registration of
the callbacks and the colour and position given to the new camera do not
touch the state and are left out. -/
def Init (s : Application K) (pTitle : String) (pFullscreen : Bool) (env : InitEnv K) :
    Application K × List (Event K) × Bool :=
  if env.glfwInitOk = false then
    (s, [Event.glfwInit], false)
  else if env.windowCreated = false then
    (s, [Event.glfwInit, Event.glfwCreateWindow s.m_winWidth s.m_winHeight pTitle pFullscreen],
      false)
  else
    let created := Event.glfwCreateWindow s.m_winWidth s.m_winHeight pTitle pFullscreen
    if env.gladOk = false then
      ({ s with
          windowShouldClose := false, m_mouseLastX := env.cursorX, m_mouseLastY := env.cursorY },
        [Event.glfwInit, created, Event.glfwGetCursorPos, Event.gladLoadGLLoader], false)
    else if env.rendererInitOk = false then
      ({ s with
          windowShouldClose := false, m_mouseLastX := env.cursorX, m_mouseLastY := env.cursorY,
          m_gladLoaded := true },
        [Event.glfwInit, created, Event.glfwGetCursorPos, Event.gladLoadGLLoader,
         Event.RendererInitNoArg], false)
    else
      ({ s with
          windowShouldClose := false, m_mouseLastX := env.cursorX, m_mouseLastY := env.cursorY,
          m_gladLoaded := true, m_cameraRef := some env.newCamera },
        [Event.glfwInit, created, Event.glfwGetCursorPos, Event.gladLoadGLLoader,
         Event.RendererInitNoArg, Event.NewCamera 75,
         Event.UpdateAspectRatio (s.m_winWidth : K) (s.m_winHeight : K), Event.UpdateFovV,
         Event.Startup], env.startupOk)

/-- Lines 70-82 of `Run`: the time stamp is read and the frame counter is
advanced. -/
def frame.timers (s : Application K) (now : K) : Application K :=
  let prevTime := s.m_currentTime
  let currentTime := now
  let deltaTime := currentTime - prevTime
  let frames := s.m_frames + 1
  let frameInterval := s.m_frameInterval + deltaTime
  if frameInterval ≥ 1 then
    { s with
      m_prevTime := prevTime, m_currentTime := currentTime, m_deltaTime := deltaTime,
      m_fps := frames, m_frames := 0, m_frameInterval := frameInterval - 1 }
  else
    { s with
      m_prevTime := prevTime, m_currentTime := currentTime, m_deltaTime := deltaTime,
      m_frames := frames, m_frameInterval := frameInterval }

/-- Lines 93-96 of `Run`: the fixed-step hook of this copy. -/
def frame.fixed (toUShort : K → Nat) (s : Application K) : List (Event K) :=
  if toUShort (s.m_currentTime * 1000000) % 16666 = 0 then [Event.FixedUpdate s.m_deltaTime]
  else []

/-- Lines 98-110 of `Run`: a minimised window skips the draw, otherwise the
scene is drawn with the camera matrix and the buffers are swapped. -/
def frame.present (s : Application K) (iconified : Bool) : Option (List (Event K)) :=
  if iconified then some []
  else
    match s.m_cameraRef with
    | none => none
    | some _ => some [Event.Draw s.m_currentTime, Event.glfwSwapBuffers]

/-- One iteration of the render loop of `Run` (lines 70-110). -/
def frame (m : MathFns K) (toUShort : K → Nat) (s : Application K) (i : FrameInput K) :
    Option (Application K × List (Event K)) :=
  let s := frame.timers s i.now
  match pollEvents m s i.callbacks with
  | none => none
  | some (s, evPoll) =>
    match ProcessInput s i.keys with
    | none => none
    | some (s, evInput) =>
      match frame.present s i.iconified with
      | none => none
      | some evDraw =>
        some (s, [Event.glfwGetTime, Event.glfwPollEvents] ++ evPoll
                  ++ [Event.InputProcessInput] ++ evInput
                  ++ [Event.Update s.m_deltaTime] ++ frame.fixed toUShort s ++ evDraw)

/-- The render loop of `Run` on a script of frame inputs. -/
def loop (m : MathFns K) (toUShort : K → Nat) :
    Application K → List (FrameInput K) → LoopResult (Application K) K
  | s, [] => if s.windowShouldClose then ⟨s, [], LoopStatus.exited⟩ else ⟨s, [], LoopStatus.running⟩
  | s, i :: rest =>
    if s.windowShouldClose then ⟨s, [], LoopStatus.exited⟩
    else
      match frame m toUShort s i with
      | none => ⟨s, [], LoopStatus.fault⟩
      | some (s', ev) =>
        let r := loop m toUShort s' rest
        ⟨r.state, ev :: r.iterations, r.status⟩

/-- `Application::Run` (lines 56-118). -/
def Run (m : MathFns K) (s : Application K) (pWidth pHeight : Nat) (pTitle : String)
    (pFullscreen : Bool) (env : RunEnv K) : RunResult (Application K) K :=
  match SetDimensions s pWidth pHeight with
  | none => ⟨s, [], [], [], LoopStatus.fault⟩
  | some (s, evDim) =>
    let i := Init s pTitle pFullscreen env.init
    if i.2.2 then
      let s := { i.1 with m_currentTime := env.startTime }
      let l := loop m env.toUShort s env.frames
      match l.status with
      | LoopStatus.exited =>
        ⟨l.state, evDim ++ i.2.1 ++ [Event.glfwGetTime], l.iterations,
          [Event.Shutdown, Event.glfwTerminate], LoopStatus.exited⟩
      | st => ⟨l.state, evDim ++ i.2.1 ++ [Event.glfwGetTime], l.iterations, [], st⟩
    else
      ⟨i.1, evDim ++ i.2.1, [], [Event.Shutdown, Event.glfwTerminate], LoopStatus.exited⟩

end Defs

end EngineRoot

namespace Singleton

/-- The objects of class `Application` by address: which of them are alive,
and the static back-reference `Application::sm_appRef`. The constructor and
the destructor are the same in both copies of `Application.cpp` as far as
these two are concerned. -/
structure Heap where
  live : List Nat
  sm_appRef : Option Nat
deriving DecidableEq

/-- The state at program start: no instance, `sm_appRef = nullptr`. -/
def Heap.start : Heap := ⟨[], none⟩

/-- `delete p`, running `Application::~Application` (lines 50-56): the
object stops being alive; the destructor does not touch `sm_appRef`.
Deleting an object that is not alive has no defined result. -/
def destroy (h : Heap) (p : Nat) : Option Heap :=
  if p ∈ h.live then some { h with live := h.live.erase p } else none

/-- `Application::Application` (lines 36-48) running on fresh storage
`this`: a registered instance is deleted first, then the new one is
registered. -/
def construct (h : Heap) (this : Nat) : Option Heap :=
  if this ∈ h.live then none
  else
    let deleted : Option Heap :=
      match h.sm_appRef with
      | some p => destroy h p
      | none => some h
    match deleted with
    | none => none
    | some h' => some { live := this :: h'.live, sm_appRef := some this }

/-- Modelled from the spec: `Application::GetApplication` is declared in
`Application.hpp`, which is not among the sources; it returns the static
back-reference. -/
def GetApplication (h : Heap) : Option Nat := h.sm_appRef

/-- A construction or a destruction requested by the program. -/
inductive Op where
  | new (this : Nat)
  | delete (p : Nat)
deriving DecidableEq

/-- One operation. -/
def step (h : Heap) : Op → Option Heap
  | Op.new this => construct h this
  | Op.delete p => destroy h p

/-- A sequence of operations, stopping at the first undefined one. -/
def run : Heap → List Op → Option Heap
  | h, [] => some h
  | h, op :: ops =>
    match step h op with
    | none => none
    | some h' => run h' ops

end Singleton

/-! ## Notions used in the statements -/

namespace Engine

/-- The camera basis is orthonormal: forward, right and up have length one
and are pairwise orthogonal. -/
def Camera.orthonormal {K : Type} [LinearOrderedField K] (m : MathFns K) (cam : Camera K) : Prop :=
  length m cam.forward = 1 ∧ length m cam.right = 1 ∧ length m cam.up = 1 ∧
  vec3.dot cam.forward cam.right = 0 ∧ vec3.dot cam.forward cam.up = 0 ∧
  vec3.dot cam.right cam.up = 0

/-- Recognises the calls made while callbacks are dispatched and while
`ProcessInput` runs: raising the close flag, the polygon mode, the viewport
and the camera methods. -/
def Event.isInputEffect {K : Type} : Event K → Bool
  | Event.glfwSetWindowShouldClose => true
  | Event.glPolygonMode _ => true
  | Event.glViewport _ _ => true
  | Event.SetAspectRatio _ => true
  | Event.UpdateAspectRatio _ _ => true
  | Event.UpdateFovV => true
  | Event.ModifyFovH _ => true
  | Event.Translate _ => true
  | _ => false

/-- Two states of the first copy agree on the clock: the time stamps, the
frame delta, both timers and the fixed step. -/
def sameClock {K : Type} (s s' : Application K) : Prop :=
  s'.m_currentTime = s.m_currentTime ∧ s'.m_prevTime = s.m_prevTime ∧
  s'.m_deltaTime = s.m_deltaTime ∧ s'.m_fixedTimer = s.m_fixedTimer ∧
  s'.m_fixedDeltaTime = s.m_fixedDeltaTime ∧ s'.m_frameTimer = s.m_frameTimer

/-- Camera and spot light are attached, so that no callback and no key can
dereference a null pointer. -/
def Ready {K : Type} (s : Application K) : Prop :=
  s.m_rendererInst.m_cameraRef ≠ none ∧ s.m_rendererInst.m_lightSpot ≠ none

/-- The frame inputs whose time stamps advance from `t` by the given frame
deltas; each delta comes with the rest of what the environment answers in
that frame. -/
def framesOfDeltas {K : Type} [Add K] (t : K) : List (K × FrameInput K) → List (FrameInput K)
  | [] => []
  | p :: rest =>
    ⟨t + p.1, p.2.callbacks, p.2.keys, p.2.iconified⟩ :: framesOfDeltas (t + p.1) rest

/-- The arguments of the `FixedUpdate` calls among some events, in order. -/
def fixedUpdateArgs {K : Type} : List (Event K) → List K
  | [] => []
  | Event.FixedUpdate dt :: rest => dt :: fixedUpdateArgs rest
  | _ :: rest => fixedUpdateArgs rest

/-- The arguments of the `Update` calls among some events, in order. -/
def updateArgs {K : Type} : List (Event K) → List K
  | [] => []
  | Event.Update dt :: rest => dt :: updateArgs rest
  | _ :: rest => updateArgs rest

end Engine

namespace EngineRoot

/-- Two states of the second copy agree on the clock. -/
def sameClock {K : Type} (s s' : Application K) : Prop :=
  s'.m_currentTime = s.m_currentTime ∧ s'.m_prevTime = s.m_prevTime ∧
  s'.m_deltaTime = s.m_deltaTime

end EngineRoot

namespace Engine

/-- Recognises the close request among the callbacks. -/
def Callback.isCloseRequest {K : Type} : Callback K → Bool
  | Callback.closeRequest => true
  | _ => false

/-- A frame input that does not raise the close flag: End is not pressed and
the window system delivers no close request. -/
def FrameInput.keepsOpen {K : Type} (i : FrameInput K) : Prop :=
  i.keys Key.END = false ∧ ∀ c ∈ i.callbacks, c.isCloseRequest = false

/-- The successive differences of a list of time stamps, starting from the
time stamp `t` recorded before the first one. -/
def deltas {K : Type} [Sub K] (t : K) : List K → List K
  | [] => []
  | now :: rest => (now - t) :: deltas now rest

/-- What one iteration of the first copy shows for a frame input: a
minimised window is neither drawn nor swapped and sleeps 50 ms exactly when
the frame delta passed to `Update` is below 50; a shown window ends the
iteration with one `Draw` followed by one `glfwSwapBuffers` and does not
sleep. -/
def presents {K : Type} [LinearOrderedField K] (ev : List (Event K)) (i : FrameInput K) : Prop :=
  (i.iconified = true →
    ev.filter Event.isDraw = [] ∧ ev.filter Event.isSwapBuffers = [] ∧
    ∃ d, updateArgs ev = [d] ∧
      ev.filter Event.isSleep = (if d < 50 then [Event.Sleep 50] else [])) ∧
  (i.iconified = false →
    ev.filter Event.isSleep = [] ∧
    ∃ front, ev = front ++ [Event.Draw i.now, Event.glfwSwapBuffers] ∧
      front.filter Event.isDraw = [] ∧ front.filter Event.isSwapBuffers = [])

end Engine

namespace EngineRoot

open Engine

/-- What one iteration of the second copy shows for a frame input: a
minimised window is neither drawn nor swapped; a shown window ends the
iteration with one `Draw` followed by one `glfwSwapBuffers`; there is no
sleep in either case. -/
def presents {K : Type} (ev : List (Event K)) (i : FrameInput K) : Prop :=
  ev.filter Event.isSleep = [] ∧
  (i.iconified = true →
    ev.filter Event.isDraw = [] ∧ ev.filter Event.isSwapBuffers = []) ∧
  (i.iconified = false →
    ∃ front, ev = front ++ [Event.Draw i.now, Event.glfwSwapBuffers] ∧
      front.filter Event.isDraw = [] ∧ front.filter Event.isSwapBuffers = [])

end EngineRoot

namespace Engine

end Engine

namespace EngineRoot

open Engine

end EngineRoot

namespace Engine

/-- The number 1 for a key that is pressed and 0 for one that is not. -/
def pressed {K : Type} [Zero K] [One K] (keys : Key → Bool) (k : Key) : K :=
  if keys k then 1 else 0

/-- The arguments of the `Camera::Translate` calls among some events, in
order. -/
def translateArgs {K : Type} : List (Event K) → List (vec3 K)
  | [] => []
  | Event.Translate v :: rest => v :: translateArgs rest
  | _ :: rest => translateArgs rest

end Engine

namespace Engine

/-- The state after `ProcessInput` has run once for each of a sequence of
key states, oldest first; `none` once a call dereferences a null pointer. -/
def pressKeys {K : Type} [LinearOrderedField K] :
    Application K → List (Key → Bool) → Option (Application K)
  | s, [] => some s
  | s, keys :: rest =>
    match ProcessInput s keys with
    | none => none
    | some (s', _) => pressKeys s' rest

end Engine

namespace Engine

/-- The camera holds the basis that `MouseCallback` computes from the angles
`yaw` and `pitch` (in degrees): forward is the normalised vector
`(cos yaw * cos pitch, sin pitch, sin yaw * cos pitch)`, right is the
normalised cross product of world-up `(0, 1, 0)` with forward, and up is the
cross product of forward with right. -/
def Camera.basisOf {K : Type} [LinearOrderedField K] (m : MathFns K) (yaw pitch : K)
    (cam : Camera K) : Prop :=
  cam.forward
    = normalize m
        ⟨m.cos (m.radians yaw) * m.cos (m.radians pitch),
         m.sin (m.radians pitch),
         m.sin (m.radians yaw) * m.cos (m.radians pitch)⟩ ∧
  cam.right = normalize m (vec3.cross ⟨0, 1, 0⟩ cam.forward) ∧
  cam.up = vec3.cross cam.forward cam.right

/-- The components of the camera basis for the angles `yaw` and `pitch` (in
degrees): forward `(cos yaw * cos pitch, sin pitch, sin yaw * cos pitch)`,
right `(sin yaw, 0, -cos yaw)` and up
`(-(sin pitch * cos yaw), cos pitch, -(sin yaw * sin pitch))`. -/
def Camera.components {K : Type} [LinearOrderedField K] (m : MathFns K) (yaw pitch : K)
    (cam : Camera K) : Prop :=
  cam.forward
    = ⟨m.cos (m.radians yaw) * m.cos (m.radians pitch),
       m.sin (m.radians pitch),
       m.sin (m.radians yaw) * m.cos (m.radians pitch)⟩ ∧
  cam.right = ⟨m.sin (m.radians yaw), 0, -m.cos (m.radians yaw)⟩ ∧
  cam.up
    = ⟨-(m.sin (m.radians pitch) * m.cos (m.radians yaw)),
       m.cos (m.radians pitch),
       -(m.sin (m.radians yaw) * m.sin (m.radians pitch))⟩

end Engine

/-! ## Concrete inputs -/

namespace Example

open Engine

/-- A stand-in for the math library over `ℚ`: the values at angle zero, and
the identity for `sqrt` and `radians`. -/
def math : MathFns ℚ := ⟨fun _ => 1, fun _ => 0, fun x => x, fun x => x⟩

/-- A camera looking down the negative z axis, over any field. -/
def cameraOver (K : Type) [LinearOrderedField K] : Camera K :=
  ⟨⟨1, 0, 0⟩, ⟨0, 1, 0⟩, ⟨0, 0, -1⟩, 16 / 9⟩

/-- The camera over `ℚ`. -/
def camera : Camera ℚ := cameraOver ℚ

/-- A spot light in the middle of both ranges. -/
def light : Light ℚ := ⟨45, 1 / 2⟩

/-- An application of the first copy over any field, with camera and spot
light attached, all timers at zero and a fixed step of one sixtieth of a
second. -/
def appOver (K : Type) [LinearOrderedField K] : Engine.Application K :=
  { m_winWidth := 1600, m_winHeight := 900,
    m_currentTime := 0, m_prevTime := 0, m_deltaTime := 0,
    m_fixedTimer := 0, m_fixedDeltaTime := 1 / 60, m_frameTimer := 0,
    m_frames := 0, m_framesPerSecond := 0, m_fps := 0,
    m_mouseLastX := 0, m_mouseLastY := 0, m_yaw := 0, m_pitch := 0,
    m_gladLoaded := false, windowShouldClose := false,
    m_rendererInst := ⟨some (cameraOver K), some ⟨45, 1 / 2⟩⟩ }

/-- The application of the first copy over `ℚ`. -/
def app : Engine.Application ℚ := appOver ℚ

/-- An application of the second copy over any field, with its camera
attached. -/
def appRootOver (K : Type) [LinearOrderedField K] : EngineRoot.Application K :=
  { m_winWidth := 1600, m_winHeight := 900,
    m_currentTime := 0, m_prevTime := 0, m_deltaTime := 0,
    m_frames := 0, m_frameInterval := 0, m_fps := 0,
    m_mouseLastX := 0, m_mouseLastY := 0, m_yaw := 0, m_pitch := 0,
    m_gladLoaded := false, windowShouldClose := false,
    m_cameraRef := some (cameraOver K) }

/-- The application of the second copy over `ℚ`. -/
def appRoot : EngineRoot.Application ℚ := appRootOver ℚ

/-- No key is pressed. -/
def noKeys : Key → Bool := fun _ => false

/-- A frame in which nothing happens: no callback, no key, window shown. -/
def idle : FrameInput ℚ := ⟨0, [], noKeys, false⟩

/-- Two frames of half a fixed step each. -/
def twoHalfSteps : List (ℚ × FrameInput ℚ) := [(1 / 120, idle), (1 / 120, idle)]

/-- One frame whose time stamp lies three fixed steps after the previous
one, as happens after the 50 ms sleep of a minimised window. -/
def threeSteps : FrameInput ℚ := ⟨3 / 60, [], noKeys, false⟩

/-- An initialisation in which every step succeeds; `Renderer::Init` leaves
a camera and a spot light in the renderer. -/
def initOk : Engine.InitEnv ℚ :=
  ⟨true, true, 0, 0, true, fun _ => ⟨some camera, some light⟩, true⟩

/-- An initialisation in which the GL loader fails. -/
def initNoGlad : Engine.InitEnv ℚ :=
  ⟨true, true, 0, 0, false, fun _ => ⟨some camera, some light⟩, true⟩

/-- An initialisation of the second copy in which every step succeeds. -/
def rootInitOk : EngineRoot.InitEnv ℚ := ⟨true, true, 0, 0, true, true, camera, true⟩

/-- An initialisation of the second copy in which `Renderer::Init` fails
although `Startup` would have returned true. -/
def rootInitNoRenderer : EngineRoot.InitEnv ℚ := ⟨true, true, 0, 0, true, false, camera, true⟩

/-- A run of the first copy whose loader fails; three frames are on offer. -/
def runNoGlad : Engine.RunEnv ℚ := ⟨initNoGlad, 0, [idle, idle, idle]⟩

/-- A run of the second copy whose renderer fails to initialise. -/
def rootRunNoRenderer : EngineRoot.RunEnv ℚ :=
  ⟨rootInitNoRenderer, 0, fun _ => 0, [idle, idle, idle]⟩

/-- A frame in which only the End key is pressed. -/
def endFrame : FrameInput ℚ := ⟨2 / 60, [], fun k => decide (k = Key.END), false⟩

/-- A run that initialises, sees an idle frame and then a frame with End
pressed; a further frame is on offer. -/
def runEnd : Engine.RunEnv ℚ := ⟨initOk, 0, [idle] ++ endFrame :: [idle]⟩

/-- A frame with the window minimised. -/
def minimised : FrameInput ℚ := ⟨1 / 60, [], noKeys, true⟩

end Example

namespace Example

open Engine

end Example

namespace Example

open Engine

/-- The four spot-light keys held together, opposite keys included. -/
def spotKeys : Key → Bool :=
  fun k => decide (k = Key.T) || decide (k = Key.G) || decide (k = Key.Y) || decide (k = Key.H)

end Example

namespace Example

open Engine

/-- The first copy's application in a frame that lasted a tenth of a
second. -/
def movingApp : Engine.Application ℚ := { app with m_deltaTime := 1 / 10 }

/-- The second copy's application in a frame that lasted a tenth of a
second. -/
def movingAppRoot : EngineRoot.Application ℚ := { appRoot with m_deltaTime := 1 / 10 }

/-- Forward, left and both vertical keys held, with Left Shift. -/
def moveKeys : Key → Bool :=
  fun k => decide (k = Key.W) || decide (k = Key.A) || decide (k = Key.SPACE) ||
    decide (k = Key.C) || decide (k = Key.LEFT_SHIFT)

end Example

namespace Example

open Engine

/-- Forward held with Left Control. -/
def slowKeys : Key → Bool :=
  fun k => decide (k = Key.W) || decide (k = Key.LEFT_CONTROL)

/-- Forward held with Left Shift. -/
def fastKeys : Key → Bool :=
  fun k => decide (k = Key.W) || decide (k = Key.LEFT_SHIFT)

/-- Forward held with both modifiers. -/
def bothModifiers : Key → Bool :=
  fun k => decide (k = Key.W) || decide (k = Key.LEFT_CONTROL) || decide (k = Key.LEFT_SHIFT)

end Example

namespace Example

open Engine

/-- The first copy's application with the spot light one step above the
lower end of both ranges: angle 0.05, blur 0.005. -/
def narrowApp : Engine.Application ℚ :=
  { app with m_rendererInst := ⟨some camera, some ⟨5 / 100, 5 / 1000⟩⟩ }

/-- The two decrementing spot-light keys, G and H, held together. -/
def narrowKeys : Key → Bool :=
  fun k => decide (k = Key.G) || decide (k = Key.H)

end Example

namespace Example

open Engine

/-- A shown frame whose time stamp is a quarter of a second, no key and no
callback. -/
def quarterFrame : FrameInput ℚ := ⟨1 / 4, [], noKeys, false⟩

/-- A run of the first copy that initialises with `glfwGetTime()` returning
0 before the loop and then sees the frame at a quarter of a second. -/
def runQuarter : Engine.RunEnv ℚ := ⟨initOk, 0, [quarterFrame]⟩

end Example

/-! ## Lemmas -/

namespace Engine

section MouseLemmas

variable {K : Type} [LinearOrderedField K]

theorem MouseCallback.angles_pitch_mem (sens : K) (s : Application K) (x y : K) :
    -89 ≤ (MouseCallback.angles sens s x y).m_pitch ∧
      (MouseCallback.angles sens s x y).m_pitch ≤ 89 := by
  unfold MouseCallback.angles
  simp only []
  split_ifs with h1 h2
  · constructor <;> norm_num
  · constructor <;> norm_num
  · exact ⟨not_lt.mp h2, not_lt.mp h1⟩

theorem MouseCallback.angles_camera (sens : K) (s : Application K) (x y : K) :
    (MouseCallback.angles sens s x y).m_rendererInst = s.m_rendererInst := by
  rfl

theorem MouseCallback_eq_some (m : MathFns K) (sens : K) (s : Application K) (x y : K)
    (h : s.m_rendererInst.m_cameraRef ≠ none) :
    ∃ s', MouseCallback m sens s x y = some s' ∧
      s'.m_pitch = (MouseCallback.angles sens s x y).m_pitch ∧
      s'.m_yaw = (MouseCallback.angles sens s x y).m_yaw ∧
      s'.m_rendererInst.m_cameraRef ≠ none := by
  unfold MouseCallback
  simp only [MouseCallback.angles_camera]
  cases hc : s.m_rendererInst.m_cameraRef with
  | none => exact absurd hc h
  | some cam => exact ⟨_, rfl, rfl, rfl, by simp⟩

theorem mouseStates_spec (m : MathFns K) (sens : K) (ps : List (K × K)) :
    ∀ s : Application K, s.m_rendererInst.m_cameraRef ≠ none →
      (mouseStates m sens s ps).length = ps.length ∧
      ∀ t ∈ mouseStates m sens s ps,
        ∃ s', t = some s' ∧ -89 ≤ s'.m_pitch ∧ s'.m_pitch ≤ 89 := by
  induction ps with
  | nil => intro s _; simp [mouseStates]
  | cons p ps ih =>
    intro s h
    obtain ⟨s', hs', hp, _, hc⟩ := MouseCallback_eq_some m sens s p.1 p.2 h
    have hr := MouseCallback.angles_pitch_mem sens s p.1 p.2
    rw [← hp] at hr
    obtain ⟨hl, hall⟩ := ih s' hc
    simp only [mouseStates, hs', List.length_cons, hl, List.mem_cons, true_and]
    rintro t (rfl | ht)
    · exact ⟨s', rfl, hr⟩
    · exact hall t ht

end MouseLemmas

end Engine

namespace EngineRoot

open Engine

section MouseLemmas

variable {K : Type} [LinearOrderedField K]

theorem MouseCallback.rootAngles_pitch_mem (sens : K) (s : Application K) (x y : K) :
    -89 ≤ (MouseCallback.angles sens s x y).m_pitch ∧
      (MouseCallback.angles sens s x y).m_pitch ≤ 89 := by
  unfold MouseCallback.angles
  simp only []
  split_ifs with h1 h2
  · constructor <;> norm_num
  · constructor <;> norm_num
  · exact ⟨not_lt.mp h2, not_lt.mp h1⟩

theorem MouseCallback.rootAngles_camera (sens : K) (s : Application K) (x y : K) :
    (MouseCallback.angles sens s x y).m_cameraRef = s.m_cameraRef := by
  rfl

theorem rootMouseCallback_eq_some (m : MathFns K) (sens : K) (s : Application K) (x y : K)
    (h : s.m_cameraRef ≠ none) :
    ∃ s', MouseCallback m sens s x y = some s' ∧
      s'.m_pitch = (MouseCallback.angles sens s x y).m_pitch ∧
      s'.m_yaw = (MouseCallback.angles sens s x y).m_yaw ∧
      s'.m_cameraRef ≠ none := by
  unfold MouseCallback
  simp only [MouseCallback.rootAngles_camera]
  cases hc : s.m_cameraRef with
  | none => exact absurd hc h
  | some cam => exact ⟨_, rfl, rfl, rfl, by simp⟩

theorem rootMouseStates_spec (m : MathFns K) (sens : K) (ps : List (K × K)) :
    ∀ s : Application K, s.m_cameraRef ≠ none →
      (mouseStates m sens s ps).length = ps.length ∧
      ∀ t ∈ mouseStates m sens s ps,
        ∃ s', t = some s' ∧ -89 ≤ s'.m_pitch ∧ s'.m_pitch ≤ 89 := by
  induction ps with
  | nil => intro s _; simp [mouseStates]
  | cons p ps ih =>
    intro s h
    obtain ⟨s', hs', hp, _, hc⟩ := rootMouseCallback_eq_some m sens s p.1 p.2 h
    have hr := MouseCallback.rootAngles_pitch_mem sens s p.1 p.2
    rw [← hp] at hr
    obtain ⟨hl, hall⟩ := ih s' hc
    simp only [mouseStates, hs', List.length_cons, hl, List.mem_cons, true_and]
    rintro t (rfl | ht)
    · exact ⟨s', rfl, hr⟩
    · exact hall t ht

end MouseLemmas

end EngineRoot

namespace Engine

section BasisLemmas

variable {K : Type} [LinearOrderedField K]

theorem basis_orthonormal (m : MathFns K) (yaw pitch : K)
    (hcs : ∀ a, m.cos a ^ 2 + m.sin a ^ 2 = 1) (hone : m.sqrt 1 = 1)
    (hsq : ∀ x, 0 < x → m.sqrt (x ^ 2) = x)
    (hpos : 0 < m.cos (m.radians pitch)) :
    vec3.cross ⟨0, 1, 0⟩ (MouseCallback.forward m yaw pitch) ≠ ⟨0, 0, 0⟩ ∧
    length m (MouseCallback.forward m yaw pitch) = 1 ∧
    length m (MouseCallback.right m (MouseCallback.forward m yaw pitch)) = 1 ∧
    length m (MouseCallback.up (MouseCallback.forward m yaw pitch)
      (MouseCallback.right m (MouseCallback.forward m yaw pitch))) = 1 ∧
    vec3.dot (MouseCallback.forward m yaw pitch)
      (MouseCallback.right m (MouseCallback.forward m yaw pitch)) = 0 ∧
    vec3.dot (MouseCallback.forward m yaw pitch)
      (MouseCallback.up (MouseCallback.forward m yaw pitch)
        (MouseCallback.right m (MouseCallback.forward m yaw pitch))) = 0 ∧
    vec3.dot (MouseCallback.right m (MouseCallback.forward m yaw pitch))
      (MouseCallback.up (MouseCallback.forward m yaw pitch)
        (MouseCallback.right m (MouseCallback.forward m yaw pitch))) = 0 := by
  set forward := MouseCallback.forward m yaw pitch with hforward
  set right := MouseCallback.right m forward with hright
  set up := MouseCallback.up forward right with hup
  set cy := m.cos (m.radians yaw) with hcy
  set sy := m.sin (m.radians yaw) with hsy
  set cp := m.cos (m.radians pitch) with hcp
  set sp := m.sin (m.radians pitch) with hsp
  have h1 : cy ^ 2 + sy ^ 2 = 1 := hcs _
  have h2 : cp ^ 2 + sp ^ 2 = 1 := hcs _
  have hraw : vec3.dot (⟨cy * cp, sp, sy * cp⟩ : vec3 K) ⟨cy * cp, sp, sy * cp⟩ = 1 := by
    simp only [vec3.dot]
    have : cy * cp * (cy * cp) + sp * sp + sy * cp * (sy * cp)
        = cp ^ 2 * (cy ^ 2 + sy ^ 2) + sp ^ 2 := by ring
    rw [this, h1, mul_one, h2]
  have hf : forward = ⟨cy * cp, sp, sy * cp⟩ := by
    show normalize m _ = _
    simp only [normalize, hraw, hone, vec3.smul, div_one, one_mul]
  have hcross : vec3.cross (⟨0, 1, 0⟩ : vec3 K) forward = ⟨sy * cp, 0, -(cy * cp)⟩ := by
    rw [hf]; simp [vec3.cross]
  have hcd : vec3.dot (⟨sy * cp, 0, -(cy * cp)⟩ : vec3 K) ⟨sy * cp, 0, -(cy * cp)⟩ = cp ^ 2 := by
    simp only [vec3.dot]
    have : sy * cp * (sy * cp) + 0 * 0 + -(cy * cp) * -(cy * cp)
        = cp ^ 2 * (cy ^ 2 + sy ^ 2) := by ring
    rw [this, h1, mul_one]
  have hne : cp ≠ 0 := ne_of_gt hpos
  have hr : right = ⟨sy, 0, -cy⟩ := by
    show normalize m _ = _
    rw [hcross]
    simp only [normalize, hcd, hsq cp hpos, vec3.smul]
    congr 1
    · field_simp
    · simp
    · field_simp
  have hu : up = ⟨-(sp * cy), cp, -(sy * sp)⟩ := by
    show vec3.cross forward right = _
    rw [hf, hr]
    simp only [vec3.cross]
    congr 1
    · ring
    · have : sy * cp * sy - -cy * (cy * cp) = cp * (cy ^ 2 + sy ^ 2) := by ring
      rw [this, h1, mul_one]
    · ring
  refine ⟨?_, ?_, ?_, ?_, ?_, ?_, ?_⟩
  · rw [hcross]
    intro h
    have hx := congrArg vec3.x h
    have hz := congrArg vec3.z h
    simp only [neg_eq_zero, mul_eq_zero, hne, or_false] at hx hz
    rw [hx, hz] at h1
    norm_num at h1
  · rw [hf]; simp only [length, hraw, hone]
  · rw [hr]; simp only [length, vec3.dot]
    have : sy * sy + 0 * 0 + -cy * -cy = 1 := by rw [← h1]; ring
    rw [this, hone]
  · rw [hu]; simp only [length, vec3.dot]
    have : -(sp * cy) * -(sp * cy) + cp * cp + -(sy * sp) * -(sy * sp)
        = sp ^ 2 * (cy ^ 2 + sy ^ 2) + cp ^ 2 := by ring
    rw [this, h1, mul_one, add_comm, h2, hone]
  · rw [hf, hr]; simp only [vec3.dot]; ring
  · rw [hf, hu]; simp only [vec3.dot]; linear_combination (-(cp * sp)) * h1
  · rw [hr, hu]; simp only [vec3.dot]; ring

theorem real_cos_pos_of_clamped (p : ℝ) (h1 : -89 ≤ p) (h2 : p ≤ 89) :
    0 < Real.cos (p * (Real.pi / 180)) := by
  apply Real.cos_pos_of_mem_Ioo
  have hpi := Real.pi_pos
  constructor <;> nlinarith

theorem real_basis (yaw pitch : ℝ) (h1 : -89 ≤ pitch) (h2 : pitch ≤ 89)
    (cam : Camera ℝ)
    (hf : cam.forward = MouseCallback.forward
      ⟨Real.cos, Real.sin, Real.sqrt, fun d => d * (Real.pi / 180)⟩ yaw pitch)
    (hr : cam.right = MouseCallback.right
      ⟨Real.cos, Real.sin, Real.sqrt, fun d => d * (Real.pi / 180)⟩ cam.forward)
    (hu : cam.up = MouseCallback.up cam.forward cam.right) :
    Camera.orthonormal ⟨Real.cos, Real.sin, Real.sqrt, fun d => d * (Real.pi / 180)⟩ cam ∧
      vec3.cross ⟨0, 1, 0⟩ cam.forward ≠ ⟨0, 0, 0⟩ := by
  have h := basis_orthonormal
    (⟨Real.cos, Real.sin, Real.sqrt, fun d => d * (Real.pi / 180)⟩ : MathFns ℝ) yaw pitch
    (fun a => Real.cos_sq_add_sin_sq a) Real.sqrt_one
    (fun _ hx => Real.sqrt_sq (le_of_lt hx)) (real_cos_pos_of_clamped pitch h1 h2)
  unfold Camera.orthonormal
  rw [hu, hr, hf]
  exact ⟨h.2, h.1⟩

theorem MouseCallback_camera (m : MathFns K) (sens : K) (s : Application K) (x y : K)
    (h : s.m_rendererInst.m_cameraRef ≠ none) :
    ∃ s' cam, MouseCallback m sens s x y = some s' ∧
      s'.m_rendererInst.m_cameraRef = some cam ∧
      (-89 ≤ s'.m_pitch ∧ s'.m_pitch ≤ 89) ∧
      cam.forward = MouseCallback.forward m s'.m_yaw s'.m_pitch ∧
      cam.right = MouseCallback.right m cam.forward ∧
      cam.up = MouseCallback.up cam.forward cam.right := by
  have hp := MouseCallback.angles_pitch_mem sens s x y
  unfold MouseCallback
  simp only [MouseCallback.angles_camera]
  cases hc : s.m_rendererInst.m_cameraRef with
  | none => exact absurd hc h
  | some cam => exact ⟨_, _, rfl, rfl, hp, rfl, rfl, rfl⟩

theorem mouseStates_forall (m : MathFns K) (sens : K) (P : Application K → Prop)
    (hP : ∀ (s : Application K) (x y : K), s.m_rendererInst.m_cameraRef ≠ none →
      ∃ s', MouseCallback m sens s x y = some s' ∧ s'.m_rendererInst.m_cameraRef ≠ none ∧ P s')
    (ps : List (K × K)) :
    ∀ s : Application K, s.m_rendererInst.m_cameraRef ≠ none →
      ∀ t ∈ mouseStates m sens s ps, ∃ s', t = some s' ∧ P s' := by
  induction ps with
  | nil => intro s _; simp [mouseStates]
  | cons p ps ih =>
    intro s h
    obtain ⟨s', hs', hc, hp⟩ := hP s p.1 p.2 h
    simp only [mouseStates, hs', List.mem_cons]
    rintro t (rfl | ht)
    · exact ⟨s', rfl, hp⟩
    · exact ih s' hc t ht

end BasisLemmas

end Engine

namespace EngineRoot

open Engine

section BasisLemmas

variable {K : Type} [LinearOrderedField K]

theorem rootMouseCallback_camera (m : MathFns K) (sens : K) (s : Application K) (x y : K)
    (h : s.m_cameraRef ≠ none) :
    ∃ s' cam, MouseCallback m sens s x y = some s' ∧
      s'.m_cameraRef = some cam ∧
      (-89 ≤ s'.m_pitch ∧ s'.m_pitch ≤ 89) ∧
      cam.forward = Engine.MouseCallback.forward m s'.m_yaw s'.m_pitch ∧
      cam.right = Engine.MouseCallback.right m cam.forward ∧
      cam.up = Engine.MouseCallback.up cam.forward cam.right := by
  have hp := MouseCallback.rootAngles_pitch_mem sens s x y
  unfold MouseCallback
  simp only [MouseCallback.rootAngles_camera]
  cases hc : s.m_cameraRef with
  | none => exact absurd hc h
  | some cam => exact ⟨_, _, rfl, rfl, hp, rfl, rfl, rfl⟩

theorem rootMouseStates_forall (m : MathFns K) (sens : K) (P : Application K → Prop)
    (hP : ∀ (s : Application K) (x y : K), s.m_cameraRef ≠ none →
      ∃ s', MouseCallback m sens s x y = some s' ∧ s'.m_cameraRef ≠ none ∧ P s')
    (ps : List (K × K)) :
    ∀ s : Application K, s.m_cameraRef ≠ none →
      ∀ t ∈ mouseStates m sens s ps, ∃ s', t = some s' ∧ P s' := by
  induction ps with
  | nil => intro s _; simp [mouseStates]
  | cons p ps ih =>
    intro s h
    obtain ⟨s', hs', hc, hp⟩ := hP s p.1 p.2 h
    simp only [mouseStates, hs', List.mem_cons]
    rintro t (rfl | ht)
    · exact ⟨s', rfl, hp⟩
    · exact ih s' hc t ht

end BasisLemmas

end EngineRoot

namespace Engine

section InputLemmas

variable {K : Type}

theorem sameClock_refl (s : Application K) : sameClock s s :=
  ⟨rfl, rfl, rfl, rfl, rfl, rfl⟩

theorem sameClock_trans {a b c : Application K} (h1 : sameClock a b) (h2 : sameClock b c) :
    sameClock a c := by
  obtain ⟨p1, p2, p3, p4, p5, p6⟩ := h1
  obtain ⟨q1, q2, q3, q4, q5, q6⟩ := h2
  exact ⟨q1.trans p1, q2.trans p2, q3.trans p3, q4.trans p4, q5.trans p5, q6.trans p6⟩

theorem fixedUpdateArgs_append (a b : List (Event K)) :
    fixedUpdateArgs (a ++ b) = fixedUpdateArgs a ++ fixedUpdateArgs b := by
  induction a with
  | nil => rfl
  | cons e a ih => cases e <;> simp [fixedUpdateArgs, ih]

theorem updateArgs_append (a b : List (Event K)) :
    updateArgs (a ++ b) = updateArgs a ++ updateArgs b := by
  induction a with
  | nil => rfl
  | cons e a ih => cases e <;> simp [updateArgs, ih]

theorem fixedUpdateArgs_inputEffect (l : List (Event K))
    (h : ∀ e ∈ l, e.isInputEffect = true) : fixedUpdateArgs l = [] := by
  induction l with
  | nil => rfl
  | cons e l ih =>
    have he := h e (List.mem_cons_self _ _)
    have hl := ih (fun e' he' => h e' (List.mem_cons_of_mem _ he'))
    cases e <;> simp_all [fixedUpdateArgs, Event.isInputEffect]

theorem updateArgs_inputEffect (l : List (Event K))
    (h : ∀ e ∈ l, e.isInputEffect = true) : updateArgs l = [] := by
  induction l with
  | nil => rfl
  | cons e l ih =>
    have he := h e (List.mem_cons_self _ _)
    have hl := ih (fun e' he' => h e' (List.mem_cons_of_mem _ he'))
    cases e <;> simp_all [updateArgs, Event.isInputEffect]

theorem filter_inputEffect (p : Event K → Bool) (l : List (Event K))
    (hp : ∀ e : Event K, e.isInputEffect = true → p e = false)
    (h : ∀ e ∈ l, e.isInputEffect = true) : l.filter p = [] := by
  rw [List.filter_eq_nil_iff]
  intro e he
  simp [hp e (h e he)]

theorem ProcessInput.window_spec (s : Application K) (keys : Key → Bool) :
    sameClock s (ProcessInput.window s keys).1 ∧
      (∀ e ∈ (ProcessInput.window s keys).2, e.isInputEffect = true) ∧
      (ProcessInput.window s keys).1.windowShouldClose = (s.windowShouldClose || keys Key.END) ∧
      (ProcessInput.window s keys).1.m_rendererInst = s.m_rendererInst := by
  unfold ProcessInput.window
  refine ⟨?_, ?_, ?_, ?_⟩
  · split_ifs <;> exact sameClock_refl _
  · intro e he
    simp only [List.mem_append] at he
    rcases he with (he | he) | he
    · split_ifs at he
      · simp only [List.mem_singleton] at he; subst he; rfl
      · simp at he
    · split_ifs at he
      · simp only [List.mem_singleton] at he; subst he; rfl
      · simp at he
    · split_ifs at he
      · simp only [List.mem_singleton] at he; subst he; rfl
      · simp at he
  · split_ifs with h <;> simp [h]
  · split_ifs <;> rfl

variable [LinearOrderedField K]

theorem UpdateCamera_spec (s s' : Application K) (ev : List (Event K))
    (h : UpdateCamera s = some (s', ev)) :
    sameClock s s' ∧ (∀ e ∈ ev, e.isInputEffect = true) ∧
      s'.windowShouldClose = s.windowShouldClose ∧
      s'.m_rendererInst.m_cameraRef ≠ none ∧
      s'.m_rendererInst.m_lightSpot = s.m_rendererInst.m_lightSpot := by
  unfold UpdateCamera at h
  cases hc : s.m_rendererInst.m_cameraRef with
  | none => simp [hc] at h
  | some cam =>
    simp only [hc, Option.some.injEq, Prod.mk.injEq] at h
    obtain ⟨rfl, rfl⟩ := h
    refine ⟨sameClock_refl _, ?_, rfl, by simp, rfl⟩
    intro e he
    simp only [List.mem_cons, List.mem_singleton, List.not_mem_nil, or_false] at he
    rcases he with rfl | rfl <;> rfl

theorem SetDimensions_spec (s s' : Application K) (w h : Nat) (ev : List (Event K))
    (hs : SetDimensions s w h = some (s', ev)) :
    sameClock s s' ∧ (∀ e ∈ ev, e.isInputEffect = true) ∧
      s'.windowShouldClose = s.windowShouldClose ∧
      (s.m_rendererInst.m_cameraRef ≠ none → s'.m_rendererInst.m_cameraRef ≠ none) ∧
      s'.m_rendererInst.m_lightSpot = s.m_rendererInst.m_lightSpot := by
  unfold SetDimensions at hs
  split_ifs at hs with hc
  · obtain ⟨h1, h2, h3, h4, h5⟩ := UpdateCamera_spec _ _ _ hs
    exact ⟨h1, h2, h3, fun _ => h4, h5⟩
  · simp only [Option.some.injEq, Prod.mk.injEq] at hs
    obtain ⟨rfl, rfl⟩ := hs
    exact ⟨sameClock_refl _, by simp, rfl, fun h => h, rfl⟩

theorem SetDimensions_isSome (s : Application K) (w h : Nat) :
    ∃ s' ev, SetDimensions s w h = some (s', ev) := by
  unfold SetDimensions
  split_ifs with hc
  · unfold UpdateCamera
    cases hcam : s.m_rendererInst.m_cameraRef with
    | none => exact absurd hcam hc.1
    | some cam => exact ⟨_, _, rfl⟩
  · exact ⟨_, _, rfl⟩

theorem dispatch_spec (m : MathFns K) (s s' : Application K) (c : Callback K)
    (ev : List (Event K)) (h : dispatch m s c = some (s', ev)) :
    sameClock s s' ∧ (∀ e ∈ ev, e.isInputEffect = true) ∧
      (s.windowShouldClose = true → s'.windowShouldClose = true) ∧
      (s.m_rendererInst.m_cameraRef ≠ none → s'.m_rendererInst.m_cameraRef ≠ none) ∧
      s'.m_rendererInst.m_lightSpot = s.m_rendererInst.m_lightSpot := by
  cases c with
  | cursorPos x y =>
    simp only [dispatch] at h
    unfold MouseCallback at h
    simp only [MouseCallback.angles_camera] at h
    cases hc : s.m_rendererInst.m_cameraRef with
    | none => simp [hc] at h
    | some cam =>
      simp only [hc, Option.some.injEq, Prod.mk.injEq] at h
      obtain ⟨rfl, rfl⟩ := h
      exact ⟨⟨rfl, rfl, rfl, rfl, rfl, rfl⟩, by simp, fun h => h, by simp, rfl⟩
  | scroll x y =>
    simp only [dispatch, ScrollCallback] at h
    cases hc : s.m_rendererInst.m_cameraRef with
    | none => simp [hc] at h
    | some cam =>
      simp only [hc, Option.some.injEq, Prod.mk.injEq] at h
      obtain ⟨rfl, rfl⟩ := h
      refine ⟨sameClock_refl _, ?_, fun h => h, fun _ => by simp [hc], rfl⟩
      intro e he
      simp only [List.mem_singleton] at he
      subst he; rfl
  | framebufferSize w hh =>
    simp only [dispatch] at h
    cases hd : SetDimensions s w hh with
    | none => simp [hd] at h
    | some p =>
      obtain ⟨s1, ev1⟩ := p
      simp only [hd, Option.some.injEq, Prod.mk.injEq] at h
      obtain ⟨rfl, rfl⟩ := h
      obtain ⟨h1, h2, h3, h4, h5⟩ := SetDimensions_spec _ _ _ _ _ hd
      refine ⟨h1, ?_, fun h => by rw [h3]; exact h, h4, h5⟩
      intro e he
      simp only [List.mem_append, List.mem_singleton] at he
      rcases he with he | rfl
      · exact h2 e he
      · rfl
  | closeRequest =>
    simp only [dispatch, Option.some.injEq, Prod.mk.injEq] at h
    obtain ⟨rfl, rfl⟩ := h
    exact ⟨sameClock_refl _, by simp, fun _ => rfl, fun h => h, rfl⟩

theorem dispatch_isSome (m : MathFns K) (s : Application K) (c : Callback K)
    (hc : s.m_rendererInst.m_cameraRef ≠ none) :
    ∃ s' ev, dispatch m s c = some (s', ev) := by
  cases c with
  | cursorPos x y =>
    obtain ⟨s', h, _⟩ := MouseCallback_eq_some m sens s x y hc
    exact ⟨s', [], by simp [dispatch, h]⟩
  | scroll x y =>
    cases hcam : s.m_rendererInst.m_cameraRef with
    | none => exact absurd hcam hc
    | some cam => exact ⟨s, [Event.ModifyFovH (y * -3)], by simp [dispatch, ScrollCallback, hcam]⟩
  | framebufferSize w h =>
    obtain ⟨s', ev, hs⟩ := SetDimensions_isSome s w h
    exact ⟨s', ev ++ [Event.glViewport w h], by simp [dispatch, hs]⟩
  | closeRequest => exact ⟨_, _, rfl⟩

theorem pollEvents_spec (m : MathFns K) (cs : List (Callback K)) :
    ∀ (s s' : Application K) (ev : List (Event K)), pollEvents m s cs = some (s', ev) →
      sameClock s s' ∧ (∀ e ∈ ev, e.isInputEffect = true) ∧
      (s.windowShouldClose = true → s'.windowShouldClose = true) ∧
      (s.m_rendererInst.m_cameraRef ≠ none → s'.m_rendererInst.m_cameraRef ≠ none) ∧
      s'.m_rendererInst.m_lightSpot = s.m_rendererInst.m_lightSpot := by
  induction cs with
  | nil =>
    intro s s' ev h
    simp only [pollEvents, Option.some.injEq, Prod.mk.injEq] at h
    obtain ⟨rfl, rfl⟩ := h
    exact ⟨sameClock_refl _, by simp, fun h => h, fun h => h, rfl⟩
  | cons c cs ih =>
    intro s s' ev h
    simp only [pollEvents] at h
    cases hd : dispatch m s c with
    | none => simp [hd] at h
    | some p =>
      obtain ⟨s1, ev1⟩ := p
      simp only [hd] at h
      cases hp : pollEvents m s1 cs with
      | none => simp [hp] at h
      | some q =>
        obtain ⟨s2, ev2⟩ := q
        simp only [hp, Option.some.injEq, Prod.mk.injEq] at h
        obtain ⟨rfl, rfl⟩ := h
        obtain ⟨a1, a2, a3, a4, a5⟩ := dispatch_spec m s s1 c ev1 hd
        obtain ⟨b1, b2, b3, b4, b5⟩ := ih s1 s2 ev2 hp
        refine ⟨sameClock_trans a1 b1, ?_, fun h => b3 (a3 h), fun h => b4 (a4 h), b5.trans a5⟩
        intro e he
        rcases List.mem_append.mp he with he | he
        · exact a2 e he
        · exact b2 e he

theorem pollEvents_isSome (m : MathFns K) (cs : List (Callback K)) :
    ∀ s : Application K, s.m_rendererInst.m_cameraRef ≠ none →
      ∃ s' ev, pollEvents m s cs = some (s', ev) := by
  induction cs with
  | nil => intro s _; exact ⟨_, _, rfl⟩
  | cons c cs ih =>
    intro s hc
    obtain ⟨s1, ev1, h1⟩ := dispatch_isSome m s c hc
    have hc1 := (dispatch_spec m s s1 c ev1 h1).2.2.2.1 hc
    obtain ⟨s2, ev2, h2⟩ := ih s1 hc1
    exact ⟨s2, ev1 ++ ev2, by simp [pollEvents, h1, h2]⟩

theorem ProcessInput.keyT_spec (r r' : Renderer K) (keys : Key → Bool)
    (h : ProcessInput.keyT r keys = some r') :
    r'.m_cameraRef = r.m_cameraRef ∧ (r.m_lightSpot ≠ none → r'.m_lightSpot ≠ none) := by
  unfold ProcessInput.keyT at h
  split_ifs at h with hk
  · cases hl : r.m_lightSpot with
    | none => simp [hl] at h
    | some l =>
      simp only [hl] at h
      split_ifs at h <;>
        (simp only [Option.some.injEq] at h; subst h; simp [hl])
  · simp only [Option.some.injEq] at h; subst h; exact ⟨rfl, fun h => h⟩

theorem ProcessInput.keyG_spec (r r' : Renderer K) (keys : Key → Bool)
    (h : ProcessInput.keyG r keys = some r') :
    r'.m_cameraRef = r.m_cameraRef ∧ (r.m_lightSpot ≠ none → r'.m_lightSpot ≠ none) := by
  unfold ProcessInput.keyG at h
  split_ifs at h with hk
  · cases hl : r.m_lightSpot with
    | none => simp [hl] at h
    | some l =>
      simp only [hl] at h
      split_ifs at h <;>
        (simp only [Option.some.injEq] at h; subst h; simp [hl])
  · simp only [Option.some.injEq] at h; subst h; exact ⟨rfl, fun h => h⟩

theorem ProcessInput.keyY_spec (r r' : Renderer K) (keys : Key → Bool)
    (h : ProcessInput.keyY r keys = some r') :
    r'.m_cameraRef = r.m_cameraRef ∧ (r.m_lightSpot ≠ none → r'.m_lightSpot ≠ none) := by
  unfold ProcessInput.keyY at h
  split_ifs at h with hk
  · cases hl : r.m_lightSpot with
    | none => simp [hl] at h
    | some l =>
      simp only [hl] at h
      split_ifs at h <;>
        (simp only [Option.some.injEq] at h; subst h; simp [hl])
  · simp only [Option.some.injEq] at h; subst h; exact ⟨rfl, fun h => h⟩

theorem ProcessInput.keyH_spec (r r' : Renderer K) (keys : Key → Bool)
    (h : ProcessInput.keyH r keys = some r') :
    r'.m_cameraRef = r.m_cameraRef ∧ (r.m_lightSpot ≠ none → r'.m_lightSpot ≠ none) := by
  unfold ProcessInput.keyH at h
  split_ifs at h with hk
  · cases hl : r.m_lightSpot with
    | none => simp [hl] at h
    | some l =>
      simp only [hl] at h
      split_ifs at h <;>
        (simp only [Option.some.injEq] at h; subst h; simp [hl])
  · simp only [Option.some.injEq] at h; subst h; exact ⟨rfl, fun h => h⟩

theorem ProcessInput.keyT_isSome (r : Renderer K) (keys : Key → Bool)
    (h : r.m_lightSpot ≠ none) : ∃ r', ProcessInput.keyT r keys = some r' := by
  unfold ProcessInput.keyT
  cases hl : r.m_lightSpot with
  | none => exact absurd hl h
  | some l =>
    simp only []
    split_ifs <;> exact ⟨_, rfl⟩

theorem ProcessInput.keyG_isSome (r : Renderer K) (keys : Key → Bool)
    (h : r.m_lightSpot ≠ none) : ∃ r', ProcessInput.keyG r keys = some r' := by
  unfold ProcessInput.keyG
  cases hl : r.m_lightSpot with
  | none => exact absurd hl h
  | some l =>
    simp only []
    split_ifs <;> exact ⟨_, rfl⟩

theorem ProcessInput.keyY_isSome (r : Renderer K) (keys : Key → Bool)
    (h : r.m_lightSpot ≠ none) : ∃ r', ProcessInput.keyY r keys = some r' := by
  unfold ProcessInput.keyY
  cases hl : r.m_lightSpot with
  | none => exact absurd hl h
  | some l =>
    simp only []
    split_ifs <;> exact ⟨_, rfl⟩

theorem ProcessInput.keyH_isSome (r : Renderer K) (keys : Key → Bool)
    (h : r.m_lightSpot ≠ none) : ∃ r', ProcessInput.keyH r keys = some r' := by
  unfold ProcessInput.keyH
  cases hl : r.m_lightSpot with
  | none => exact absurd hl h
  | some l =>
    simp only []
    split_ifs <;> exact ⟨_, rfl⟩

theorem ProcessInput.spotLight_spec (r r' : Renderer K) (keys : Key → Bool)
    (h : ProcessInput.spotLight r keys = some r') :
    r'.m_cameraRef = r.m_cameraRef ∧ (r.m_lightSpot ≠ none → r'.m_lightSpot ≠ none) := by
  unfold ProcessInput.spotLight at h
  cases h1 : ProcessInput.keyT r keys with
  | none => simp [h1] at h
  | some r1 =>
    simp only [h1] at h
    cases h2 : ProcessInput.keyG r1 keys with
    | none => simp [h2] at h
    | some r2 =>
      simp only [h2] at h
      cases h3 : ProcessInput.keyY r2 keys with
      | none => simp [h3] at h
      | some r3 =>
        simp only [h3] at h
        obtain ⟨a1, a2⟩ := ProcessInput.keyT_spec _ _ _ h1
        obtain ⟨b1, b2⟩ := ProcessInput.keyG_spec _ _ _ h2
        obtain ⟨c1, c2⟩ := ProcessInput.keyY_spec _ _ _ h3
        obtain ⟨d1, d2⟩ := ProcessInput.keyH_spec _ _ _ h
        exact ⟨d1.trans (c1.trans (b1.trans a1)), fun hl => d2 (c2 (b2 (a2 hl)))⟩

theorem ProcessInput.spotLight_isSome (r : Renderer K) (keys : Key → Bool)
    (h : r.m_lightSpot ≠ none) : ∃ r', ProcessInput.spotLight r keys = some r' := by
  obtain ⟨r1, h1⟩ := ProcessInput.keyT_isSome r keys h
  have l1 := (ProcessInput.keyT_spec _ _ _ h1).2 h
  obtain ⟨r2, h2⟩ := ProcessInput.keyG_isSome r1 keys l1
  have l2 := (ProcessInput.keyG_spec _ _ _ h2).2 l1
  obtain ⟨r3, h3⟩ := ProcessInput.keyY_isSome r2 keys l2
  have l3 := (ProcessInput.keyY_spec _ _ _ h3).2 l2
  obtain ⟨r4, h4⟩ := ProcessInput.keyH_isSome r3 keys l3
  exact ⟨r4, by simp [ProcessInput.spotLight, h1, h2, h3, h4]⟩

theorem ProcessInput_spec (s s' : Application K) (keys : Key → Bool) (ev : List (Event K))
    (h : ProcessInput s keys = some (s', ev)) :
    sameClock s s' ∧ (∀ e ∈ ev, e.isInputEffect = true) ∧
      s'.windowShouldClose = (s.windowShouldClose || keys Key.END) ∧
      s'.m_rendererInst.m_cameraRef = s.m_rendererInst.m_cameraRef ∧
      (s.m_rendererInst.m_lightSpot ≠ none → s'.m_rendererInst.m_lightSpot ≠ none) := by
  obtain ⟨w1, w2, w3, w4⟩ := ProcessInput.window_spec s keys
  unfold ProcessInput at h
  simp only [] at h
  cases hsp : ProcessInput.spotLight (ProcessInput.window s keys).1.m_rendererInst keys with
  | none => simp [hsp] at h
  | some r =>
    simp only [hsp] at h
    obtain ⟨p1, p2⟩ := ProcessInput.spotLight_spec _ _ _ hsp
    cases hc : r.m_cameraRef with
    | none => simp [hc] at h
    | some cam =>
      simp only [hc, Option.some.injEq, Prod.mk.injEq] at h
      obtain ⟨rfl, rfl⟩ := h
      refine ⟨w1, ?_, w3, ?_, ?_⟩
      · intro e he
        rcases List.mem_append.mp he with he | he
        · exact w2 e he
        · simp only [List.mem_singleton] at he; subst he; rfl
      · show r.m_cameraRef = _
        rw [p1, w4]
      · intro hl
        show r.m_lightSpot ≠ none
        exact p2 (by rw [w4]; exact hl)

theorem ProcessInput_end (s s' : Application K) (keys : Key → Bool) (ev : List (Event K))
    (h : ProcessInput s keys = some (s', ev)) (hend : keys Key.END = true) :
    ∃ b, ev = Event.glfwSetWindowShouldClose :: b := by
  unfold ProcessInput at h
  simp only [] at h
  cases hsp : ProcessInput.spotLight (ProcessInput.window s keys).1.m_rendererInst keys with
  | none => simp [hsp] at h
  | some r =>
    simp only [hsp] at h
    cases hc : r.m_cameraRef with
    | none => simp [hc] at h
    | some cam =>
      simp only [hc, Option.some.injEq, Prod.mk.injEq] at h
      obtain ⟨_, rfl⟩ := h
      unfold ProcessInput.window
      simp only [hend, if_true, List.singleton_append, List.cons_append]
      exact ⟨_, rfl⟩

theorem ProcessInput_isSome (s : Application K) (keys : Key → Bool) (h : Ready s) :
    ∃ s' ev, ProcessInput s keys = some (s', ev) := by
  obtain ⟨_, _, _, w4⟩ := ProcessInput.window_spec s keys
  obtain ⟨r, hr⟩ := ProcessInput.spotLight_isSome
    (ProcessInput.window s keys).1.m_rendererInst keys (by rw [w4]; exact h.2)
  have hc : r.m_cameraRef ≠ none := by
    rw [(ProcessInput.spotLight_spec _ _ _ hr).1, w4]; exact h.1
  unfold ProcessInput
  simp only [hr]
  cases hcam : r.m_cameraRef with
  | none => exact absurd hcam hc
  | some cam => exact ⟨_, _, rfl⟩

end InputLemmas

end Engine

namespace Engine

section FrameLemmas

variable {K : Type} [LinearOrderedField K] [FloorRing K]

theorem frame.timers_spec (s : Application K) (now : K) :
    (frame.timers s now).m_currentTime = now ∧
    (frame.timers s now).m_prevTime = s.m_currentTime ∧
    (frame.timers s now).m_deltaTime = now - s.m_currentTime ∧
    (frame.timers s now).m_fixedTimer = s.m_fixedTimer + (now - s.m_currentTime) ∧
    (frame.timers s now).m_fixedDeltaTime = s.m_fixedDeltaTime ∧
    (frame.timers s now).windowShouldClose = s.windowShouldClose ∧
    (frame.timers s now).m_rendererInst = s.m_rendererInst := by
  unfold frame.timers
  simp only []
  split_ifs <;> exact ⟨rfl, rfl, rfl, rfl, rfl, rfl, rfl⟩

theorem frame_spec (m : MathFns K) (s s' : Application K) (i : FrameInput K)
    (ev : List (Event K)) (h : frame m s i = some (s', ev)) :
    ∃ inp : List (Event K), (∀ e ∈ inp, e.isInputEffect = true) ∧
      ev = [Event.glfwGetTime, Event.glfwPollEvents] ++ inp
        ++ (if s.m_fixedTimer + (i.now - s.m_currentTime) ≥ s.m_fixedDeltaTime
            then [Event.FixedUpdate s.m_fixedDeltaTime] else [])
        ++ [Event.Update (i.now - s.m_currentTime)]
        ++ (if i.iconified then (if i.now - s.m_currentTime < 50 then [Event.Sleep 50] else [])
            else [Event.Draw i.now, Event.glfwSwapBuffers]) ∧
      s'.m_currentTime = i.now ∧
      s'.m_deltaTime = i.now - s.m_currentTime ∧
      s'.m_fixedDeltaTime = s.m_fixedDeltaTime ∧
      s'.m_fixedTimer =
        (if s.m_fixedTimer + (i.now - s.m_currentTime) ≥ s.m_fixedDeltaTime
         then s.m_fixedTimer + (i.now - s.m_currentTime) - s.m_fixedDeltaTime
         else s.m_fixedTimer + (i.now - s.m_currentTime)) ∧
      (i.keys Key.END = true → s'.windowShouldClose = true) ∧
      (Ready s → Ready s') ∧
      (i.keys Key.END = true → ∃ a b, inp = a ++ Event.glfwSetWindowShouldClose :: b) := by
  obtain ⟨t1, _, t3, t4, t5, _, t7⟩ := frame.timers_spec s i.now
  unfold frame at h
  simp only [] at h
  cases hp : pollEvents m (frame.timers s i.now) i.callbacks with
  | none => simp [hp] at h
  | some p =>
    obtain ⟨s1, evPoll⟩ := p
    simp only [hp] at h
    cases hi : ProcessInput s1 i.keys with
    | none => simp [hi] at h
    | some q =>
      obtain ⟨s2, evInput⟩ := q
      simp only [hi, Option.some.injEq, Prod.mk.injEq] at h
      obtain ⟨hs', hev⟩ := h
      obtain ⟨a1, a2, _, a4, a5⟩ := pollEvents_spec m _ _ _ _ hp
      obtain ⟨b1, b2, b3, b4, b5⟩ := ProcessInput_spec _ _ _ _ hi
      obtain ⟨c1, _, c3, c4, c5, _⟩ := sameClock_trans a1 b1
      rw [t1] at c1; rw [t3] at c3; rw [t4] at c4; rw [t5] at c5
      have hfix1 : (frame.fixed s2).1.m_currentTime = s2.m_currentTime := by
        unfold frame.fixed; split_ifs <;> rfl
      have hfix2 : (frame.fixed s2).1.m_deltaTime = s2.m_deltaTime := by
        unfold frame.fixed; split_ifs <;> rfl
      have hfix3 : (frame.fixed s2).1.m_fixedDeltaTime = s2.m_fixedDeltaTime := by
        unfold frame.fixed; split_ifs <;> rfl
      have hfix4 : (frame.fixed s2).1.windowShouldClose = s2.windowShouldClose := by
        unfold frame.fixed; split_ifs <;> rfl
      have hfix5 : (frame.fixed s2).1.m_rendererInst = s2.m_rendererInst := by
        unfold frame.fixed; split_ifs <;> rfl
      have hfix6 : (frame.fixed s2).1.m_fixedTimer =
          (if s2.m_fixedTimer ≥ s2.m_fixedDeltaTime then s2.m_fixedTimer - s2.m_fixedDeltaTime
           else s2.m_fixedTimer) := by
        unfold frame.fixed; split_ifs <;> rfl
      have hfix7 : (frame.fixed s2).2 =
          (if s2.m_fixedTimer ≥ s2.m_fixedDeltaTime then [Event.FixedUpdate s2.m_fixedDeltaTime]
           else []) := by
        unfold frame.fixed; split_ifs <;> rfl
      refine ⟨evPoll ++ evInput, ?_, ?_, ?_, ?_, ?_, ?_, ?_, ?_, ?_⟩
      · intro e he
        rcases List.mem_append.mp he with he | he
        · exact a2 e he
        · exact b2 e he
      · rw [← hev, hfix7]
        unfold frame.present
        rw [hfix2, hfix1, c1, c3, c4, c5]
        simp only [List.append_assoc]
      · rw [← hs', hfix1, c1]
      · rw [← hs', hfix2, c3]
      · rw [← hs', hfix3, c5]
      · rw [← hs', hfix6, c4, c5]
      · intro hend
        rw [← hs', hfix4, b3, hend]
        simp
      · intro hr
        rw [← hs']
        constructor
        · show (frame.fixed s2).1.m_rendererInst.m_cameraRef ≠ none
          rw [hfix5, b4]
          exact a4 (by rw [t7]; exact hr.1)
        · show (frame.fixed s2).1.m_rendererInst.m_lightSpot ≠ none
          rw [hfix5]
          exact b5 (by rw [a5, t7]; exact hr.2)
      · intro hend
        obtain ⟨b, hb⟩ := ProcessInput_end _ _ _ _ hi hend
        exact ⟨evPoll, b, by rw [hb]⟩

theorem frame_isSome (m : MathFns K) (s : Application K) (i : FrameInput K) (h : Ready s) :
    ∃ s' ev, frame m s i = some (s', ev) := by
  obtain ⟨_, _, _, _, _, _, t7⟩ := frame.timers_spec s i.now
  obtain ⟨s1, ev1, h1⟩ := pollEvents_isSome m i.callbacks (frame.timers s i.now)
    (by rw [t7]; exact h.1)
  obtain ⟨_, _, _, a4, a5⟩ := pollEvents_spec m _ _ _ _ h1
  have hr1 : Ready s1 := ⟨a4 (by rw [t7]; exact h.1), by rw [a5, t7]; exact h.2⟩
  obtain ⟨s2, ev2, h2⟩ := ProcessInput_isSome s1 i.keys hr1
  have hsome : (frame m s i).isSome = true := by
    unfold frame
    simp only [h1, h2, Option.isSome_some]
  obtain ⟨p, hp⟩ := Option.isSome_iff_exists.mp hsome
  exact ⟨p.1, p.2, hp⟩

end FrameLemmas

end Engine

namespace Engine

section LoopLemmas

variable {K : Type}

theorem fixedUpdateArgs_flatten_nil (ls : List (List (Event K)))
    (h : ∀ l ∈ ls, fixedUpdateArgs l = []) : fixedUpdateArgs ls.flatten = [] := by
  induction ls with
  | nil => rfl
  | cons l ls ih =>
    rw [List.flatten_cons, fixedUpdateArgs_append, h l (List.mem_cons_self _ _),
      ih (fun l' hl' => h l' (List.mem_cons_of_mem _ hl'))]
    rfl

theorem framesOfDeltas_length [Add K] (l : List (K × FrameInput K)) :
    ∀ t : K, (framesOfDeltas t l).length = l.length := by
  induction l with
  | nil => intro t; rfl
  | cons q l ih => intro t; simp [framesOfDeltas, ih]

variable [LinearOrderedField K] [FloorRing K]

theorem loop_nil_state (m : MathFns K) (s : Application K) :
    (loop m s []).state = s ∧ (loop m s []).iterations = [] := by
  unfold loop
  split_ifs <;> exact ⟨rfl, rfl⟩

theorem loop_cons_eq (m : MathFns K) (s : Application K) (i : FrameInput K)
    (rest : List (FrameInput K)) :
    loop m s (i :: rest) =
      if s.windowShouldClose then ⟨s, [], LoopStatus.exited⟩
      else
        match frame m s i with
        | none => ⟨s, [], LoopStatus.fault⟩
        | some (s', ev) =>
          ⟨(loop m s' rest).state, ev :: (loop m s' rest).iterations, (loop m s' rest).status⟩ := by
  rw [loop]

theorem loop_cons_ran (m : MathFns K) (s : Application K) (i : FrameInput K)
    (rest : List (FrameInput K))
    (h : (loop m s (i :: rest)).iterations.length = (i :: rest).length) :
    s.windowShouldClose = false ∧ ∃ s' ev, frame m s i = some (s', ev) ∧
      (loop m s (i :: rest)).iterations = ev :: (loop m s' rest).iterations ∧
      (loop m s (i :: rest)).state = (loop m s' rest).state ∧
      (loop m s (i :: rest)).status = (loop m s' rest).status ∧
      (loop m s' rest).iterations.length = rest.length := by
  rw [loop_cons_eq] at h ⊢
  cases hc : s.windowShouldClose with
  | true => simp [hc] at h
  | false =>
    simp only [hc, Bool.false_eq_true, if_false] at h ⊢
    cases hf : frame m s i with
    | none => simp [hf] at h
    | some p =>
      obtain ⟨s', ev⟩ := p
      simp only [hf, List.length_cons, add_left_inj] at h
      exact ⟨trivial, s', ev, rfl, rfl, rfl, rfl, h⟩

theorem frame_fixedUpdateArgs (m : MathFns K) (s s' : Application K) (i : FrameInput K)
    (ev : List (Event K)) (h : frame m s i = some (s', ev)) :
    fixedUpdateArgs ev =
      (if s.m_fixedTimer + (i.now - s.m_currentTime) ≥ s.m_fixedDeltaTime
       then [s.m_fixedDeltaTime] else []) := by
  obtain ⟨inp, h1, h2, _⟩ := frame_spec m s s' i ev h
  rw [h2]
  simp only [fixedUpdateArgs_append, fixedUpdateArgs_inputEffect inp h1]
  split_ifs <;> simp [fixedUpdateArgs]

theorem loop_no_fixed (m : MathFns K) (dis : List (K × FrameInput K)) :
    ∀ s : Application K, (∀ p ∈ dis, 0 ≤ p.1) →
      s.m_fixedTimer + (dis.map Prod.fst).sum < s.m_fixedDeltaTime →
      (loop m s (framesOfDeltas s.m_currentTime dis)).iterations.length = dis.length →
      (∀ l ∈ (loop m s (framesOfDeltas s.m_currentTime dis)).iterations,
          fixedUpdateArgs l = []) ∧
        (loop m s (framesOfDeltas s.m_currentTime dis)).state.m_fixedTimer
          = s.m_fixedTimer + (dis.map Prod.fst).sum := by
  induction dis with
  | nil =>
    intro s _ _ _
    simp only [framesOfDeltas, (loop_nil_state m s).1, (loop_nil_state m s).2, List.map_nil,
      List.sum_nil, add_zero, List.not_mem_nil, false_implies, implies_true, and_self]
  | cons p rest ih =>
    intro s hnn hlt hrun
    simp only [framesOfDeltas] at hrun ⊢
    have hrun' := hrun
    rw [List.length_cons, ← framesOfDeltas_length rest (s.m_currentTime + p.1),
      ← List.length_cons] at hrun'
    obtain ⟨_, s', ev, hf, hit, hst, _, hrest⟩ := loop_cons_ran m s _ _ hrun'
    obtain ⟨_, _, _, hcur, _, hstep, htimer, _⟩ := frame_spec m s s' _ ev hf
    have hargs := frame_fixedUpdateArgs m s s' _ ev hf
    simp only [add_sub_cancel_left] at htimer hargs hcur
    have hp0 : 0 ≤ p.1 := hnn p (List.mem_cons_self _ _)
    have hrest0 : 0 ≤ (rest.map Prod.fst).sum :=
      List.sum_nonneg (fun x hx => by
        obtain ⟨q, hq, rfl⟩ := List.mem_map.mp hx
        exact hnn q (List.mem_cons_of_mem _ hq))
    simp only [List.map_cons, List.sum_cons] at hlt ⊢
    have hno : ¬ (s.m_fixedTimer + p.1 ≥ s.m_fixedDeltaTime) := by
      intro hge
      linarith
    rw [if_neg hno] at htimer hargs
    rw [framesOfDeltas_length] at hrest
    have ih' := ih s' (fun q hq => hnn q (List.mem_cons_of_mem _ hq))
      (by rw [htimer, hstep]; linarith)
    rw [hcur] at ih'
    obtain ⟨ih1, ih2⟩ := ih' hrest
    rw [hit, hst, ih2, htimer]
    refine ⟨?_, by ring⟩
    intro l hl
    rcases List.mem_cons.mp hl with rfl | hl
    · exact hargs
    · exact ih1 l hl

theorem loop_one_fixed (m : MathFns K) (dis : List (K × FrameInput K)) :
    ∀ s : Application K, (∀ p ∈ dis, 0 ≤ p.1) →
      0 < s.m_fixedDeltaTime → s.m_fixedTimer < s.m_fixedDeltaTime →
      s.m_fixedTimer + (dis.map Prod.fst).sum = s.m_fixedDeltaTime →
      (loop m s (framesOfDeltas s.m_currentTime dis)).iterations.length = dis.length →
      (∃ pre it post,
        (loop m s (framesOfDeltas s.m_currentTime dis)).iterations = pre ++ it :: post ∧
        (∀ l ∈ pre, fixedUpdateArgs l = []) ∧
        fixedUpdateArgs it = [s.m_fixedDeltaTime] ∧
        (∀ l ∈ post, fixedUpdateArgs l = []) ∧
        s.m_fixedTimer + ((dis.take pre.length).map Prod.fst).sum < s.m_fixedDeltaTime ∧
        s.m_fixedTimer + ((dis.take (pre.length + 1)).map Prod.fst).sum = s.m_fixedDeltaTime) ∧
      (loop m s (framesOfDeltas s.m_currentTime dis)).state.m_fixedTimer = 0 := by
  induction dis with
  | nil =>
    intro s _ _ hlt hsum _
    simp only [List.map_nil, List.sum_nil, add_zero] at hsum
    exact absurd hsum (ne_of_lt hlt)
  | cons p rest ih =>
    intro s hnn hpos hlt hsum hrun
    simp only [framesOfDeltas] at hrun ⊢
    have hrun' := hrun
    rw [List.length_cons, ← framesOfDeltas_length rest (s.m_currentTime + p.1),
      ← List.length_cons] at hrun'
    obtain ⟨_, s', ev, hf, hit, hst, _, hrest⟩ := loop_cons_ran m s _ _ hrun'
    obtain ⟨_, _, _, hcur, _, hstep, htimer, _⟩ := frame_spec m s s' _ ev hf
    have hargs := frame_fixedUpdateArgs m s s' _ ev hf
    simp only [add_sub_cancel_left] at htimer hargs hcur
    have hp0 : 0 ≤ p.1 := hnn p (List.mem_cons_self _ _)
    have hnn' : ∀ q ∈ rest, 0 ≤ q.1 := fun q hq => hnn q (List.mem_cons_of_mem _ hq)
    have hrest0 : 0 ≤ (rest.map Prod.fst).sum :=
      List.sum_nonneg (fun x hx => by
        obtain ⟨q, hq, rfl⟩ := List.mem_map.mp hx
        exact hnn' q hq)
    simp only [List.map_cons, List.sum_cons] at hsum
    rw [framesOfDeltas_length] at hrest
    rw [hit, hst]
    by_cases hge : s.m_fixedTimer + p.1 ≥ s.m_fixedDeltaTime
    · rw [if_pos hge] at htimer hargs
      have heq : s.m_fixedTimer + p.1 = s.m_fixedDeltaTime := le_antisymm (by linarith) hge
      have hzero : s'.m_fixedTimer = 0 := by rw [htimer, heq, sub_self]
      have hno := loop_no_fixed m rest s' hnn' (by rw [hzero, hstep]; linarith)
      rw [hcur] at hno
      obtain ⟨n1, n2⟩ := hno hrest
      refine ⟨⟨[], ev, _, rfl, by simp, hargs, n1, ?_, ?_⟩, ?_⟩
      · simpa using hlt
      · simpa using heq
      · rw [n2, hzero]; linarith
    · rw [if_neg hge] at htimer hargs
      have ih' := ih s' hnn' (by rw [hstep]; exact hpos)
        (by rw [htimer, hstep]; exact not_le.mp hge)
        (by rw [htimer, hstep]; linarith)
      rw [hcur] at ih'
      obtain ⟨⟨pre, it, post, e1, e2, e3, e4, e5, e6⟩, e7⟩ := ih' hrest
      refine ⟨⟨ev :: pre, it, post, by rw [e1]; rfl, ?_, by rw [e3, hstep], e4, ?_, ?_⟩, e7⟩
      · intro l hl
        rcases List.mem_cons.mp hl with rfl | hl
        · exact hargs
        · exact e2 l hl
      · rw [htimer, hstep] at e5
        simp only [List.length_cons, List.take_succ_cons, List.map_cons, List.sum_cons]
        linarith
      · rw [htimer, hstep] at e6
        simp only [List.length_cons, List.take_succ_cons, List.map_cons, List.sum_cons]
        linarith

end LoopLemmas

end Engine

namespace Engine

section OpenLemmas

variable {K : Type} [LinearOrderedField K]

theorem dispatch_open (m : MathFns K) (s s' : Application K) (c : Callback K)
    (ev : List (Event K)) (h : dispatch m s c = some (s', ev))
    (hc : c.isCloseRequest = false) : s'.windowShouldClose = s.windowShouldClose := by
  cases c with
  | cursorPos x y =>
    simp only [dispatch] at h
    unfold MouseCallback at h
    simp only [MouseCallback.angles_camera] at h
    cases hcam : s.m_rendererInst.m_cameraRef with
    | none => simp [hcam] at h
    | some cam =>
      simp only [hcam, Option.some.injEq, Prod.mk.injEq] at h
      obtain ⟨rfl, rfl⟩ := h
      rfl
  | scroll x y =>
    simp only [dispatch, ScrollCallback] at h
    cases hcam : s.m_rendererInst.m_cameraRef with
    | none => simp [hcam] at h
    | some cam =>
      simp only [hcam, Option.some.injEq, Prod.mk.injEq] at h
      obtain ⟨rfl, rfl⟩ := h
      rfl
  | framebufferSize w hh =>
    simp only [dispatch] at h
    cases hd : SetDimensions s w hh with
    | none => simp [hd] at h
    | some p =>
      obtain ⟨s1, ev1⟩ := p
      simp only [hd, Option.some.injEq, Prod.mk.injEq] at h
      obtain ⟨rfl, rfl⟩ := h
      exact (SetDimensions_spec _ _ _ _ _ hd).2.2.1
  | closeRequest => simp [Callback.isCloseRequest] at hc

theorem pollEvents_open (m : MathFns K) (cs : List (Callback K)) :
    ∀ (s s' : Application K) (ev : List (Event K)), pollEvents m s cs = some (s', ev) →
      (∀ c ∈ cs, c.isCloseRequest = false) → s'.windowShouldClose = s.windowShouldClose := by
  induction cs with
  | nil =>
    intro s s' ev h _
    simp only [pollEvents, Option.some.injEq, Prod.mk.injEq] at h
    obtain ⟨rfl, rfl⟩ := h
    rfl
  | cons c cs ih =>
    intro s s' ev h hc
    simp only [pollEvents] at h
    cases hd : dispatch m s c with
    | none => simp [hd] at h
    | some p =>
      obtain ⟨s1, ev1⟩ := p
      simp only [hd] at h
      cases hp : pollEvents m s1 cs with
      | none => simp [hp] at h
      | some q =>
        obtain ⟨s2, ev2⟩ := q
        simp only [hp, Option.some.injEq, Prod.mk.injEq] at h
        obtain ⟨rfl, rfl⟩ := h
        rw [ih s1 s2 ev2 hp (fun c' hc' => hc c' (List.mem_cons_of_mem _ hc')),
          dispatch_open m s s1 c ev1 hd (hc c (List.mem_cons_self _ _))]

variable [FloorRing K]

theorem frame_open (m : MathFns K) (s s' : Application K) (i : FrameInput K)
    (ev : List (Event K)) (h : frame m s i = some (s', ev)) (hi : i.keepsOpen) :
    s'.windowShouldClose = s.windowShouldClose := by
  obtain ⟨_, _, _, _, _, t6, _⟩ := frame.timers_spec s i.now
  unfold frame at h
  simp only [] at h
  cases hp : pollEvents m (frame.timers s i.now) i.callbacks with
  | none => simp [hp] at h
  | some p =>
    obtain ⟨s1, evPoll⟩ := p
    simp only [hp] at h
    cases hin : ProcessInput s1 i.keys with
    | none => simp [hin] at h
    | some q =>
      obtain ⟨s2, evInput⟩ := q
      simp only [hin, Option.some.injEq, Prod.mk.injEq] at h
      obtain ⟨hs', _⟩ := h
      have h1 := pollEvents_open m _ _ _ _ hp hi.2
      have h2 := (ProcessInput_spec _ _ _ _ hin).2.2.1
      have h3 : (frame.fixed s2).1.windowShouldClose = s2.windowShouldClose := by
        unfold frame.fixed; split_ifs <;> rfl
      rw [← hs', h3, h2, h1, t6, hi.1, Bool.or_false]

theorem loop_runs (m : MathFns K) (fs : List (FrameInput K)) :
    ∀ s : Application K, Ready s → s.windowShouldClose = false →
      (∀ i ∈ fs, i.keepsOpen) →
      (loop m s fs).iterations.length = fs.length ∧
        (loop m s fs).status = LoopStatus.running := by
  induction fs with
  | nil =>
    intro s _ hc _
    unfold loop
    simp [hc]
  | cons i rest ih =>
    intro s hr hc hopen
    obtain ⟨s', ev, hf⟩ := frame_isSome m s i hr
    have hr' := (frame_spec m s s' i ev hf).choose_spec.2.2.2.2.2.2.2.1 hr
    have hc' : s'.windowShouldClose = false := by
      rw [frame_open m s s' i ev hf (hopen i (List.mem_cons_self _ _)), hc]
    obtain ⟨h1, h2⟩ := ih s' hr' hc' (fun j hj => hopen j (List.mem_cons_of_mem _ hj))
    rw [loop_cons_eq]
    simp only [hc, Bool.false_eq_true, if_false, hf, List.length_cons, h1, h2, and_self]

end OpenLemmas

end Engine

namespace Engine

section InitLemmas

variable {K : Type} [LinearOrderedField K]

theorem Init_spec (s : Application K) (pTitle : String) (pFullscreen : Bool)
    (env : InitEnv K) :
    ((Init s pTitle pFullscreen env).2.2
        = (env.glfwInitOk && env.windowCreated && env.gladOk && env.startupOk)) ∧
    ((Init s pTitle pFullscreen env).1.m_gladLoaded
        = (s.m_gladLoaded || (env.glfwInitOk && env.windowCreated && env.gladOk))) ∧
    (env.glfwInitOk = false →
      (Init s pTitle pFullscreen env).2.1 = [Event.glfwInit]) ∧
    (env.glfwInitOk = true → env.windowCreated = false →
      (Init s pTitle pFullscreen env).2.1
        = [Event.glfwInit,
           Event.glfwCreateWindow s.m_winWidth s.m_winHeight pTitle pFullscreen]) ∧
    (env.glfwInitOk = true → env.windowCreated = true → env.gladOk = false →
      (Init s pTitle pFullscreen env).2.1
        = [Event.glfwInit,
           Event.glfwCreateWindow s.m_winWidth s.m_winHeight pTitle pFullscreen,
           Event.glfwGetCursorPos, Event.gladLoadGLLoader]) ∧
    (env.glfwInitOk = true → env.windowCreated = true → env.gladOk = true →
      (Init s pTitle pFullscreen env).2.1
        = [Event.glfwInit,
           Event.glfwCreateWindow s.m_winWidth s.m_winHeight pTitle pFullscreen,
           Event.glfwGetCursorPos, Event.gladLoadGLLoader,
           Event.RendererInit ((s.m_winWidth : K) / (s.m_winHeight : K)),
           Event.Startup]) := by
  obtain ⟨g, w, cx, cy, gl, ri, st⟩ := env
  cases g <;> cases w <;> cases gl <;> simp [Init]

theorem Init_events_setup (s : Application K) (pTitle : String) (pFullscreen : Bool)
    (env : InitEnv K) :
    ∀ e ∈ (Init s pTitle pFullscreen env).2.1,
      e.isLoopBody = false ∧ e.isShutdown = false ∧ e.isTerminate = false := by
  obtain ⟨g, w, cx, cy, gl, ri, st⟩ := env
  cases g <;> cases w <;> cases gl <;>
    simp [Init, Event.isLoopBody, Event.isShutdown, Event.isTerminate]

theorem SetDimensions_events (s s' : Application K) (w h : Nat) (ev : List (Event K))
    (hs : SetDimensions s w h = some (s', ev)) :
    ∀ e ∈ ev, e.isLoopBody = false ∧ e.isShutdown = false ∧ e.isTerminate = false := by
  unfold SetDimensions at hs
  split_ifs at hs with hc
  · unfold UpdateCamera at hs
    cases hcam : s.m_rendererInst.m_cameraRef with
    | none => simp [hcam] at hs
    | some cam =>
      simp only [hcam, Option.some.injEq, Prod.mk.injEq] at hs
      obtain ⟨_, rfl⟩ := hs
      simp [Event.isLoopBody, Event.isShutdown, Event.isTerminate]
  · simp only [Option.some.injEq, Prod.mk.injEq] at hs
    obtain ⟨_, rfl⟩ := hs
    simp

end InitLemmas

end Engine

namespace EngineRoot

open Engine

section InitLemmas

variable {K : Type} [LinearOrderedField K]

theorem rootInit_spec (s : Application K) (pTitle : String) (pFullscreen : Bool)
    (env : InitEnv K) :
    ((Init s pTitle pFullscreen env).2.2
        = (env.glfwInitOk && env.windowCreated && env.gladOk && env.rendererInitOk
            && env.startupOk)) ∧
    ((Init s pTitle pFullscreen env).1.m_gladLoaded
        = (s.m_gladLoaded || (env.glfwInitOk && env.windowCreated && env.gladOk))) ∧
    (env.glfwInitOk = false →
      (Init s pTitle pFullscreen env).2.1 = [Event.glfwInit]) ∧
    (env.glfwInitOk = true → env.windowCreated = false →
      (Init s pTitle pFullscreen env).2.1
        = [Event.glfwInit,
           Event.glfwCreateWindow s.m_winWidth s.m_winHeight pTitle pFullscreen]) ∧
    (env.glfwInitOk = true → env.windowCreated = true → env.gladOk = false →
      (Init s pTitle pFullscreen env).2.1
        = [Event.glfwInit,
           Event.glfwCreateWindow s.m_winWidth s.m_winHeight pTitle pFullscreen,
           Event.glfwGetCursorPos, Event.gladLoadGLLoader]) ∧
    (env.glfwInitOk = true → env.windowCreated = true → env.gladOk = true →
      env.rendererInitOk = false →
      (Init s pTitle pFullscreen env).2.1
        = [Event.glfwInit,
           Event.glfwCreateWindow s.m_winWidth s.m_winHeight pTitle pFullscreen,
           Event.glfwGetCursorPos, Event.gladLoadGLLoader, Event.RendererInitNoArg]) ∧
    (env.glfwInitOk = true → env.windowCreated = true → env.gladOk = true →
      env.rendererInitOk = true →
      (Init s pTitle pFullscreen env).2.1
        = [Event.glfwInit,
           Event.glfwCreateWindow s.m_winWidth s.m_winHeight pTitle pFullscreen,
           Event.glfwGetCursorPos, Event.gladLoadGLLoader, Event.RendererInitNoArg,
           Event.NewCamera 75,
           Event.UpdateAspectRatio (s.m_winWidth : K) (s.m_winHeight : K), Event.UpdateFovV,
           Event.Startup]) := by
  obtain ⟨g, w, cx, cy, gl, ri, cam, st⟩ := env
  cases g <;> cases w <;> cases gl <;> cases ri <;> simp [Init]

theorem rootInit_events_setup (s : Application K) (pTitle : String) (pFullscreen : Bool)
    (env : InitEnv K) :
    ∀ e ∈ (Init s pTitle pFullscreen env).2.1,
      e.isLoopBody = false ∧ e.isShutdown = false ∧ e.isTerminate = false := by
  obtain ⟨g, w, cx, cy, gl, ri, cam, st⟩ := env
  cases g <;> cases w <;> cases gl <;> cases ri <;>
    simp [Init, Event.isLoopBody, Event.isShutdown, Event.isTerminate]

theorem rootSetDimensions_isSome (s : Application K) (w h : Nat) :
    ∃ s' ev, SetDimensions s w h = some (s', ev) := by
  unfold SetDimensions
  split_ifs with hc
  · unfold UpdateCamera
    cases hcam : s.m_cameraRef with
    | none => exact absurd hcam hc
    | some cam => exact ⟨_, _, rfl⟩
  · exact ⟨_, _, rfl⟩

theorem rootSetDimensions_events (s s' : Application K) (w h : Nat) (ev : List (Event K))
    (hs : SetDimensions s w h = some (s', ev)) :
    ∀ e ∈ ev, e.isLoopBody = false ∧ e.isShutdown = false ∧ e.isTerminate = false := by
  unfold SetDimensions at hs
  split_ifs at hs with hc
  · unfold UpdateCamera at hs
    cases hcam : s.m_cameraRef with
    | none => simp [hcam] at hs
    | some cam =>
      simp only [hcam, Option.some.injEq, Prod.mk.injEq] at hs
      obtain ⟨_, rfl⟩ := hs
      simp [Event.isLoopBody, Event.isShutdown, Event.isTerminate]
  · simp only [Option.some.injEq, Prod.mk.injEq] at hs
    obtain ⟨_, rfl⟩ := hs
    simp

end InitLemmas

end EngineRoot

namespace Engine

section CloseLemmas

variable {K : Type} [LinearOrderedField K] [FloorRing K]

theorem loop_closed (m : MathFns K) (s : Application K) (fs : List (FrameInput K))
    (h : s.windowShouldClose = true) : loop m s fs = ⟨s, [], LoopStatus.exited⟩ := by
  cases fs with
  | nil => simp [loop, h]
  | cons i rest => simp [loop, h]

theorem frame_end_shape (m : MathFns K) (s s' : Application K) (i : FrameInput K)
    (ev : List (Event K)) (h : frame m s i = some (s', ev)) (hend : i.keys Key.END = true) :
    s'.windowShouldClose = true ∧
    ∃ a b, ev = a ++ Event.glfwSetWindowShouldClose :: b ∧
      updateArgs b = [i.now - s.m_currentTime] ∧
      (i.iconified = false → ∃ c, b = c ++ [Event.Draw i.now, Event.glfwSwapBuffers]) := by
  obtain ⟨inp, h1, h2, _, _, _, _, h7, _, h9⟩ := frame_spec m s s' i ev h
  obtain ⟨a, b, hab⟩ := h9 hend
  refine ⟨h7 hend, [Event.glfwGetTime, Event.glfwPollEvents] ++ a,
    b ++ (if s.m_fixedTimer + (i.now - s.m_currentTime) ≥ s.m_fixedDeltaTime
            then [Event.FixedUpdate s.m_fixedDeltaTime] else [])
        ++ [Event.Update (i.now - s.m_currentTime)]
        ++ (if i.iconified then (if i.now - s.m_currentTime < 50 then [Event.Sleep 50] else [])
            else [Event.Draw i.now, Event.glfwSwapBuffers]), ?_, ?_, ?_⟩
  · rw [h2, hab]
    simp only [List.append_assoc, List.cons_append, List.nil_append]
  · have hb : ∀ e ∈ b, e.isInputEffect = true := fun e he =>
      h1 e (by rw [hab]; exact List.mem_append_right _ (List.mem_cons_of_mem _ he))
    simp only [updateArgs_append, updateArgs_inputEffect b hb]
    split_ifs <;> simp [updateArgs]
  · intro hic
    simp only [hic, Bool.false_eq_true, if_false]
    exact ⟨_, rfl⟩

theorem loop_end_key (m : MathFns K) (i : FrameInput K) (rest : List (FrameInput K))
    (hend : i.keys Key.END = true) (pre : List (FrameInput K)) :
    ∀ s : Application K, Ready s → s.windowShouldClose = false →
      (∀ j ∈ pre, j.keepsOpen) →
      ∃ its s1 s2 it, loop m s (pre ++ i :: rest) = ⟨s2, its ++ [it], LoopStatus.exited⟩ ∧
        its.length = pre.length ∧ frame m s1 i = some (s2, it) := by
  induction pre with
  | nil =>
    intro s hr hc _
    obtain ⟨s2, it, hf⟩ := frame_isSome m s i hr
    have hclose := (frame_end_shape m s s2 i it hf hend).1
    refine ⟨[], s, s2, it, ?_, rfl, hf⟩
    rw [List.nil_append, loop_cons_eq]
    simp only [hc, Bool.false_eq_true, if_false, hf, loop_closed m s2 rest hclose,
      List.nil_append]
  | cons j pre ih =>
    intro s hr hc hopen
    obtain ⟨s', ev, hf⟩ := frame_isSome m s j hr
    have hr' := (frame_spec m s s' j ev hf).choose_spec.2.2.2.2.2.2.2.1 hr
    have hc' : s'.windowShouldClose = false := by
      rw [frame_open m s s' j ev hf (hopen j (List.mem_cons_self _ _)), hc]
    obtain ⟨its, s1, s2, it, h1, h2, h3⟩ :=
      ih s' hr' hc' (fun k hk => hopen k (List.mem_cons_of_mem _ hk))
    refine ⟨ev :: its, s1, s2, it, ?_, by simp [h2], h3⟩
    rw [List.cons_append, loop_cons_eq]
    simp only [hc, Bool.false_eq_true, if_false, hf, h1, List.cons_append]

end CloseLemmas

end Engine

namespace EngineRoot

open Engine

section RootFrameLemmas

variable {K : Type} [LinearOrderedField K]

theorem rootSetDimensions_spec (s s' : Application K) (w h : Nat) (ev : List (Event K))
    (hs : SetDimensions s w h = some (s', ev)) :
    sameClock s s' ∧ (∀ e ∈ ev, e.isInputEffect = true) ∧
      (s.m_cameraRef ≠ none → s'.m_cameraRef ≠ none) := by
  unfold SetDimensions at hs
  split_ifs at hs with hc
  · unfold UpdateCamera at hs
    simp only [] at hs
    cases hcam : s.m_cameraRef with
    | none => exact absurd hcam hc
    | some cam =>
      simp only [hcam, Option.some.injEq, Prod.mk.injEq] at hs
      obtain ⟨rfl, rfl⟩ := hs
      refine ⟨⟨rfl, rfl, rfl⟩, ?_, fun _ => by simp [hcam]⟩
      intro e he
      simp only [List.mem_cons, List.mem_singleton, List.not_mem_nil, or_false] at he
      rcases he with rfl | rfl <;> rfl
  · simp only [Option.some.injEq, Prod.mk.injEq] at hs
    obtain ⟨rfl, rfl⟩ := hs
    exact ⟨⟨rfl, rfl, rfl⟩, by simp, fun h => h⟩

theorem rootDispatch_spec (m : MathFns K) (s s' : Application K) (c : Callback K)
    (ev : List (Event K)) (h : dispatch m s c = some (s', ev)) :
    sameClock s s' ∧ (∀ e ∈ ev, e.isInputEffect = true) ∧
      (s.m_cameraRef ≠ none → s'.m_cameraRef ≠ none) := by
  cases c with
  | cursorPos x y =>
    simp only [dispatch] at h
    unfold MouseCallback at h
    simp only [MouseCallback.rootAngles_camera] at h
    cases hc : s.m_cameraRef with
    | none => simp [hc] at h
    | some cam =>
      simp only [hc, Option.some.injEq, Prod.mk.injEq] at h
      obtain ⟨rfl, rfl⟩ := h
      exact ⟨⟨rfl, rfl, rfl⟩, by simp, by simp⟩
  | scroll x y =>
    simp only [dispatch, ScrollCallback] at h
    cases hc : s.m_cameraRef with
    | none => simp [hc] at h
    | some cam =>
      simp only [hc, Option.some.injEq, Prod.mk.injEq] at h
      obtain ⟨rfl, rfl⟩ := h
      refine ⟨⟨rfl, rfl, rfl⟩, ?_, fun _ => by simp [hc]⟩
      intro e he
      simp only [List.mem_singleton] at he
      subst he; rfl
  | framebufferSize w hh =>
    simp only [dispatch] at h
    cases hd : SetDimensions s w hh with
    | none => simp [hd] at h
    | some p =>
      obtain ⟨s1, ev1⟩ := p
      simp only [hd, Option.some.injEq, Prod.mk.injEq] at h
      obtain ⟨rfl, rfl⟩ := h
      obtain ⟨h1, h2, h3⟩ := rootSetDimensions_spec _ _ _ _ _ hd
      refine ⟨h1, ?_, h3⟩
      intro e he
      simp only [List.mem_append, List.mem_singleton] at he
      rcases he with he | rfl
      · exact h2 e he
      · rfl
  | closeRequest =>
    simp only [dispatch, Option.some.injEq, Prod.mk.injEq] at h
    obtain ⟨rfl, rfl⟩ := h
    exact ⟨⟨rfl, rfl, rfl⟩, by simp, fun h => h⟩

theorem rootPollEvents_spec (m : MathFns K) (cs : List (Callback K)) :
    ∀ (s s' : Application K) (ev : List (Event K)), pollEvents m s cs = some (s', ev) →
      sameClock s s' ∧ (∀ e ∈ ev, e.isInputEffect = true) ∧
      (s.m_cameraRef ≠ none → s'.m_cameraRef ≠ none) := by
  induction cs with
  | nil =>
    intro s s' ev h
    simp only [pollEvents, Option.some.injEq, Prod.mk.injEq] at h
    obtain ⟨rfl, rfl⟩ := h
    exact ⟨⟨rfl, rfl, rfl⟩, by simp, fun h => h⟩
  | cons c cs ih =>
    intro s s' ev h
    simp only [pollEvents] at h
    cases hd : dispatch m s c with
    | none => simp [hd] at h
    | some p =>
      obtain ⟨s1, ev1⟩ := p
      simp only [hd] at h
      cases hp : pollEvents m s1 cs with
      | none => simp [hp] at h
      | some q =>
        obtain ⟨s2, ev2⟩ := q
        simp only [hp, Option.some.injEq, Prod.mk.injEq] at h
        obtain ⟨rfl, rfl⟩ := h
        obtain ⟨⟨a1, a2, a3⟩, a4, a5⟩ := rootDispatch_spec m s s1 c ev1 hd
        obtain ⟨⟨b1, b2, b3⟩, b4, b5⟩ := ih s1 s2 ev2 hp
        refine ⟨⟨b1.trans a1, b2.trans a2, b3.trans a3⟩, ?_, fun h => b5 (a5 h)⟩
        intro e he
        rcases List.mem_append.mp he with he | he
        · exact a4 e he
        · exact b4 e he

theorem rootFrame_spec (m : MathFns K) (toUShort : K → Nat) (s s' : Application K)
    (i : FrameInput K) (ev : List (Event K)) (h : frame m toUShort s i = some (s', ev)) :
    ∃ inp1 inp2 : List (Event K),
      (∀ e ∈ inp1, e.isInputEffect = true) ∧ (∀ e ∈ inp2, e.isInputEffect = true) ∧
      ev = [Event.glfwGetTime, Event.glfwPollEvents] ++ inp1 ++ [Event.InputProcessInput]
        ++ inp2 ++ [Event.Update (i.now - s.m_currentTime)]
        ++ (if toUShort (i.now * 1000000) % 16666 = 0
            then [Event.FixedUpdate (i.now - s.m_currentTime)] else [])
        ++ (if i.iconified then [] else [Event.Draw i.now, Event.glfwSwapBuffers]) ∧
      s'.m_currentTime = i.now := by
  have t : (frame.timers s i.now).m_currentTime = i.now ∧
      (frame.timers s i.now).m_deltaTime = i.now - s.m_currentTime := by
    unfold frame.timers
    simp only []
    split_ifs <;> exact ⟨rfl, rfl⟩
  unfold frame at h
  simp only [] at h
  cases hp : pollEvents m (frame.timers s i.now) i.callbacks with
  | none => simp [hp] at h
  | some p =>
    obtain ⟨s1, evPoll⟩ := p
    simp only [hp] at h
    obtain ⟨⟨a1, _, a3⟩, a4, _⟩ := rootPollEvents_spec m _ _ _ _ hp
    unfold ProcessInput at h
    simp only [] at h
    cases hc : s1.m_cameraRef with
    | none => simp [hc] at h
    | some cam =>
      simp only [hc] at h
      unfold frame.present frame.fixed at h
      simp only [hc] at h
      rw [a1, a3, t.1, t.2] at h
      refine ⟨evPoll, [Event.Translate (Engine.ProcessInput.translation i.keys
        (ProcessInput.speed i.keys) (i.now - s.m_currentTime) cam)], a4, ?_, ?_, ?_⟩
      · intro e he
        simp only [List.mem_singleton] at he
        subst he; rfl
      · cases hic : i.iconified with
        | true =>
          simp only [hic, if_true, Option.some.injEq, Prod.mk.injEq] at h
          rw [← h.2]
          simp
        | false =>
          simp only [hic, Bool.false_eq_true, if_false, Option.some.injEq, Prod.mk.injEq] at h
          rw [← h.2]
          simp
      · cases hic : i.iconified with
        | true =>
          simp only [hic, if_true, Option.some.injEq, Prod.mk.injEq] at h
          rw [← h.1, a1, t.1]
        | false =>
          simp only [hic, Bool.false_eq_true, if_false, Option.some.injEq, Prod.mk.injEq] at h
          rw [← h.1, a1, t.1]

end RootFrameLemmas

end EngineRoot

namespace Engine

section IterationLemmas

variable {K : Type}

theorem filter_isDraw_inputEffect (l : List (Event K))
    (h : ∀ e ∈ l, e.isInputEffect = true) : l.filter Event.isDraw = [] :=
  filter_inputEffect _ l (fun e he => by cases e <;> simp_all [Event.isInputEffect, Event.isDraw]) h

theorem filter_isSwapBuffers_inputEffect (l : List (Event K))
    (h : ∀ e ∈ l, e.isInputEffect = true) : l.filter Event.isSwapBuffers = [] :=
  filter_inputEffect _ l
    (fun e he => by cases e <;> simp_all [Event.isInputEffect, Event.isSwapBuffers]) h

theorem filter_isSleep_inputEffect (l : List (Event K))
    (h : ∀ e ∈ l, e.isInputEffect = true) : l.filter Event.isSleep = [] :=
  filter_inputEffect _ l (fun e he => by cases e <;> simp_all [Event.isInputEffect, Event.isSleep]) h

variable [LinearOrderedField K] [FloorRing K]

theorem frame_updateArgs (m : MathFns K) (s s' : Application K) (i : FrameInput K)
    (ev : List (Event K)) (h : frame m s i = some (s', ev)) :
    updateArgs ev = [i.now - s.m_currentTime] := by
  obtain ⟨inp, h1, h2, _⟩ := frame_spec m s s' i ev h
  rw [h2]
  simp only [updateArgs_append, updateArgs_inputEffect inp h1]
  split_ifs <;> simp [updateArgs]

theorem frame_presents (m : MathFns K) (s s' : Application K) (i : FrameInput K)
    (ev : List (Event K)) (h : frame m s i = some (s', ev)) : presents ev i := by
  have hupd := frame_updateArgs m s s' i ev h
  obtain ⟨inp, h1, h2, _⟩ := frame_spec m s s' i ev h
  have d1 := filter_isDraw_inputEffect inp h1
  have d2 := filter_isSwapBuffers_inputEffect inp h1
  have d3 := filter_isSleep_inputEffect inp h1
  constructor
  · intro hic
    refine ⟨?_, ?_, i.now - s.m_currentTime, hupd, ?_⟩
    · rw [h2]
      simp only [hic, if_true, List.filter_append, d1]
      split_ifs <;> simp [Event.isDraw]
    · rw [h2]
      simp only [hic, if_true, List.filter_append, d2]
      split_ifs <;> simp [Event.isSwapBuffers]
    · rw [h2]
      simp only [hic, if_true, List.filter_append, d3]
      split_ifs <;> simp [Event.isSleep]
  · intro hic
    constructor
    · rw [h2]
      simp only [hic, Bool.false_eq_true, if_false, List.filter_append, d3]
      split_ifs <;> simp [Event.isSleep]
    · refine ⟨[Event.glfwGetTime, Event.glfwPollEvents] ++ inp
          ++ (if s.m_fixedTimer + (i.now - s.m_currentTime) ≥ s.m_fixedDeltaTime
              then [Event.FixedUpdate s.m_fixedDeltaTime] else [])
          ++ [Event.Update (i.now - s.m_currentTime)], ?_, ?_, ?_⟩
      · rw [h2]
        simp only [hic, Bool.false_eq_true, if_false]
      · simp only [List.filter_append, d1]
        split_ifs <;> simp [Event.isDraw]
      · simp only [List.filter_append, d2]
        split_ifs <;> simp [Event.isSwapBuffers]

theorem loop_updateArgs (m : MathFns K) (fs : List (FrameInput K)) :
    ∀ s : Application K,
      (loop m s fs).iterations.map updateArgs
        = ((deltas s.m_currentTime (fs.map FrameInput.now)).take
            (loop m s fs).iterations.length).map (fun d => [d]) := by
  induction fs with
  | nil => intro s; simp [(loop_nil_state m s).2]
  | cons i rest ih =>
    intro s
    rw [loop_cons_eq]
    cases hc : s.windowShouldClose with
    | true => simp
    | false =>
      simp only [Bool.false_eq_true, if_false]
      cases hf : frame m s i with
      | none => simp
      | some p =>
        obtain ⟨s', ev⟩ := p
        have h1 := frame_updateArgs m s s' i ev hf
        have h2 := (frame_spec m s s' i ev hf).choose_spec.2.2.1
        simp only [List.map_cons, List.length_cons, deltas, List.take_succ_cons, h1, ih s', h2]

theorem loop_forall₂ (m : MathFns K) (R : List (Event K) → FrameInput K → Prop)
    (hR : ∀ (s s' : Application K) (i : FrameInput K) (ev : List (Event K)),
      frame m s i = some (s', ev) → R ev i)
    (fs : List (FrameInput K)) :
    ∀ s : Application K,
      List.Forall₂ R (loop m s fs).iterations (fs.take (loop m s fs).iterations.length) := by
  induction fs with
  | nil => intro s; simp [(loop_nil_state m s).2]
  | cons i rest ih =>
    intro s
    rw [loop_cons_eq]
    cases hc : s.windowShouldClose with
    | true => simp
    | false =>
      simp only [Bool.false_eq_true, if_false]
      cases hf : frame m s i with
      | none => simp
      | some p =>
        obtain ⟨s', ev⟩ := p
        simp only [List.length_cons, List.take_succ_cons]
        exact List.Forall₂.cons (hR s s' i ev hf) (ih s')

theorem Run_iterations (m : MathFns K) (s : Application K) (pWidth pHeight : Nat)
    (pTitle : String) (pFullscreen : Bool) (env : RunEnv K) :
    (Run m s pWidth pHeight pTitle pFullscreen env).iterations = [] ∨
    ∃ s0 : Application K, s0.m_currentTime = env.startTime - 2 / 100 ∧
      (Run m s pWidth pHeight pTitle pFullscreen env).iterations
        = (loop m s0 env.frames).iterations := by
  unfold Run
  cases hd : SetDimensions s pWidth pHeight with
  | none => left; rfl
  | some p =>
    obtain ⟨s1, evDim⟩ := p
    simp only []
    cases hi : (Init s1 pTitle pFullscreen env.init).2.2 with
    | false => left; simp
    | true =>
      right
      refine ⟨{ (Init s1 pTitle pFullscreen env.init).1 with
        m_currentTime := env.startTime - 2 / 100 }, rfl, ?_⟩
      simp only [if_true]
      split <;> rfl

end IterationLemmas

end Engine

namespace EngineRoot

open Engine

section RootIterationLemmas

variable {K : Type} [LinearOrderedField K]

theorem rootLoop_nil_state (m : MathFns K) (u : K → Nat) (s : Application K) :
    (loop m u s []).state = s ∧ (loop m u s []).iterations = [] := by
  unfold loop
  split_ifs <;> exact ⟨rfl, rfl⟩

theorem rootLoop_cons_eq (m : MathFns K) (u : K → Nat) (s : Application K) (i : FrameInput K)
    (rest : List (FrameInput K)) :
    loop m u s (i :: rest) =
      if s.windowShouldClose then ⟨s, [], LoopStatus.exited⟩
      else
        match frame m u s i with
        | none => ⟨s, [], LoopStatus.fault⟩
        | some (s', ev) =>
          ⟨(loop m u s' rest).state, ev :: (loop m u s' rest).iterations,
            (loop m u s' rest).status⟩ := by
  rw [loop]

theorem rootFrame_updateArgs (m : MathFns K) (u : K → Nat) (s s' : Application K)
    (i : FrameInput K) (ev : List (Event K)) (h : frame m u s i = some (s', ev)) :
    updateArgs ev = [i.now - s.m_currentTime] := by
  obtain ⟨inp1, inp2, h1, h2, h3, _⟩ := rootFrame_spec m u s s' i ev h
  rw [h3]
  simp only [updateArgs_append, updateArgs_inputEffect inp1 h1, updateArgs_inputEffect inp2 h2]
  split_ifs <;> simp [updateArgs]

theorem rootFrame_presents (m : MathFns K) (u : K → Nat) (s s' : Application K)
    (i : FrameInput K) (ev : List (Event K)) (h : frame m u s i = some (s', ev)) :
    presents ev i := by
  obtain ⟨inp1, inp2, h1, h2, h3, _⟩ := rootFrame_spec m u s s' i ev h
  have d1 := filter_isDraw_inputEffect inp1 h1
  have d2 := filter_isSwapBuffers_inputEffect inp1 h1
  have d3 := filter_isSleep_inputEffect inp1 h1
  have e1 := filter_isDraw_inputEffect inp2 h2
  have e2 := filter_isSwapBuffers_inputEffect inp2 h2
  have e3 := filter_isSleep_inputEffect inp2 h2
  refine ⟨?_, ?_, ?_⟩
  · rw [h3]
    simp only [List.filter_append, d3, e3]
    split_ifs <;> simp [Event.isSleep]
  · intro hic
    constructor
    · rw [h3]
      simp only [hic, if_true, List.filter_append, d1, e1]
      split_ifs <;> simp [Event.isDraw]
    · rw [h3]
      simp only [hic, if_true, List.filter_append, d2, e2]
      split_ifs <;> simp [Event.isSwapBuffers]
  · intro hic
    refine ⟨[Event.glfwGetTime, Event.glfwPollEvents] ++ inp1 ++ [Event.InputProcessInput]
        ++ inp2 ++ [Event.Update (i.now - s.m_currentTime)]
        ++ (if u (i.now * 1000000) % 16666 = 0
            then [Event.FixedUpdate (i.now - s.m_currentTime)] else []), ?_, ?_, ?_⟩
    · rw [h3]
      simp only [hic, Bool.false_eq_true, if_false]
    · simp only [List.filter_append, d1, e1]
      split_ifs <;> simp [Event.isDraw]
    · simp only [List.filter_append, d2, e2]
      split_ifs <;> simp [Event.isSwapBuffers]

theorem rootLoop_updateArgs (m : MathFns K) (u : K → Nat) (fs : List (FrameInput K)) :
    ∀ s : Application K,
      (loop m u s fs).iterations.map updateArgs
        = ((deltas s.m_currentTime (fs.map FrameInput.now)).take
            (loop m u s fs).iterations.length).map (fun d => [d]) := by
  induction fs with
  | nil => intro s; simp [(rootLoop_nil_state m u s).2]
  | cons i rest ih =>
    intro s
    rw [rootLoop_cons_eq]
    cases hc : s.windowShouldClose with
    | true => simp
    | false =>
      simp only [Bool.false_eq_true, if_false]
      cases hf : frame m u s i with
      | none => simp
      | some p =>
        obtain ⟨s', ev⟩ := p
        have h1 := rootFrame_updateArgs m u s s' i ev hf
        have h2 := (rootFrame_spec m u s s' i ev hf).choose_spec.choose_spec.2.2.2
        simp only [List.map_cons, List.length_cons, deltas, List.take_succ_cons, h1, ih s', h2]

theorem rootLoop_forall₂ (m : MathFns K) (u : K → Nat)
    (R : List (Event K) → FrameInput K → Prop)
    (hR : ∀ (s s' : Application K) (i : FrameInput K) (ev : List (Event K)),
      frame m u s i = some (s', ev) → R ev i)
    (fs : List (FrameInput K)) :
    ∀ s : Application K,
      List.Forall₂ R (loop m u s fs).iterations
        (fs.take (loop m u s fs).iterations.length) := by
  induction fs with
  | nil => intro s; simp [(rootLoop_nil_state m u s).2]
  | cons i rest ih =>
    intro s
    rw [rootLoop_cons_eq]
    cases hc : s.windowShouldClose with
    | true => simp
    | false =>
      simp only [Bool.false_eq_true, if_false]
      cases hf : frame m u s i with
      | none => simp
      | some p =>
        obtain ⟨s', ev⟩ := p
        simp only [List.length_cons, List.take_succ_cons]
        exact List.Forall₂.cons (hR s s' i ev hf) (ih s')

theorem rootRun_iterations (m : MathFns K) (s : Application K) (pWidth pHeight : Nat)
    (pTitle : String) (pFullscreen : Bool) (env : RunEnv K) :
    (Run m s pWidth pHeight pTitle pFullscreen env).iterations = [] ∨
    ∃ s0 : Application K, s0.m_currentTime = env.startTime ∧
      (Run m s pWidth pHeight pTitle pFullscreen env).iterations
        = (loop m env.toUShort s0 env.frames).iterations := by
  unfold Run
  cases hd : SetDimensions s pWidth pHeight with
  | none => left; rfl
  | some p =>
    obtain ⟨s1, evDim⟩ := p
    simp only []
    cases hi : (Init s1 pTitle pFullscreen env.init).2.2 with
    | false => left; simp
    | true =>
      right
      refine ⟨{ (Init s1 pTitle pFullscreen env.init).1 with
        m_currentTime := env.startTime }, rfl, ?_⟩
      simp only [if_true]
      split <;> rfl

end RootIterationLemmas

end EngineRoot

namespace Singleton

theorem step_invariant (h h' : Heap) (op : Op)
    (hinv : h.live = [] ∨ ∃ p, h.live = [p] ∧ h.sm_appRef = some p)
    (hstep : step h op = some h') :
    h'.live = [] ∨ ∃ p, h'.live = [p] ∧ h'.sm_appRef = some p := by
  cases op with
  | new this =>
    simp only [step, construct] at hstep
    split_ifs at hstep with hmem
    rcases hinv with hl | ⟨p, hl, hr⟩
    · cases href : h.sm_appRef with
      | none =>
        simp only [href, Option.some.injEq] at hstep
        subst hstep
        exact Or.inr ⟨this, by simp [hl], rfl⟩
      | some q =>
        simp [href, destroy, hl] at hstep
    · simp only [hr, destroy, hl, List.mem_singleton, if_true] at hstep
      simp only [Option.some.injEq] at hstep
      subst hstep
      exact Or.inr ⟨this, by simp, rfl⟩
  | delete q =>
    simp only [step, destroy] at hstep
    split_ifs at hstep with hmem
    simp only [Option.some.injEq] at hstep
    subst hstep
    rcases hinv with hl | ⟨p, hl, _⟩
    · simp [hl] at hmem
    · left
      rw [hl] at hmem ⊢
      simp only [List.mem_singleton] at hmem
      subst hmem
      simp

theorem run_live_le_one (ops : List Op) :
    ∀ h h' : Heap, (h.live = [] ∨ ∃ p, h.live = [p] ∧ h.sm_appRef = some p) →
      run h ops = some h' →
      h'.live.length ≤ 1 ∧ ∀ p ∈ h'.live, h'.sm_appRef = some p := by
  induction ops with
  | nil =>
    intro h h' hinv hrun
    simp only [run, Option.some.injEq] at hrun
    subst hrun
    rcases hinv with hl | ⟨p, hl, hr⟩
    · simp [hl]
    · simp [hl, hr]
  | cons op ops ih =>
    intro h h' hinv hrun
    simp only [run] at hrun
    cases hs : step h op with
    | none => simp [hs] at hrun
    | some h1 =>
      simp only [hs] at hrun
      exact ih h1 h' (step_invariant h h1 op hinv hs) hrun

end Singleton

namespace Engine

section TotalityLemmas

variable {K : Type} [LinearOrderedField K] [FloorRing K]

theorem loop_no_fault (m : MathFns K) (fs : List (FrameInput K)) :
    ∀ s : Application K, Ready s →
      (loop m s fs).status ≠ LoopStatus.fault ∧
      ((loop m s fs).status = LoopStatus.running → (loop m s fs).iterations.length = fs.length) := by
  induction fs with
  | nil =>
    intro s _
    unfold loop
    split_ifs <;> simp
  | cons i rest ih =>
    intro s hr
    rw [loop_cons_eq]
    cases hc : s.windowShouldClose with
    | true => simp
    | false =>
      obtain ⟨s', ev, hf⟩ := frame_isSome m s i hr
      have hr' := (frame_spec m s s' i ev hf).choose_spec.2.2.2.2.2.2.2.1 hr
      obtain ⟨h1, h2⟩ := ih s' hr'
      simp only [Bool.false_eq_true, if_false, hf, List.length_cons, add_left_inj]
      exact ⟨h1, h2⟩

end TotalityLemmas

end Engine

namespace EngineRoot

open Engine

section RootTotalityLemmas

variable {K : Type} [LinearOrderedField K]

theorem rootDispatch_isSome (m : MathFns K) (s : Application K) (c : Callback K)
    (hc : s.m_cameraRef ≠ none) : ∃ s' ev, dispatch m s c = some (s', ev) := by
  cases c with
  | cursorPos x y =>
    obtain ⟨s', h, _⟩ := rootMouseCallback_eq_some m sens s x y hc
    exact ⟨s', [], by simp [dispatch, h]⟩
  | scroll x y =>
    cases hcam : s.m_cameraRef with
    | none => exact absurd hcam hc
    | some cam => exact ⟨s, [Event.ModifyFovH (y * -3)], by simp [dispatch, ScrollCallback, hcam]⟩
  | framebufferSize w h =>
    obtain ⟨s', ev, hs⟩ := rootSetDimensions_isSome s w h
    exact ⟨s', ev ++ [Event.glViewport w h], by simp [dispatch, hs]⟩
  | closeRequest => exact ⟨_, _, rfl⟩

theorem rootPollEvents_isSome (m : MathFns K) (cs : List (Callback K)) :
    ∀ s : Application K, s.m_cameraRef ≠ none →
      ∃ s' ev, pollEvents m s cs = some (s', ev) := by
  induction cs with
  | nil => intro s _; exact ⟨_, _, rfl⟩
  | cons c cs ih =>
    intro s hc
    obtain ⟨s1, ev1, h1⟩ := rootDispatch_isSome m s c hc
    have hc1 := (rootDispatch_spec m s s1 c ev1 h1).2.2 hc
    obtain ⟨s2, ev2, h2⟩ := ih s1 hc1
    exact ⟨s2, ev1 ++ ev2, by simp [pollEvents, h1, h2]⟩

theorem rootFrame_camera (m : MathFns K) (u : K → Nat) (s s' : Application K)
    (i : FrameInput K) (ev : List (Event K)) (h : frame m u s i = some (s', ev)) :
    s'.m_cameraRef ≠ none := by
  unfold frame at h
  simp only [] at h
  cases hp : pollEvents m (frame.timers s i.now) i.callbacks with
  | none => simp [hp] at h
  | some p =>
    obtain ⟨s1, evPoll⟩ := p
    simp only [hp] at h
    unfold ProcessInput at h
    simp only [] at h
    cases hc : s1.m_cameraRef with
    | none => simp [hc] at h
    | some cam =>
      simp only [hc] at h
      cases hd : frame.present s1 i.iconified with
      | none => simp [hd] at h
      | some evDraw =>
        simp only [hd, Option.some.injEq, Prod.mk.injEq] at h
        rw [← h.1, hc]
        simp

theorem rootFrame_isSome (m : MathFns K) (u : K → Nat) (s : Application K) (i : FrameInput K)
    (hc : s.m_cameraRef ≠ none) :
    ∃ s' ev, frame m u s i = some (s', ev) := by
  have t : (frame.timers s i.now).m_cameraRef = s.m_cameraRef := by
    unfold frame.timers
    simp only []
    split_ifs <;> rfl
  obtain ⟨s1, ev1, h1⟩ := rootPollEvents_isSome m i.callbacks (frame.timers s i.now)
    (by rw [t]; exact hc)
  have hc1 := (rootPollEvents_spec m _ _ _ _ h1).2.2 (by rw [t]; exact hc)
  have hsome : (frame m u s i).isSome = true := by
    cases hcam : s1.m_cameraRef with
    | none => exact absurd hcam hc1
    | some cam =>
      unfold frame
      simp only [h1]
      unfold ProcessInput frame.present
      simp only [hcam]
      cases i.iconified <;> simp
  obtain ⟨p, hp⟩ := Option.isSome_iff_exists.mp hsome
  exact ⟨p.1, p.2, hp⟩

theorem rootLoop_no_fault (m : MathFns K) (u : K → Nat) (fs : List (FrameInput K)) :
    ∀ s : Application K, s.m_cameraRef ≠ none →
      (loop m u s fs).status ≠ LoopStatus.fault ∧
      ((loop m u s fs).status = LoopStatus.running →
        (loop m u s fs).iterations.length = fs.length) := by
  induction fs with
  | nil =>
    intro s _
    unfold loop
    split_ifs <;> simp
  | cons i rest ih =>
    intro s hc
    rw [rootLoop_cons_eq]
    cases hcl : s.windowShouldClose with
    | true => simp
    | false =>
      obtain ⟨s', ev, hf⟩ := rootFrame_isSome m u s i hc
      have hc' := rootFrame_camera m u s s' i ev hf
      obtain ⟨h1, h2⟩ := ih s' hc'
      simp only [Bool.false_eq_true, if_false, hf, List.length_cons, add_left_inj]
      exact ⟨h1, h2⟩

end RootTotalityLemmas

end EngineRoot

namespace Engine

section OrderLemmas

variable {K : Type} [LinearOrderedField K] [FloorRing K]

end OrderLemmas

end Engine

namespace EngineRoot

open Engine

section RootOrderLemmas

variable {K : Type} [LinearOrderedField K]

end RootOrderLemmas

end EngineRoot

namespace Engine

section SpotLightLemmas

variable {K : Type} [LinearOrderedField K]

theorem step_up_bounds (x d hi y : K) (P : Prop) [Decidable P]
    (hy : y = if P ∧ x + d ≤ hi then x + d else x) (hd : 0 ≤ d) (hx : x ≤ hi) :
    x ≤ y ∧ y ≤ x + d ∧ y ≤ hi := by
  by_cases h : P ∧ x + d ≤ hi
  · rw [if_pos h] at hy
    subst hy
    exact ⟨by linarith, le_refl _, h.2⟩
  · rw [if_neg h] at hy
    subst hy
    exact ⟨le_refl _, by linarith, hx⟩

theorem step_down_bounds (x d lo y : K) (P : Prop) [Decidable P]
    (hy : y = if P ∧ lo ≤ x - d then x - d else x) (hd : 0 ≤ d) (hx : lo ≤ x) :
    x - d ≤ y ∧ y ≤ x ∧ lo ≤ y := by
  by_cases h : P ∧ lo ≤ x - d
  · rw [if_pos h] at hy
    subst hy
    exact ⟨le_refl _, by linarith, h.2⟩
  · rw [if_neg h] at hy
    subst hy
    exact ⟨by linarith, le_refl _, hx⟩

theorem step_down_strict_bounds (x d lo y : K) (P : Prop) [Decidable P]
    (hy : y = if P ∧ lo < x - d then x - d else x) (hd : 0 ≤ d) :
    x - d ≤ y ∧ y ≤ x ∧ (lo ≤ x → lo ≤ y) ∧ (lo < x → lo < y) := by
  by_cases h : P ∧ lo < x - d
  · rw [if_pos h] at hy
    subst hy
    exact ⟨le_refl _, by linarith, fun _ => le_of_lt h.2, fun _ => h.2⟩
  · rw [if_neg h] at hy
    subst hy
    exact ⟨by linarith, le_refl _, fun hx => hx, fun hx => hx⟩

theorem spotlightSpeed_times_ten : (spotlightSpeed : K) * 10 = 5 / 100 := by
  unfold spotlightSpeed; norm_num

theorem ProcessInput.keyT_light (r : Renderer K) (keys : Key → Bool) (l : Light K)
    (h : r.m_lightSpot = some l) :
    ProcessInput.keyT r keys = some ⟨r.m_cameraRef,
      some ⟨if keys Key.T = true ∧ l.angle + 5 / 100 ≤ 90 then l.angle + 5 / 100 else l.angle,
        l.blur⟩⟩ := by
  obtain ⟨cam, light⟩ := r
  simp only at h
  subst h
  unfold ProcessInput.keyT
  simp only [spotlightSpeed_times_ten]
  by_cases hk : keys Key.T = true
  · by_cases hle : l.angle + 5 / 100 ≤ 90
    · simp [hk, hle]
    · simp [hk, hle]
  · simp [hk]

theorem ProcessInput.keyG_light (r : Renderer K) (keys : Key → Bool) (l : Light K)
    (h : r.m_lightSpot = some l) :
    ProcessInput.keyG r keys = some ⟨r.m_cameraRef,
      some ⟨if keys Key.G = true ∧ 0 ≤ l.angle - 5 / 100 then l.angle - 5 / 100 else l.angle,
        l.blur⟩⟩ := by
  obtain ⟨cam, light⟩ := r
  simp only at h
  subst h
  unfold ProcessInput.keyG
  simp only [spotlightSpeed_times_ten]
  by_cases hk : keys Key.G = true
  · by_cases hle : 0 ≤ l.angle - 5 / 100
    · simp [hk, hle]
    · simp [hk, hle]
  · simp [hk]

theorem ProcessInput.keyY_light (r : Renderer K) (keys : Key → Bool) (l : Light K)
    (h : r.m_lightSpot = some l) :
    ProcessInput.keyY r keys = some ⟨r.m_cameraRef,
      some ⟨l.angle,
        if keys Key.Y = true ∧ l.blur + 5 / 1000 ≤ 1 then l.blur + 5 / 1000 else l.blur⟩⟩ := by
  obtain ⟨cam, light⟩ := r
  simp only at h
  subst h
  unfold ProcessInput.keyY spotlightSpeed
  by_cases hk : keys Key.Y = true
  · by_cases hle : l.blur + 5 / 1000 ≤ 1
    · simp [hk, hle]
    · simp [hk, hle]
  · simp [hk]

theorem ProcessInput.keyH_light (r : Renderer K) (keys : Key → Bool) (l : Light K)
    (h : r.m_lightSpot = some l) :
    ProcessInput.keyH r keys = some ⟨r.m_cameraRef,
      some ⟨l.angle,
        if keys Key.H = true ∧ 0 < l.blur - 5 / 1000 then l.blur - 5 / 1000 else l.blur⟩⟩ := by
  obtain ⟨cam, light⟩ := r
  simp only at h
  subst h
  unfold ProcessInput.keyH spotlightSpeed
  by_cases hk : keys Key.H = true
  · by_cases hle : 0 < l.blur - 5 / 1000
    · simp [hk, hle]
    · simp [hk, hle]
  · simp [hk]

theorem ProcessInput.spotLight_light (r : Renderer K) (keys : Key → Bool) (l : Light K)
    (h : r.m_lightSpot = some l) :
    ∃ a1 a2 b1 b2 : K,
      ProcessInput.spotLight r keys = some ⟨r.m_cameraRef, some ⟨a2, b2⟩⟩ ∧
      a1 = (if keys Key.T = true ∧ l.angle + 5 / 100 ≤ 90 then l.angle + 5 / 100
            else l.angle) ∧
      a2 = (if keys Key.G = true ∧ 0 ≤ a1 - 5 / 100 then a1 - 5 / 100 else a1) ∧
      b1 = (if keys Key.Y = true ∧ l.blur + 5 / 1000 ≤ 1 then l.blur + 5 / 1000
            else l.blur) ∧
      b2 = (if keys Key.H = true ∧ 0 < b1 - 5 / 1000 then b1 - 5 / 1000 else b1) := by
  refine ⟨_, _, _, _, ?_, rfl, rfl, rfl, rfl⟩
  unfold ProcessInput.spotLight
  rw [ProcessInput.keyT_light r keys l h]
  simp only []
  rw [ProcessInput.keyG_light _ keys _ rfl]
  simp only []
  rw [ProcessInput.keyY_light _ keys _ rfl]
  simp only []
  rw [ProcessInput.keyH_light _ keys _ rfl]

theorem ProcessInput_light (s : Application K) (keys : Key → Bool) (l : Light K)
    (hcam : s.m_rendererInst.m_cameraRef ≠ none)
    (h : s.m_rendererInst.m_lightSpot = some l) :
    ∃ (s' : Application K) (ev : List (Event K)) (a1 a2 b1 b2 : K),
      ProcessInput s keys = some (s', ev) ∧
      s'.m_rendererInst.m_lightSpot = some ⟨a2, b2⟩ ∧
      a1 = (if keys Key.T = true ∧ l.angle + 5 / 100 ≤ 90 then l.angle + 5 / 100
            else l.angle) ∧
      a2 = (if keys Key.G = true ∧ 0 ≤ a1 - 5 / 100 then a1 - 5 / 100 else a1) ∧
      b1 = (if keys Key.Y = true ∧ l.blur + 5 / 1000 ≤ 1 then l.blur + 5 / 1000
            else l.blur) ∧
      b2 = (if keys Key.H = true ∧ 0 < b1 - 5 / 1000 then b1 - 5 / 1000 else b1) := by
  obtain ⟨_, _, _, w4⟩ := ProcessInput.window_spec s keys
  obtain ⟨a1, a2, b1, b2, hsp, e1, e2, e3, e4⟩ :=
    ProcessInput.spotLight_light (ProcessInput.window s keys).1.m_rendererInst keys l
      (by rw [w4]; exact h)
  obtain ⟨s', ev, hp⟩ := ProcessInput_isSome s keys ⟨hcam, by rw [h]; simp⟩
  refine ⟨s', ev, a1, a2, b1, b2, hp, ?_, e1, e2, e3, e4⟩
  unfold ProcessInput at hp
  simp only [hsp] at hp
  cases hc : (ProcessInput.window s keys).1.m_rendererInst.m_cameraRef with
  | none => simp [hc] at hp
  | some cam =>
    simp only [hc, Option.some.injEq, Prod.mk.injEq] at hp
    rw [← hp.1]

end SpotLightLemmas

end Engine

namespace Engine

section TranslationLemmas

variable {K : Type}

theorem translateArgs_append (a b : List (Event K)) :
    translateArgs (a ++ b) = translateArgs a ++ translateArgs b := by
  induction a with
  | nil => rfl
  | cons e a ih => cases e <;> simp [translateArgs, ih]

theorem ProcessInput.window_translateArgs (s : Application K) (keys : Key → Bool) :
    translateArgs (ProcessInput.window s keys).2 = [] := by
  unfold ProcessInput.window
  simp only [translateArgs_append]
  split_ifs <;> simp [translateArgs]

variable [LinearOrderedField K]

theorem ProcessInput.translation_eq (keys : Key → Bool) (speed dt : K) (cam : Camera K) :
    ProcessInput.translation keys speed dt cam
      = vec3.smul (speed * dt)
          (vec3.add
            (vec3.add (vec3.smul (pressed keys Key.W - pressed keys Key.S) cam.forward)
              (vec3.smul (pressed keys Key.A - pressed keys Key.D) cam.right))
            (vec3.smul (pressed keys Key.SPACE - pressed keys Key.C) cam.up)) := by
  have e1 : ∀ (b : Bool) (t v : vec3 K) (k : K),
      (if b = true then vec3.add t (vec3.smul k v) else t)
        = vec3.add t (vec3.smul (k * (if b = true then 1 else 0)) v) := by
    intro b t v k
    cases b <;> simp [vec3.add, vec3.smul]
  have e2 : ∀ (b : Bool) (t v : vec3 K) (k : K),
      (if b = true then vec3.sub t (vec3.smul k v) else t)
        = vec3.sub t (vec3.smul (k * (if b = true then 1 else 0)) v) := by
    intro b t v k
    cases b <;> simp [vec3.sub, vec3.smul]
  unfold ProcessInput.translation pressed
  simp only [e1, e2]
  simp only [vec3.zero, vec3.add, vec3.sub, vec3.smul, vec3.mk.injEq]
  refine ⟨?_, ?_, ?_⟩ <;> ring

theorem ProcessInput_translate (s s' : Application K) (keys : Key → Bool)
    (ev : List (Event K)) (h : ProcessInput s keys = some (s', ev)) :
    ∃ cam, s.m_rendererInst.m_cameraRef = some cam ∧
      translateArgs ev
        = [ProcessInput.translation keys (ProcessInput.moveSpeed keys) s.m_deltaTime cam] := by
  obtain ⟨w1, _, _, w4⟩ := ProcessInput.window_spec s keys
  unfold ProcessInput at h
  simp only [] at h
  cases hsp : ProcessInput.spotLight (ProcessInput.window s keys).1.m_rendererInst keys with
  | none => simp [hsp] at h
  | some r =>
    simp only [hsp] at h
    obtain ⟨p1, _⟩ := ProcessInput.spotLight_spec _ _ _ hsp
    cases hc : r.m_cameraRef with
    | none => simp [hc] at h
    | some cam =>
      simp only [hc, Option.some.injEq, Prod.mk.injEq] at h
      obtain ⟨_, rfl⟩ := h
      refine ⟨cam, by rw [← w4, ← p1, hc], ?_⟩
      rw [translateArgs_append, ProcessInput.window_translateArgs]
      simp only [translateArgs, List.nil_append, w1.2.2.1]

end TranslationLemmas

end Engine

namespace EngineRoot

open Engine

section TranslationLemmas

variable {K : Type} [LinearOrderedField K]

theorem rootProcessInput_translate (s : Application K) (keys : Key → Bool) (cam : Camera K)
    (h : s.m_cameraRef = some cam) :
    ProcessInput s keys
      = some (s, [Event.Translate
          (Engine.ProcessInput.translation keys (ProcessInput.speed keys) s.m_deltaTime cam)]) := by
  unfold ProcessInput
  simp only [h]

end TranslationLemmas

end EngineRoot

namespace Engine

theorem deltas_take_subset {K : Type} [Sub K] (fs : List K) :
    ∀ (t : K) (j : Nat) (d : K), d ∈ deltas t (fs.take j) → d ∈ deltas t fs := by
  induction fs with
  | nil => intro t j d h; simp [deltas] at h
  | cons a rest ih =>
    intro t j d h
    cases j with
    | zero => simp [deltas] at h
    | succ j =>
      simp only [List.take_succ_cons, deltas, List.mem_cons] at h ⊢
      rcases h with h | h
      · exact Or.inl h
      · exact Or.inr (ih a j d h)

section TimerLemmas

variable {K : Type} [LinearOrderedField K] [FloorRing K]

theorem loop_fixedTimer (m : MathFns K) (fs : List (FrameInput K)) :
    ∀ s : Application K,
      (fixedUpdateArgs (loop m s fs).iterations.flatten).length
          ≤ (loop m s fs).iterations.length ∧
      (loop m s fs).state.m_fixedDeltaTime = s.m_fixedDeltaTime ∧
      (loop m s fs).state.m_fixedTimer
        = s.m_fixedTimer
          + ((deltas s.m_currentTime (fs.map FrameInput.now)).take
              (loop m s fs).iterations.length).sum
          - ((fixedUpdateArgs (loop m s fs).iterations.flatten).length : K)
              * s.m_fixedDeltaTime := by
  induction fs with
  | nil =>
    intro s
    rw [(loop_nil_state m s).1, (loop_nil_state m s).2]
    simp [fixedUpdateArgs, deltas]
  | cons i rest ih =>
    intro s
    rw [loop_cons_eq]
    cases hc : s.windowShouldClose with
    | true => simp [fixedUpdateArgs]
    | false =>
      simp only [Bool.false_eq_true, if_false]
      cases hf : frame m s i with
      | none => simp [fixedUpdateArgs]
      | some p =>
        obtain ⟨s', ev⟩ := p
        have h1 := frame_fixedUpdateArgs m s s' i ev hf
        obtain ⟨_, _, _, f1, _, f3, f4, _⟩ := frame_spec m s s' i ev hf
        obtain ⟨i1, i2, i3⟩ := ih s'
        simp only [List.flatten_cons, fixedUpdateArgs_append, List.length_append,
          List.length_cons, List.map_cons, deltas, List.take_succ_cons, List.sum_cons, h1]
        rw [f1, f3, f4] at i3
        rw [f3] at i2
        refine ⟨?_, i2, ?_⟩
        · split_ifs <;> simp <;> omega
        · rw [i3]
          split_ifs <;> simp <;> ring

theorem loop_fixedTimer_nonneg (m : MathFns K) (fs : List (FrameInput K)) :
    ∀ s : Application K, 0 ≤ s.m_fixedTimer →
      (∀ d ∈ deltas s.m_currentTime (fs.map FrameInput.now), 0 ≤ d) →
      0 ≤ (loop m s fs).state.m_fixedTimer := by
  induction fs with
  | nil => intro s h _; rw [(loop_nil_state m s).1]; exact h
  | cons i rest ih =>
    intro s h hd
    rw [loop_cons_eq]
    cases hc : s.windowShouldClose with
    | true => simpa using h
    | false =>
      simp only [Bool.false_eq_true, if_false]
      cases hf : frame m s i with
      | none => simpa using h
      | some p =>
        obtain ⟨s', ev⟩ := p
        obtain ⟨_, _, _, f1, _, _, f4, _⟩ := frame_spec m s s' i ev hf
        simp only [List.map_cons, deltas, List.mem_cons, forall_eq_or_imp] at hd
        refine ih s' ?_ (by rw [f1]; exact hd.2)
        rw [f4]
        split_ifs with hge
        · linarith
        · linarith [hd.1]

end TimerLemmas

end Engine

namespace Engine

section YawLemmas

variable {K : Type} [LinearOrderedField K]

theorem MouseCallback_fields (m : MathFns K) (sens : K) (s : Application K) (x y : K)
    (h : s.m_rendererInst.m_cameraRef ≠ none) :
    ∃ s', MouseCallback m sens s x y = some s' ∧
      s'.m_yaw = s.m_yaw + (x - s.m_mouseLastX) * sens ∧
      s'.m_pitch
        = (if s.m_pitch + (y - s.m_mouseLastY) * sens > 89 then 89
            else if s.m_pitch + (y - s.m_mouseLastY) * sens < -89 then -89
            else s.m_pitch + (y - s.m_mouseLastY) * sens) ∧
      s'.m_mouseLastX = x ∧ s'.m_mouseLastY = y ∧
      s'.m_rendererInst.m_cameraRef ≠ none := by
  unfold MouseCallback
  simp only [MouseCallback.angles_camera]
  cases hc : s.m_rendererInst.m_cameraRef with
  | none => exact absurd hc h
  | some cam => exact ⟨_, rfl, rfl, rfl, rfl, rfl, by simp⟩

theorem mouseStates_yaw (m : MathFns K) (sens : K) (ps : List (K × K)) :
    ∀ s : Application K, s.m_rendererInst.m_cameraRef ≠ none →
      List.Forall₂
        (fun t p => ∃ s' : Application K, t = some s' ∧
          s'.m_yaw = s.m_yaw + sens * (p.1 - s.m_mouseLastX) ∧
          s'.m_mouseLastX = p.1 ∧ s'.m_mouseLastY = p.2)
        (mouseStates m sens s ps) ps := by
  induction ps with
  | nil => intro s _; simp [mouseStates]
  | cons p ps ih =>
    intro s h
    obtain ⟨s', hs', hy, _, hx, hly, hc⟩ := MouseCallback_fields m sens s p.1 p.2 h
    simp only [mouseStates, hs']
    refine List.Forall₂.cons ⟨s', rfl, by rw [hy]; ring, hx, hly⟩ ?_
    refine List.Forall₂.imp ?_ (ih s' hc)
    rintro t q ⟨s'', rfl, e1, e2, e3⟩
    exact ⟨s'', rfl, by rw [e1, hy, hx]; ring, e2, e3⟩

theorem MouseCallback_repeat (m : MathFns K) (sens : K) (s : Application K) (x y : K)
    (h : s.m_rendererInst.m_cameraRef ≠ none) :
    ∃ s', MouseCallback m sens s x y = some s' ∧ MouseCallback m sens s' x y = some s' := by
  cases hc : s.m_rendererInst.m_cameraRef with
  | none => exact absurd hc h
  | some cam =>
    have hr := MouseCallback.angles_pitch_mem sens s x y
    refine ⟨_, by unfold MouseCallback; simp only [MouseCallback.angles_camera, hc]; rfl, ?_⟩
    unfold MouseCallback
    simp only [MouseCallback.angles_camera, hc]
    unfold MouseCallback.angles at hr ⊢
    simp only [sub_self, zero_mul, add_zero] at hr ⊢
    have e : ∀ p : K, -89 ≤ p → p ≤ 89 →
        (if p > 89 then 89 else if p < -89 then -89 else p) = p := by
      intro p h1 h2
      rw [if_neg (not_lt.mpr h2), if_neg (not_lt.mpr h1)]
    rw [e _ hr.1 hr.2]

theorem MouseCallback_yaw_unbounded (m : MathFns K) (sens : K) (hsens : 0 < sens)
    (s : Application K) (h : s.m_rendererInst.m_cameraRef ≠ none) (B : K) :
    ∃ x : K, ∀ y : K, ∃ s', MouseCallback m sens s x y = some s' ∧ B < s'.m_yaw := by
  refine ⟨s.m_mouseLastX + (B - s.m_yaw + 1) / sens, fun y => ?_⟩
  obtain ⟨s', hs', hy, _⟩ := MouseCallback_fields m sens s _ y h
  refine ⟨s', hs', ?_⟩
  rw [hy]
  have : (s.m_mouseLastX + (B - s.m_yaw + 1) / sens - s.m_mouseLastX) * sens
      = B - s.m_yaw + 1 := by
    have e := div_mul_cancel₀ (B - s.m_yaw + 1) (ne_of_gt hsens)
    linear_combination e
  linarith

theorem MouseCallback_pitch_no_return (m : MathFns K) (sens : K) (hsens : 0 < sens)
    (s : Application K) (h : s.m_rendererInst.m_cameraRef ≠ none)
    (hp : -89 ≤ s.m_pitch ∧ s.m_pitch ≤ 89) :
    ∃ (y : K) (s1 s2 : Application K),
      MouseCallback m sens s s.m_mouseLastX y = some s1 ∧
      MouseCallback m sens s1 s.m_mouseLastX s.m_mouseLastY = some s2 ∧
      s2.m_mouseLastX = s.m_mouseLastX ∧ s2.m_mouseLastY = s.m_mouseLastY ∧
      s2.m_yaw = s.m_yaw ∧ s2.m_pitch ≠ s.m_pitch := by
  have hne : sens ≠ 0 := ne_of_gt hsens
  by_cases hlow : s.m_pitch = -89
  · obtain ⟨s1, hs1, y1, p1, x1, l1, c1⟩ :=
      MouseCallback_fields m sens s s.m_mouseLastX (s.m_mouseLastY - 200 / sens) h
    obtain ⟨s2, hs2, y2, p2, x2, l2, _⟩ :=
      MouseCallback_fields m sens s1 s.m_mouseLastX s.m_mouseLastY c1
    refine ⟨_, s1, s2, hs1, hs2, x2, l2, by rw [y2, y1, x1]; ring, ?_⟩
    have e1 : (s.m_mouseLastY - 200 / sens - s.m_mouseLastY) * sens = -200 := by
      linear_combination (-1 : K) * div_mul_cancel₀ (200 : K) hne
    have e2 : (s.m_mouseLastY - (s.m_mouseLastY - 200 / sens)) * sens = 200 := by
      linear_combination div_mul_cancel₀ (200 : K) hne
    rw [e1, hlow] at p1
    norm_num at p1
    rw [p1, l1, e2] at p2
    norm_num at p2
    rw [p2, hlow]
    norm_num
  · have hgt : -89 < s.m_pitch := lt_of_le_of_ne hp.1 (Ne.symm hlow)
    obtain ⟨s1, hs1, y1, p1, x1, l1, c1⟩ :=
      MouseCallback_fields m sens s s.m_mouseLastX (s.m_mouseLastY + 200 / sens) h
    obtain ⟨s2, hs2, y2, p2, x2, l2, _⟩ :=
      MouseCallback_fields m sens s1 s.m_mouseLastX s.m_mouseLastY c1
    refine ⟨_, s1, s2, hs1, hs2, x2, l2, by rw [y2, y1, x1]; ring, ?_⟩
    have e1 : (s.m_mouseLastY + 200 / sens - s.m_mouseLastY) * sens = 200 := by
      linear_combination div_mul_cancel₀ (200 : K) hne
    have e2 : (s.m_mouseLastY - (s.m_mouseLastY + 200 / sens)) * sens = -200 := by
      linear_combination (-1 : K) * div_mul_cancel₀ (200 : K) hne
    rw [e1, if_pos (by linarith)] at p1
    rw [p1, l1, e2] at p2
    norm_num at p2
    rw [p2]
    exact ne_of_lt hgt

end YawLemmas

end Engine


namespace EngineRoot

open Engine

section RootYawLemmas

variable {K : Type} [LinearOrderedField K]

theorem rootMouseCallback_fields (m : MathFns K) (sens : K) (s : Application K) (x y : K)
    (h : s.m_cameraRef ≠ none) :
    ∃ s', MouseCallback m sens s x y = some s' ∧
      s'.m_yaw = s.m_yaw + (x - s.m_mouseLastX) * sens ∧
      s'.m_pitch
        = (if s.m_pitch + (y - s.m_mouseLastY) * sens > 89 then 89
            else if s.m_pitch + (y - s.m_mouseLastY) * sens < -89 then -89
            else s.m_pitch + (y - s.m_mouseLastY) * sens) ∧
      s'.m_mouseLastX = x ∧ s'.m_mouseLastY = y ∧
      s'.m_cameraRef ≠ none := by
  unfold MouseCallback
  simp only [MouseCallback.rootAngles_camera]
  cases hc : s.m_cameraRef with
  | none => exact absurd hc h
  | some cam => exact ⟨_, rfl, rfl, rfl, rfl, rfl, by simp⟩

theorem rootMouseStates_yaw (m : MathFns K) (sens : K) (ps : List (K × K)) :
    ∀ s : Application K, s.m_cameraRef ≠ none →
      List.Forall₂
        (fun t p => ∃ s' : Application K, t = some s' ∧
          s'.m_yaw = s.m_yaw + sens * (p.1 - s.m_mouseLastX) ∧
          s'.m_mouseLastX = p.1 ∧ s'.m_mouseLastY = p.2)
        (mouseStates m sens s ps) ps := by
  induction ps with
  | nil => intro s _; simp [mouseStates]
  | cons p ps ih =>
    intro s h
    obtain ⟨s', hs', hy, _, hx, hly, hc⟩ := rootMouseCallback_fields m sens s p.1 p.2 h
    simp only [mouseStates, hs']
    refine List.Forall₂.cons ⟨s', rfl, by rw [hy]; ring, hx, hly⟩ ?_
    refine List.Forall₂.imp ?_ (ih s' hc)
    rintro t q ⟨s'', rfl, e1, e2, e3⟩
    exact ⟨s'', rfl, by rw [e1, hy, hx]; ring, e2, e3⟩

theorem rootMouseCallback_repeat (m : MathFns K) (sens : K) (s : Application K) (x y : K)
    (h : s.m_cameraRef ≠ none) :
    ∃ s', MouseCallback m sens s x y = some s' ∧ MouseCallback m sens s' x y = some s' := by
  cases hc : s.m_cameraRef with
  | none => exact absurd hc h
  | some cam =>
    have hr := MouseCallback.rootAngles_pitch_mem sens s x y
    refine ⟨_, by unfold MouseCallback; simp only [MouseCallback.rootAngles_camera, hc]; rfl, ?_⟩
    unfold MouseCallback
    simp only [MouseCallback.rootAngles_camera, hc]
    unfold MouseCallback.angles at hr ⊢
    simp only [sub_self, zero_mul, add_zero] at hr ⊢
    have e : ∀ p : K, -89 ≤ p → p ≤ 89 →
        (if p > 89 then 89 else if p < -89 then -89 else p) = p := by
      intro p h1 h2
      rw [if_neg (not_lt.mpr h2), if_neg (not_lt.mpr h1)]
    rw [e _ hr.1 hr.2]

theorem rootMouseCallback_yaw_unbounded (m : MathFns K) (sens : K) (hsens : 0 < sens)
    (s : Application K) (h : s.m_cameraRef ≠ none) (B : K) :
    ∃ x : K, ∀ y : K, ∃ s', MouseCallback m sens s x y = some s' ∧ B < s'.m_yaw := by
  refine ⟨s.m_mouseLastX + (B - s.m_yaw + 1) / sens, fun y => ?_⟩
  obtain ⟨s', hs', hy, _⟩ := rootMouseCallback_fields m sens s _ y h
  refine ⟨s', hs', ?_⟩
  rw [hy]
  have : (s.m_mouseLastX + (B - s.m_yaw + 1) / sens - s.m_mouseLastX) * sens
      = B - s.m_yaw + 1 := by
    have e := div_mul_cancel₀ (B - s.m_yaw + 1) (ne_of_gt hsens)
    linear_combination e
  linarith

theorem rootMouseCallback_pitch_no_return (m : MathFns K) (sens : K) (hsens : 0 < sens)
    (s : Application K) (h : s.m_cameraRef ≠ none)
    (hp : -89 ≤ s.m_pitch ∧ s.m_pitch ≤ 89) :
    ∃ (y : K) (s1 s2 : Application K),
      MouseCallback m sens s s.m_mouseLastX y = some s1 ∧
      MouseCallback m sens s1 s.m_mouseLastX s.m_mouseLastY = some s2 ∧
      s2.m_mouseLastX = s.m_mouseLastX ∧ s2.m_mouseLastY = s.m_mouseLastY ∧
      s2.m_yaw = s.m_yaw ∧ s2.m_pitch ≠ s.m_pitch := by
  have hne : sens ≠ 0 := ne_of_gt hsens
  by_cases hlow : s.m_pitch = -89
  · obtain ⟨s1, hs1, y1, p1, x1, l1, c1⟩ :=
      rootMouseCallback_fields m sens s s.m_mouseLastX (s.m_mouseLastY - 200 / sens) h
    obtain ⟨s2, hs2, y2, p2, x2, l2, _⟩ :=
      rootMouseCallback_fields m sens s1 s.m_mouseLastX s.m_mouseLastY c1
    refine ⟨_, s1, s2, hs1, hs2, x2, l2, by rw [y2, y1, x1]; ring, ?_⟩
    have e1 : (s.m_mouseLastY - 200 / sens - s.m_mouseLastY) * sens = -200 := by
      linear_combination (-1 : K) * div_mul_cancel₀ (200 : K) hne
    have e2 : (s.m_mouseLastY - (s.m_mouseLastY - 200 / sens)) * sens = 200 := by
      linear_combination div_mul_cancel₀ (200 : K) hne
    rw [e1, hlow] at p1
    norm_num at p1
    rw [p1, l1, e2] at p2
    norm_num at p2
    rw [p2, hlow]
    norm_num
  · have hgt : -89 < s.m_pitch := lt_of_le_of_ne hp.1 (Ne.symm hlow)
    obtain ⟨s1, hs1, y1, p1, x1, l1, c1⟩ :=
      rootMouseCallback_fields m sens s s.m_mouseLastX (s.m_mouseLastY + 200 / sens) h
    obtain ⟨s2, hs2, y2, p2, x2, l2, _⟩ :=
      rootMouseCallback_fields m sens s1 s.m_mouseLastX s.m_mouseLastY c1
    refine ⟨_, s1, s2, hs1, hs2, x2, l2, by rw [y2, y1, x1]; ring, ?_⟩
    have e1 : (s.m_mouseLastY + 200 / sens - s.m_mouseLastY) * sens = 200 := by
      linear_combination div_mul_cancel₀ (200 : K) hne
    have e2 : (s.m_mouseLastY - (s.m_mouseLastY + 200 / sens)) * sens = -200 := by
      linear_combination (-1 : K) * div_mul_cancel₀ (200 : K) hne
    rw [e1, if_pos (by linarith)] at p1
    rw [p1, l1, e2] at p2
    norm_num at p2
    rw [p2]
    exact ne_of_lt hgt

end RootYawLemmas

end EngineRoot

namespace Engine

section BlurLemmas

variable {K : Type} [LinearOrderedField K]

theorem step_up_ge (x d y : K) (P : Prop) [Decidable P]
    (hy : y = if P then x + d else x) (hd : 0 ≤ d) : x ≤ y := by
  by_cases h : P
  · rw [if_pos h] at hy
    subst hy
    linarith
  · rw [if_neg h] at hy
    subst hy
    exact le_refl _

theorem ProcessInput_blur_pos (s : Application K) (keys : Key → Bool) (l : Light K)
    (hcam : s.m_rendererInst.m_cameraRef ≠ none)
    (hl : s.m_rendererInst.m_lightSpot = some l) :
    ∃ s' ev l', ProcessInput s keys = some (s', ev) ∧
      s'.m_rendererInst.m_cameraRef ≠ none ∧
      s'.m_rendererInst.m_lightSpot = some l' ∧ (0 < l.blur → 0 < l'.blur) := by
  obtain ⟨s', ev, a1, a2, b1, b2, hp, hlight, _, _, e3, e4⟩ :=
    ProcessInput_light s keys l hcam hl
  have u1 := step_up_ge l.blur (5 / 1000) b1 _ e3 (by norm_num)
  obtain ⟨_, _, _, v4⟩ := step_down_strict_bounds b1 (5 / 1000) 0 b2 _ e4 (by norm_num)
  obtain ⟨_, _, _, c4, _⟩ := ProcessInput_spec s s' keys ev hp
  exact ⟨s', ev, ⟨a2, b2⟩, hp, by rw [c4]; exact hcam, hlight,
    fun hb => v4 (lt_of_lt_of_le hb u1)⟩

theorem pressKeys_blur_pos (ks : List (Key → Bool)) :
    ∀ (s : Application K) (l : Light K), s.m_rendererInst.m_cameraRef ≠ none →
      s.m_rendererInst.m_lightSpot = some l → 0 < l.blur →
      ∃ s' l', pressKeys s ks = some s' ∧ s'.m_rendererInst.m_lightSpot = some l' ∧
        0 < l'.blur := by
  induction ks with
  | nil => intro s l _ hl hb; exact ⟨s, l, rfl, hl, hb⟩
  | cons keys rest ih =>
    intro s l hcam hl hb
    obtain ⟨s', ev, l', hp, hc', hl', hb'⟩ := ProcessInput_blur_pos s keys l hcam hl
    obtain ⟨s'', l'', h1, h2, h3⟩ := ih s' l' hc' hl' (hb' hb)
    exact ⟨s'', l'', by simp only [pressKeys, hp, h1], h2, h3⟩

end BlurLemmas

end Engine

namespace Engine

section DimensionLemmas

variable {K : Type} [LinearOrderedField K]

theorem SetDimensions_attached (s : Application K) (w h : Nat) (cam : Camera K)
    (hcam : s.m_rendererInst.m_cameraRef = some cam) (hw : 0 < w) (hh : 0 < h) :
    SetDimensions s w h
      = some ({ s with
                m_winWidth := w, m_winHeight := h,
                m_rendererInst :=
                  ⟨some { cam with aspectRatio := (w : K) / (h : K) },
                    s.m_rendererInst.m_lightSpot⟩ },
              [Event.SetAspectRatio ((w : K) / (h : K)), Event.UpdateFovV]) := by
  unfold SetDimensions
  rw [if_pos ⟨by rw [hcam]; simp, hw, hh⟩]
  unfold UpdateCamera
  simp only [hcam]

theorem SetDimensions_skipped (s : Application K) (w h : Nat)
    (hc : ¬ (s.m_rendererInst.m_cameraRef ≠ none ∧ 0 < w ∧ 0 < h)) :
    SetDimensions s w h = some ({ s with m_winWidth := w, m_winHeight := h }, []) := by
  unfold SetDimensions
  rw [if_neg hc]

end DimensionLemmas

end Engine

namespace Engine

section BasisValueLemmas

variable {K : Type} [LinearOrderedField K]

theorem basis_components (m : MathFns K) (yaw pitch : K)
    (hcs : ∀ a, m.cos a ^ 2 + m.sin a ^ 2 = 1) (hone : m.sqrt 1 = 1)
    (hsq : ∀ x, 0 < x → m.sqrt (x ^ 2) = x)
    (hpos : 0 < m.cos (m.radians pitch)) :
    MouseCallback.forward m yaw pitch
      = ⟨m.cos (m.radians yaw) * m.cos (m.radians pitch),
         m.sin (m.radians pitch),
         m.sin (m.radians yaw) * m.cos (m.radians pitch)⟩ ∧
    MouseCallback.right m (MouseCallback.forward m yaw pitch)
      = ⟨m.sin (m.radians yaw), 0, -m.cos (m.radians yaw)⟩ ∧
    MouseCallback.up (MouseCallback.forward m yaw pitch)
        (MouseCallback.right m (MouseCallback.forward m yaw pitch))
      = ⟨-(m.sin (m.radians pitch) * m.cos (m.radians yaw)),
         m.cos (m.radians pitch),
         -(m.sin (m.radians yaw) * m.sin (m.radians pitch))⟩ := by
  set forward := MouseCallback.forward m yaw pitch with hforward
  set right := MouseCallback.right m forward with hright
  set cy := m.cos (m.radians yaw) with hcy
  set sy := m.sin (m.radians yaw) with hsy
  set cp := m.cos (m.radians pitch) with hcp
  set sp := m.sin (m.radians pitch) with hsp
  have h1 : cy ^ 2 + sy ^ 2 = 1 := hcs _
  have h2 : cp ^ 2 + sp ^ 2 = 1 := hcs _
  have hraw : vec3.dot (⟨cy * cp, sp, sy * cp⟩ : vec3 K) ⟨cy * cp, sp, sy * cp⟩ = 1 := by
    simp only [vec3.dot]
    have : cy * cp * (cy * cp) + sp * sp + sy * cp * (sy * cp)
        = cp ^ 2 * (cy ^ 2 + sy ^ 2) + sp ^ 2 := by ring
    rw [this, h1, mul_one, h2]
  have hf : forward = ⟨cy * cp, sp, sy * cp⟩ := by
    show normalize m _ = _
    simp only [normalize, hraw, hone, vec3.smul, div_one, one_mul]
  have hcross : vec3.cross (⟨0, 1, 0⟩ : vec3 K) forward = ⟨sy * cp, 0, -(cy * cp)⟩ := by
    rw [hf]; simp [vec3.cross]
  have hcd : vec3.dot (⟨sy * cp, 0, -(cy * cp)⟩ : vec3 K) ⟨sy * cp, 0, -(cy * cp)⟩ = cp ^ 2 := by
    simp only [vec3.dot]
    have : sy * cp * (sy * cp) + 0 * 0 + -(cy * cp) * -(cy * cp)
        = cp ^ 2 * (cy ^ 2 + sy ^ 2) := by ring
    rw [this, h1, mul_one]
  have hne : cp ≠ 0 := ne_of_gt hpos
  have hr : right = ⟨sy, 0, -cy⟩ := by
    show normalize m _ = _
    rw [hcross]
    simp only [normalize, hcd, hsq cp hpos, vec3.smul]
    congr 1
    · field_simp
    · simp
    · field_simp
  refine ⟨hf, hr, ?_⟩
  show vec3.cross forward right = _
  rw [hf, hr]
  simp only [vec3.cross]
  congr 1
  · ring
  · have : sy * cp * sy - -cy * (cy * cp) = cp * (cy ^ 2 + sy ^ 2) := by ring
    rw [this, h1, mul_one]
  · ring

theorem real_basis_values (yaw pitch : ℝ) (h1 : -89 ≤ pitch) (h2 : pitch ≤ 89)
    (cam : Camera ℝ)
    (hf : cam.forward = MouseCallback.forward
      ⟨Real.cos, Real.sin, Real.sqrt, fun d => d * (Real.pi / 180)⟩ yaw pitch)
    (hr : cam.right = MouseCallback.right
      ⟨Real.cos, Real.sin, Real.sqrt, fun d => d * (Real.pi / 180)⟩ cam.forward)
    (hu : cam.up = MouseCallback.up cam.forward cam.right) :
    Camera.basisOf ⟨Real.cos, Real.sin, Real.sqrt, fun d => d * (Real.pi / 180)⟩ yaw pitch cam ∧
    Camera.components ⟨Real.cos, Real.sin, Real.sqrt, fun d => d * (Real.pi / 180)⟩
      yaw pitch cam := by
  have h := basis_components
    (⟨Real.cos, Real.sin, Real.sqrt, fun d => d * (Real.pi / 180)⟩ : MathFns ℝ) yaw pitch
    (fun a => Real.cos_sq_add_sin_sq a) Real.sqrt_one
    (fun _ hx => Real.sqrt_sq (le_of_lt hx)) (real_cos_pos_of_clamped pitch h1 h2)
  refine ⟨⟨hf, hr, hu⟩, ?_⟩
  unfold Camera.components
  rw [hu, hr, hf]
  exact h

end BasisValueLemmas

end Engine

/-! ## Claims -/

/-- C1. In both copies of `Application::MouseCallback`, with a camera
attached and from any starting pitch whatsoever: every callback of any
finite sequence of mouse positions completes and leaves the stored pitch
`m_pitch` in `[-89, 89]`; in particular a single callback already brings an
arbitrary pitch into the range, and the range is kept from states that are
in it. -/
theorem C1_pitch_clamped {K : Type} [LinearOrderedField K] (m : Engine.MathFns K) (sens : K)
    (s : Engine.Application K) (r : EngineRoot.Application K) (ps : List (K × K))
    (hs : s.m_rendererInst.m_cameraRef ≠ none) (hr : r.m_cameraRef ≠ none) :
    ((Engine.mouseStates m sens s ps).length = ps.length ∧
      ∀ t ∈ Engine.mouseStates m sens s ps,
        ∃ s', t = some s' ∧ -89 ≤ s'.m_pitch ∧ s'.m_pitch ≤ 89) ∧
    (∀ x y : K, ∃ s', Engine.MouseCallback m sens s x y = some s' ∧
        -89 ≤ s'.m_pitch ∧ s'.m_pitch ≤ 89) ∧
    ((EngineRoot.mouseStates m sens r ps).length = ps.length ∧
      ∀ t ∈ EngineRoot.mouseStates m sens r ps,
        ∃ r', t = some r' ∧ -89 ≤ r'.m_pitch ∧ r'.m_pitch ≤ 89) ∧
    (∀ x y : K, ∃ r', EngineRoot.MouseCallback m sens r x y = some r' ∧
        -89 ≤ r'.m_pitch ∧ r'.m_pitch ≤ 89) := by
  refine ⟨Engine.mouseStates_spec m sens ps s hs, ?_, EngineRoot.rootMouseStates_spec m sens ps r hr, ?_⟩
  · intro x y
    obtain ⟨s', h1, h2, _, _⟩ := Engine.MouseCallback_eq_some m sens s x y hs
    exact ⟨s', h1, by rw [h2]; exact Engine.MouseCallback.angles_pitch_mem sens s x y⟩
  · intro x y
    obtain ⟨r', h1, h2, _, _⟩ := EngineRoot.rootMouseCallback_eq_some m sens r x y hr
    exact ⟨r', h1, by rw [h2]; exact EngineRoot.MouseCallback.rootAngles_pitch_mem sens r x y⟩

/-- C1 at a concrete input: two large vertical mouse movements, in both
copies. -/
theorem C1_pitch_clamped_witness :
    (Engine.mouseStates Example.math Engine.sens Example.app
        [(0, 4000), (0, -9000)]).length = 2 ∧
    (EngineRoot.mouseStates Example.math EngineRoot.sens Example.appRoot
        [(0, 4000), (0, -9000)]).length = 2 :=
  ⟨(C1_pitch_clamped Example.math Engine.sens Example.app Example.appRoot
      [(0, 4000), (0, -9000)] (by simp [Example.app, Example.appOver]) (by simp [Example.appRoot, Example.appRootOver])).1.1,
   (C1_pitch_clamped Example.math EngineRoot.sens Example.app Example.appRoot
      [(0, 4000), (0, -9000)] (by simp [Example.app, Example.appOver]) (by simp [Example.appRoot, Example.appRootOver])).2.2.1.1⟩

/-- C2. Over the reals, with `cos`, `sin`, `sqrt` the real functions and
`glm::radians d = d * (π / 180)`: in both copies of
`Application::MouseCallback`, with a camera attached, every callback of any
finite sequence of mouse positions completes and hands the camera the
vectors forward = normalize(cos yaw cos pitch, sin pitch, sin yaw cos pitch),
right = normalize(cross((0, 1, 0), forward)) and up = cross(forward, right),
for the yaw and the pitch stored by this callback, the pitch being in
`[-89, 89]`.  These three vectors are mutually orthonormal (each of length
1, every pairwise dot product 0), and the cross product of world-up
`(0, 1, 0)` with forward is not the zero vector.  Their components are
forward `(cos yaw cos pitch, sin pitch, sin yaw cos pitch)`, right
`(sin yaw, 0, -cos yaw)` and up
`(-sin pitch cos yaw, cos pitch, -sin yaw sin pitch)`.  The same is stated
for a single callback. -/
theorem C2_basis_orthonormal (sens : ℝ) (s : Engine.Application ℝ)
    (r : EngineRoot.Application ℝ) (ps : List (ℝ × ℝ))
    (hs : s.m_rendererInst.m_cameraRef ≠ none) (hr : r.m_cameraRef ≠ none) :
    (∀ t ∈ Engine.mouseStates
        ⟨Real.cos, Real.sin, Real.sqrt, fun d => d * (Real.pi / 180)⟩ sens s ps,
      ∃ s' cam, t = some s' ∧ s'.m_rendererInst.m_cameraRef = some cam ∧
        Engine.Camera.orthonormal
          ⟨Real.cos, Real.sin, Real.sqrt, fun d => d * (Real.pi / 180)⟩ cam ∧
        Engine.vec3.cross ⟨0, 1, 0⟩ cam.forward ≠ ⟨0, 0, 0⟩ ∧
        (-89 ≤ s'.m_pitch ∧ s'.m_pitch ≤ 89) ∧
        Engine.Camera.basisOf
          ⟨Real.cos, Real.sin, Real.sqrt, fun d => d * (Real.pi / 180)⟩
          s'.m_yaw s'.m_pitch cam ∧
        Engine.Camera.components
          ⟨Real.cos, Real.sin, Real.sqrt, fun d => d * (Real.pi / 180)⟩
          s'.m_yaw s'.m_pitch cam) ∧
    (∀ x y : ℝ, ∃ s' cam,
      Engine.MouseCallback
        ⟨Real.cos, Real.sin, Real.sqrt, fun d => d * (Real.pi / 180)⟩ sens s x y = some s' ∧
      s'.m_rendererInst.m_cameraRef = some cam ∧
      Engine.Camera.orthonormal
        ⟨Real.cos, Real.sin, Real.sqrt, fun d => d * (Real.pi / 180)⟩ cam ∧
      Engine.vec3.cross ⟨0, 1, 0⟩ cam.forward ≠ ⟨0, 0, 0⟩ ∧
      (-89 ≤ s'.m_pitch ∧ s'.m_pitch ≤ 89) ∧
      Engine.Camera.basisOf
        ⟨Real.cos, Real.sin, Real.sqrt, fun d => d * (Real.pi / 180)⟩
        s'.m_yaw s'.m_pitch cam ∧
      Engine.Camera.components
        ⟨Real.cos, Real.sin, Real.sqrt, fun d => d * (Real.pi / 180)⟩
        s'.m_yaw s'.m_pitch cam) ∧
    (∀ t ∈ EngineRoot.mouseStates
        ⟨Real.cos, Real.sin, Real.sqrt, fun d => d * (Real.pi / 180)⟩ sens r ps,
      ∃ r' cam, t = some r' ∧ r'.m_cameraRef = some cam ∧
        Engine.Camera.orthonormal
          ⟨Real.cos, Real.sin, Real.sqrt, fun d => d * (Real.pi / 180)⟩ cam ∧
        Engine.vec3.cross ⟨0, 1, 0⟩ cam.forward ≠ ⟨0, 0, 0⟩ ∧
        (-89 ≤ r'.m_pitch ∧ r'.m_pitch ≤ 89) ∧
        Engine.Camera.basisOf
          ⟨Real.cos, Real.sin, Real.sqrt, fun d => d * (Real.pi / 180)⟩
          r'.m_yaw r'.m_pitch cam ∧
        Engine.Camera.components
          ⟨Real.cos, Real.sin, Real.sqrt, fun d => d * (Real.pi / 180)⟩
          r'.m_yaw r'.m_pitch cam) ∧
    (∀ x y : ℝ, ∃ r' cam,
      EngineRoot.MouseCallback
        ⟨Real.cos, Real.sin, Real.sqrt, fun d => d * (Real.pi / 180)⟩ sens r x y = some r' ∧
      r'.m_cameraRef = some cam ∧
      Engine.Camera.orthonormal
        ⟨Real.cos, Real.sin, Real.sqrt, fun d => d * (Real.pi / 180)⟩ cam ∧
      Engine.vec3.cross ⟨0, 1, 0⟩ cam.forward ≠ ⟨0, 0, 0⟩ ∧
      (-89 ≤ r'.m_pitch ∧ r'.m_pitch ≤ 89) ∧
      Engine.Camera.basisOf
        ⟨Real.cos, Real.sin, Real.sqrt, fun d => d * (Real.pi / 180)⟩
        r'.m_yaw r'.m_pitch cam ∧
      Engine.Camera.components
        ⟨Real.cos, Real.sin, Real.sqrt, fun d => d * (Real.pi / 180)⟩
        r'.m_yaw r'.m_pitch cam) := by
  have one : ∀ (s : Engine.Application ℝ) (x y : ℝ), s.m_rendererInst.m_cameraRef ≠ none →
      ∃ s', Engine.MouseCallback
          ⟨Real.cos, Real.sin, Real.sqrt, fun d => d * (Real.pi / 180)⟩ sens s x y = some s' ∧
        s'.m_rendererInst.m_cameraRef ≠ none ∧
        ∃ cam, s'.m_rendererInst.m_cameraRef = some cam ∧
          Engine.Camera.orthonormal
            ⟨Real.cos, Real.sin, Real.sqrt, fun d => d * (Real.pi / 180)⟩ cam ∧
          Engine.vec3.cross ⟨0, 1, 0⟩ cam.forward ≠ ⟨0, 0, 0⟩ ∧
          (-89 ≤ s'.m_pitch ∧ s'.m_pitch ≤ 89) ∧
          Engine.Camera.basisOf
            ⟨Real.cos, Real.sin, Real.sqrt, fun d => d * (Real.pi / 180)⟩
            s'.m_yaw s'.m_pitch cam ∧
          Engine.Camera.components
            ⟨Real.cos, Real.sin, Real.sqrt, fun d => d * (Real.pi / 180)⟩
            s'.m_yaw s'.m_pitch cam := by
    intro s x y h
    obtain ⟨s', cam, h1, h2, h3, h4, h5, h6⟩ := Engine.MouseCallback_camera
      (⟨Real.cos, Real.sin, Real.sqrt, fun d => d * (Real.pi / 180)⟩ : Engine.MathFns ℝ)
      sens s x y h
    have ho := Engine.real_basis s'.m_yaw s'.m_pitch h3.1 h3.2 cam h4 h5 h6
    have hv := Engine.real_basis_values s'.m_yaw s'.m_pitch h3.1 h3.2 cam h4 h5 h6
    exact ⟨s', h1, by simp [h2], cam, h2, ho.1, ho.2, h3, hv.1, hv.2⟩
  have oneRoot : ∀ (r : EngineRoot.Application ℝ) (x y : ℝ), r.m_cameraRef ≠ none →
      ∃ r', EngineRoot.MouseCallback
          ⟨Real.cos, Real.sin, Real.sqrt, fun d => d * (Real.pi / 180)⟩ sens r x y = some r' ∧
        r'.m_cameraRef ≠ none ∧
        ∃ cam, r'.m_cameraRef = some cam ∧
          Engine.Camera.orthonormal
            ⟨Real.cos, Real.sin, Real.sqrt, fun d => d * (Real.pi / 180)⟩ cam ∧
          Engine.vec3.cross ⟨0, 1, 0⟩ cam.forward ≠ ⟨0, 0, 0⟩ ∧
          (-89 ≤ r'.m_pitch ∧ r'.m_pitch ≤ 89) ∧
          Engine.Camera.basisOf
            ⟨Real.cos, Real.sin, Real.sqrt, fun d => d * (Real.pi / 180)⟩
            r'.m_yaw r'.m_pitch cam ∧
          Engine.Camera.components
            ⟨Real.cos, Real.sin, Real.sqrt, fun d => d * (Real.pi / 180)⟩
            r'.m_yaw r'.m_pitch cam := by
    intro r x y h
    obtain ⟨r', cam, h1, h2, h3, h4, h5, h6⟩ := EngineRoot.rootMouseCallback_camera
      (⟨Real.cos, Real.sin, Real.sqrt, fun d => d * (Real.pi / 180)⟩ : Engine.MathFns ℝ)
      sens r x y h
    have ho := Engine.real_basis r'.m_yaw r'.m_pitch h3.1 h3.2 cam h4 h5 h6
    have hv := Engine.real_basis_values r'.m_yaw r'.m_pitch h3.1 h3.2 cam h4 h5 h6
    exact ⟨r', h1, by simp [h2], cam, h2, ho.1, ho.2, h3, hv.1, hv.2⟩
  refine ⟨?_, ?_, ?_, ?_⟩
  · intro t ht
    obtain ⟨s', h1, cam, h2⟩ := Engine.mouseStates_forall _ sens _ one ps s hs t ht
    exact ⟨s', cam, h1, h2⟩
  · intro x y
    obtain ⟨s', h1, _, cam, h2⟩ := one s x y hs
    exact ⟨s', cam, h1, h2⟩
  · intro t ht
    obtain ⟨r', h1, cam, h2⟩ := EngineRoot.rootMouseStates_forall _ sens _ oneRoot ps r hr t ht
    exact ⟨r', cam, h1, h2⟩
  · intro x y
    obtain ⟨r', h1, _, cam, h2⟩ := oneRoot r x y hr
    exact ⟨r', cam, h1, h2⟩

/-- C2 at a concrete input: one callback at position `(300, -120)` on the
example application of each copy, over the reals. -/
theorem C2_basis_orthonormal_witness :
    (∃ s' cam,
      Engine.MouseCallback
        ⟨Real.cos, Real.sin, Real.sqrt, fun d => d * (Real.pi / 180)⟩ Engine.sens
        (Example.appOver ℝ) 300 (-120) = some s' ∧
      s'.m_rendererInst.m_cameraRef = some cam ∧
      Engine.Camera.orthonormal
        ⟨Real.cos, Real.sin, Real.sqrt, fun d => d * (Real.pi / 180)⟩ cam ∧
      Engine.vec3.cross ⟨0, 1, 0⟩ cam.forward ≠ ⟨0, 0, 0⟩ ∧
      (-89 ≤ s'.m_pitch ∧ s'.m_pitch ≤ 89) ∧
      Engine.Camera.basisOf
        ⟨Real.cos, Real.sin, Real.sqrt, fun d => d * (Real.pi / 180)⟩
        s'.m_yaw s'.m_pitch cam ∧
      Engine.Camera.components
        ⟨Real.cos, Real.sin, Real.sqrt, fun d => d * (Real.pi / 180)⟩
        s'.m_yaw s'.m_pitch cam) ∧
    (∃ r' cam,
      EngineRoot.MouseCallback
        ⟨Real.cos, Real.sin, Real.sqrt, fun d => d * (Real.pi / 180)⟩ Engine.sens
        (Example.appRootOver ℝ) 300 (-120) = some r' ∧
      r'.m_cameraRef = some cam ∧
      Engine.Camera.orthonormal
        ⟨Real.cos, Real.sin, Real.sqrt, fun d => d * (Real.pi / 180)⟩ cam ∧
      Engine.vec3.cross ⟨0, 1, 0⟩ cam.forward ≠ ⟨0, 0, 0⟩ ∧
      (-89 ≤ r'.m_pitch ∧ r'.m_pitch ≤ 89) ∧
      Engine.Camera.basisOf
        ⟨Real.cos, Real.sin, Real.sqrt, fun d => d * (Real.pi / 180)⟩
        r'.m_yaw r'.m_pitch cam ∧
      Engine.Camera.components
        ⟨Real.cos, Real.sin, Real.sqrt, fun d => d * (Real.pi / 180)⟩
        r'.m_yaw r'.m_pitch cam) :=
  ⟨(C2_basis_orthonormal Engine.sens (Example.appOver ℝ) (Example.appRootOver ℝ) []
      (by simp [Example.appOver]) (by simp [Example.appRootOver])).2.1 300 (-120),
   (C2_basis_orthonormal Engine.sens (Example.appOver ℝ) (Example.appRootOver ℝ) []
      (by simp [Example.appOver]) (by simp [Example.appRootOver])).2.2.2 300 (-120)⟩

/-- C3. In the frame loop of `Application::Run` (first copy), starting from
a fixed timer of 0 with a positive fixed step: for every sequence of
non-negative frame deltas whose sum is exactly one fixed step, over the
frames executed for these deltas `FixedUpdate` is invoked exactly once, with
argument `m_fixedDeltaTime`, in the frame at which the running sum of the
deltas first reaches the step; afterwards the fixed timer equals
(accumulated - step), which is 0. -/
theorem C3_fixed_update_once {K : Type} [LinearOrderedField K] [FloorRing K]
    (m : Engine.MathFns K) (s : Engine.Application K) (dis : List (K × Engine.FrameInput K))
    (hstep : 0 < s.m_fixedDeltaTime) (h0 : s.m_fixedTimer = 0)
    (hnn : ∀ p ∈ dis, 0 ≤ p.1)
    (hsum : (dis.map Prod.fst).sum = s.m_fixedDeltaTime)
    (hrun : (Engine.loop m s (Engine.framesOfDeltas s.m_currentTime dis)).iterations.length
      = dis.length) :
    Engine.fixedUpdateArgs
        (Engine.loop m s (Engine.framesOfDeltas s.m_currentTime dis)).iterations.flatten
      = [s.m_fixedDeltaTime] ∧
    (∃ pre it post,
      (Engine.loop m s (Engine.framesOfDeltas s.m_currentTime dis)).iterations
        = pre ++ it :: post ∧
      Engine.fixedUpdateArgs it = [s.m_fixedDeltaTime] ∧
      ((dis.take pre.length).map Prod.fst).sum < s.m_fixedDeltaTime ∧
      ((dis.take (pre.length + 1)).map Prod.fst).sum = s.m_fixedDeltaTime) ∧
    (Engine.loop m s (Engine.framesOfDeltas s.m_currentTime dis)).state.m_fixedTimer
      = s.m_fixedTimer + (dis.map Prod.fst).sum - s.m_fixedDeltaTime ∧
    (Engine.loop m s (Engine.framesOfDeltas s.m_currentTime dis)).state.m_fixedTimer = 0 := by
  obtain ⟨⟨pre, it, post, e1, e2, e3, e4, e5, e6⟩, e7⟩ :=
    Engine.loop_one_fixed m dis s hnn hstep (by rw [h0]; exact hstep)
      (by rw [h0, zero_add]; exact hsum) hrun
  rw [h0, zero_add] at e5 e6
  refine ⟨?_, ⟨pre, it, post, e1, e3, e5, e6⟩, ?_, e7⟩
  · rw [e1, List.flatten_append, List.flatten_cons, Engine.fixedUpdateArgs_append,
      Engine.fixedUpdateArgs_append, e3, Engine.fixedUpdateArgs_flatten_nil pre e2,
      Engine.fixedUpdateArgs_flatten_nil post e4]
    rfl
  · rw [e7, h0, hsum, zero_add, sub_self]

/-- C3 at a concrete input: two idle frames of 1/120 s each with a step of
1/60 s. -/
theorem C3_fixed_update_once_witness :
    Engine.fixedUpdateArgs
        (Engine.loop Example.math Example.app
          (Engine.framesOfDeltas Example.app.m_currentTime Example.twoHalfSteps)).iterations.flatten
      = [Example.app.m_fixedDeltaTime] ∧
    (Engine.loop Example.math Example.app
      (Engine.framesOfDeltas Example.app.m_currentTime Example.twoHalfSteps)).state.m_fixedTimer
      = 0 :=
  have h := C3_fixed_update_once Example.math Example.app Example.twoHalfSteps
    (by norm_num [Example.app, Example.appOver]) rfl
    (by intro p hp
        simp only [Example.twoHalfSteps, List.mem_cons, List.mem_singleton,
          List.not_mem_nil, or_false, or_self] at hp
        subst hp
        norm_num)
    (by norm_num [Example.twoHalfSteps, Example.app, Example.appOver])
    (Engine.loop_runs Example.math _ Example.app
      ⟨by simp [Example.app, Example.appOver], by simp [Example.app, Example.appOver]⟩ rfl
      (by intro i hi
          simp only [Example.twoHalfSteps, Engine.framesOfDeltas, List.mem_cons,
            List.mem_singleton, List.not_mem_nil, or_false] at hi
          rcases hi with rfl | rfl <;>
            exact ⟨rfl, by simp [Example.idle]⟩)).1
  ⟨h.1, h.2.2.2⟩

/-- C4 at the failing input. One iteration whose frame delta spans three
fixed steps (timer 0, step 1/60, delta 3/60, so that three whole steps are
contained in the accumulated timer) completes, invokes `FixedUpdate` once
only, and leaves a fixed timer of 2/60, which is not below one step.  The
claim asks for one call per whole step, as does the comment of line 98,
`Calls fixed update 60 times per second`; the block of lines 99-103 is an
`if` where the accumulator needs a `while`. -/
theorem C4_three_steps_fire_once :
    ∃ s' ev, Engine.frame Example.math Example.app Example.threeSteps = some (s', ev) ∧
      ⌊(Example.app.m_fixedTimer + (Example.threeSteps.now - Example.app.m_currentTime))
          / Example.app.m_fixedDeltaTime⌋₊ = 3 ∧
      Engine.fixedUpdateArgs ev = [1 / 60] ∧
      s'.m_fixedTimer = 2 / 60 ∧
      ¬ (s'.m_fixedTimer < s'.m_fixedDeltaTime) := by
  obtain ⟨s', ev, h⟩ := Engine.frame_isSome Example.math Example.app Example.threeSteps
    ⟨by simp [Example.app, Example.appOver], by simp [Example.app, Example.appOver]⟩
  have hargs := Engine.frame_fixedUpdateArgs _ _ _ _ _ h
  obtain ⟨_, _, _, _, _, hstep, htimer, _⟩ := Engine.frame_spec _ _ _ _ _ h
  have e1 : Example.app.m_fixedTimer = 0 := rfl
  have e2 : Example.app.m_currentTime = 0 := rfl
  have e3 : Example.app.m_fixedDeltaTime = 1 / 60 := rfl
  have e4 : Example.threeSteps.now = 3 / 60 := rfl
  rw [e1, e2, e3, e4] at hargs htimer
  rw [e3] at hstep
  have hge : (0 : ℚ) + (3 / 60 - 0) ≥ 1 / 60 := by norm_num
  rw [if_pos hge] at hargs htimer
  refine ⟨s', ev, h, ?_, hargs, ?_, ?_⟩
  · rw [e1, e2, e3, e4]
    have : ((0 : ℚ) + (3 / 60 - 0)) / (1 / 60) = ((3 : ℕ) : ℚ) := by norm_num
    rw [this, Nat.floor_natCast]
  · rw [htimer]; norm_num
  · rw [htimer, hstep]; norm_num

/-- What lines 99-103 do in general. In one iteration of the frame loop of
`Application::Run` (first copy, positive fixed step) `FixedUpdate` is
invoked at most once:
not at all when the accumulated fixed timer is below one step, and exactly
once, with argument `m_fixedDeltaTime` and subtracting one step, when it is
at least one step, however many steps the frame delta spans. After the
iteration the fixed timer is below one step exactly when the accumulated
timer was below two steps. -/
theorem fixed_update_at_most_once {K : Type} [LinearOrderedField K] [FloorRing K]
    (m : Engine.MathFns K) (s s' : Engine.Application K) (i : Engine.FrameInput K)
    (ev : List (Engine.Event K)) (hstep : 0 < s.m_fixedDeltaTime)
    (h : Engine.frame m s i = some (s', ev)) :
    (s.m_fixedTimer + (i.now - s.m_currentTime) < s.m_fixedDeltaTime →
      Engine.fixedUpdateArgs ev = [] ∧
      s'.m_fixedTimer = s.m_fixedTimer + (i.now - s.m_currentTime)) ∧
    (s.m_fixedDeltaTime ≤ s.m_fixedTimer + (i.now - s.m_currentTime) →
      Engine.fixedUpdateArgs ev = [s.m_fixedDeltaTime] ∧
      s'.m_fixedTimer = s.m_fixedTimer + (i.now - s.m_currentTime) - s.m_fixedDeltaTime) ∧
    (Engine.fixedUpdateArgs ev).length ≤ 1 ∧
    (s'.m_fixedTimer < s'.m_fixedDeltaTime ↔
      s.m_fixedTimer + (i.now - s.m_currentTime) < 2 * s.m_fixedDeltaTime) := by
  have hargs := Engine.frame_fixedUpdateArgs m s s' i ev h
  obtain ⟨_, _, _, _, _, hs, htimer, _⟩ := Engine.frame_spec m s s' i ev h
  by_cases hge : s.m_fixedTimer + (i.now - s.m_currentTime) ≥ s.m_fixedDeltaTime
  · rw [if_pos hge] at hargs htimer
    refine ⟨fun hlt => absurd hge (not_le.mpr hlt), fun _ => ⟨hargs, htimer⟩, by simp [hargs], ?_⟩
    rw [htimer, hs]
    constructor <;> intro hh <;> linarith
  · rw [if_neg hge] at hargs htimer
    refine ⟨fun _ => ⟨hargs, htimer⟩, fun hle => absurd hle hge, by simp [hargs], ?_⟩
    rw [htimer, hs]
    have hlt := not_le.mp hge
    constructor <;> intro _ <;> linarith

/-- The same at a concrete input: the frame spanning three steps. -/
theorem fixed_update_at_most_once_example :
    ∃ s' ev, Engine.frame Example.math Example.app Example.threeSteps = some (s', ev) ∧
      (Engine.fixedUpdateArgs ev).length ≤ 1 := by
  obtain ⟨s', ev, h⟩ := Engine.frame_isSome Example.math Example.app Example.threeSteps
    ⟨by simp [Example.app, Example.appOver], by simp [Example.app, Example.appOver]⟩
  exact ⟨s', ev, h,
    (fixed_update_at_most_once Example.math Example.app s' Example.threeSteps ev
      (by norm_num [Example.app, Example.appOver]) h).2.2.1⟩

/-- C5. In both copies of `Application::Run`: when `Init` returns false,
`Run` returns, no iteration of the loop is executed (the events before the
teardown contain no clock read, no poll, no `ProcessInput` effect, no
`Update`, no `FixedUpdate`, no `Draw`, no buffer swap and no sleep), and the
run ends with `Shutdown` followed by `glfwTerminate`, neither of which
occurs anywhere else. -/
theorem C5_failed_init_skips_loop {K : Type} [LinearOrderedField K] [FloorRing K]
    (m : Engine.MathFns K) (s : Engine.Application K) (r : EngineRoot.Application K)
    (pWidth pHeight : Nat) (pTitle : String) (pFullscreen : Bool)
    (env : Engine.RunEnv K) (envR : EngineRoot.RunEnv K)
    (hinit : ∀ s0, (Engine.Init s0 pTitle pFullscreen env.init).2.2 = false)
    (hinitR : ∀ r0, (EngineRoot.Init r0 pTitle pFullscreen envR.init).2.2 = false) :
    ((Engine.Run m s pWidth pHeight pTitle pFullscreen env).status
        = Engine.LoopStatus.exited ∧
      (Engine.Run m s pWidth pHeight pTitle pFullscreen env).iterations = [] ∧
      (Engine.Run m s pWidth pHeight pTitle pFullscreen env).after
        = [Engine.Event.Shutdown, Engine.Event.glfwTerminate] ∧
      (Engine.Run m s pWidth pHeight pTitle pFullscreen env).trace
        = (Engine.Run m s pWidth pHeight pTitle pFullscreen env).before
            ++ [Engine.Event.Shutdown, Engine.Event.glfwTerminate] ∧
      ∀ e ∈ (Engine.Run m s pWidth pHeight pTitle pFullscreen env).before,
        e.isLoopBody = false ∧ e.isShutdown = false ∧ e.isTerminate = false) ∧
    ((EngineRoot.Run m r pWidth pHeight pTitle pFullscreen envR).status
        = Engine.LoopStatus.exited ∧
      (EngineRoot.Run m r pWidth pHeight pTitle pFullscreen envR).iterations = [] ∧
      (EngineRoot.Run m r pWidth pHeight pTitle pFullscreen envR).after
        = [Engine.Event.Shutdown, Engine.Event.glfwTerminate] ∧
      (EngineRoot.Run m r pWidth pHeight pTitle pFullscreen envR).trace
        = (EngineRoot.Run m r pWidth pHeight pTitle pFullscreen envR).before
            ++ [Engine.Event.Shutdown, Engine.Event.glfwTerminate] ∧
      ∀ e ∈ (EngineRoot.Run m r pWidth pHeight pTitle pFullscreen envR).before,
        e.isLoopBody = false ∧ e.isShutdown = false ∧ e.isTerminate = false) := by
  constructor
  · obtain ⟨s1, evDim, hd⟩ := Engine.SetDimensions_isSome s pWidth pHeight
    have hev := Engine.SetDimensions_events s s1 pWidth pHeight evDim hd
    have hin := Engine.Init_events_setup s1 pTitle pFullscreen env.init
    simp only [Engine.Run, hd, hinit s1, Bool.false_eq_true, if_false, Engine.RunResult.trace,
      List.flatten_nil, List.append_nil, true_and]
    intro e he
    rcases List.mem_append.mp he with he | he
    · exact hev e he
    · exact hin e he
  · obtain ⟨r1, evDim, hd⟩ := EngineRoot.rootSetDimensions_isSome r pWidth pHeight
    have hev := EngineRoot.rootSetDimensions_events r r1 pWidth pHeight evDim hd
    have hin := EngineRoot.rootInit_events_setup r1 pTitle pFullscreen envR.init
    simp only [EngineRoot.Run, hd, hinitR r1, Bool.false_eq_true, if_false,
      Engine.RunResult.trace, List.flatten_nil, List.append_nil, true_and]
    intro e he
    rcases List.mem_append.mp he with he | he
    · exact hev e he
    · exact hin e he

/-- C5 at a concrete input: the loader fails in the first copy, the renderer
fails to initialise in the second; three frames were on offer in each. -/
theorem C5_failed_init_skips_loop_witness :
    (Engine.Run Example.math Example.app 1600 900 "OpenGL" false Example.runNoGlad).trace
      = (Engine.Run Example.math Example.app 1600 900 "OpenGL" false Example.runNoGlad).before
          ++ [Engine.Event.Shutdown, Engine.Event.glfwTerminate] ∧
    (EngineRoot.Run Example.math Example.appRoot 1600 900 "OpenGL" false
        Example.rootRunNoRenderer).trace
      = (EngineRoot.Run Example.math Example.appRoot 1600 900 "OpenGL" false
          Example.rootRunNoRenderer).before
          ++ [Engine.Event.Shutdown, Engine.Event.glfwTerminate] :=
  have h := C5_failed_init_skips_loop Example.math Example.app Example.appRoot 1600 900
    "OpenGL" false Example.runNoGlad Example.rootRunNoRenderer
    (fun s0 => by simp [Engine.Init, Example.runNoGlad, Example.initNoGlad])
    (fun r0 => by simp [EngineRoot.Init, Example.rootRunNoRenderer, Example.rootInitNoRenderer])
  ⟨h.1.2.2.2.1, h.2.2.2.2.1⟩

/-- C6. `Application::Init`, in both copies, from a state whose
`m_gladLoaded` is still false. It returns true exactly when `glfwInit`,
`glfwCreateWindow` and `gladLoadGLLoader` all succeed and the `Startup` hook
is called and returns true. It stops at the first failing step: after a
failed `glfwInit` nothing else is attempted, after a failed window creation
the loader is not run, after a failed loader neither the renderer is
initialised nor `Startup` called. `m_gladLoaded` is true afterwards exactly
when the loader was reached and succeeded. In the second copy `Startup` is
reached exactly when, in addition, `Renderer::Init` returned true. -/
theorem C6_init_short_circuits {K : Type} [LinearOrderedField K]
    (s : Engine.Application K) (r : EngineRoot.Application K)
    (pTitle : String) (pFullscreen : Bool)
    (env : Engine.InitEnv K) (envR : EngineRoot.InitEnv K)
    (hs : s.m_gladLoaded = false) (hr : r.m_gladLoaded = false) :
    (((Engine.Init s pTitle pFullscreen env).2.2 = true ↔
        env.glfwInitOk = true ∧ env.windowCreated = true ∧ env.gladOk = true ∧
          Engine.Event.Startup ∈ (Engine.Init s pTitle pFullscreen env).2.1 ∧
          env.startupOk = true) ∧
      (Engine.Event.Startup ∈ (Engine.Init s pTitle pFullscreen env).2.1 ↔
        env.glfwInitOk = true ∧ env.windowCreated = true ∧ env.gladOk = true) ∧
      (env.glfwInitOk = false →
        (Engine.Init s pTitle pFullscreen env).2.1 = [Engine.Event.glfwInit]) ∧
      (env.glfwInitOk = true → env.windowCreated = false →
        (Engine.Init s pTitle pFullscreen env).2.1
          = [Engine.Event.glfwInit,
             Engine.Event.glfwCreateWindow s.m_winWidth s.m_winHeight pTitle pFullscreen]) ∧
      (env.glfwInitOk = true → env.windowCreated = true → env.gladOk = false →
        (Engine.Init s pTitle pFullscreen env).2.1
          = [Engine.Event.glfwInit,
             Engine.Event.glfwCreateWindow s.m_winWidth s.m_winHeight pTitle pFullscreen,
             Engine.Event.glfwGetCursorPos, Engine.Event.gladLoadGLLoader]) ∧
      ((Engine.Init s pTitle pFullscreen env).1.m_gladLoaded = true ↔
        env.glfwInitOk = true ∧ env.windowCreated = true ∧ env.gladOk = true)) ∧
    (((EngineRoot.Init r pTitle pFullscreen envR).2.2 = true ↔
        envR.glfwInitOk = true ∧ envR.windowCreated = true ∧ envR.gladOk = true ∧
          Engine.Event.Startup ∈ (EngineRoot.Init r pTitle pFullscreen envR).2.1 ∧
          envR.startupOk = true) ∧
      (Engine.Event.Startup ∈ (EngineRoot.Init r pTitle pFullscreen envR).2.1 ↔
        envR.glfwInitOk = true ∧ envR.windowCreated = true ∧ envR.gladOk = true ∧
          envR.rendererInitOk = true) ∧
      (envR.glfwInitOk = false →
        (EngineRoot.Init r pTitle pFullscreen envR).2.1 = [Engine.Event.glfwInit]) ∧
      (envR.glfwInitOk = true → envR.windowCreated = false →
        (EngineRoot.Init r pTitle pFullscreen envR).2.1
          = [Engine.Event.glfwInit,
             Engine.Event.glfwCreateWindow r.m_winWidth r.m_winHeight pTitle pFullscreen]) ∧
      (envR.glfwInitOk = true → envR.windowCreated = true → envR.gladOk = false →
        (EngineRoot.Init r pTitle pFullscreen envR).2.1
          = [Engine.Event.glfwInit,
             Engine.Event.glfwCreateWindow r.m_winWidth r.m_winHeight pTitle pFullscreen,
             Engine.Event.glfwGetCursorPos, Engine.Event.gladLoadGLLoader]) ∧
      ((EngineRoot.Init r pTitle pFullscreen envR).1.m_gladLoaded = true ↔
        envR.glfwInitOk = true ∧ envR.windowCreated = true ∧ envR.gladOk = true)) := by
  constructor
  · obtain ⟨h1, h2, h3, h4, h5, h6⟩ := Engine.Init_spec s pTitle pFullscreen env
    refine ⟨?_, ?_, h3, h4, h5, ?_⟩
    · rw [h1]
      obtain ⟨g, w, cx, cy, gl, ri, st⟩ := env
      cases g <;> cases w <;> cases gl <;> cases st <;> simp [Engine.Init]
    · obtain ⟨g, w, cx, cy, gl, ri, st⟩ := env
      cases g <;> cases w <;> cases gl <;> simp [Engine.Init]
    · rw [h2, hs]
      simp [Bool.and_eq_true, and_assoc]
  · obtain ⟨h1, h2, h3, h4, h5, _, _⟩ := EngineRoot.rootInit_spec r pTitle pFullscreen envR
    refine ⟨?_, ?_, h3, h4, h5, ?_⟩
    · rw [h1]
      obtain ⟨g, w, cx, cy, gl, ri, cam, st⟩ := envR
      cases g <;> cases w <;> cases gl <;> cases ri <;> cases st <;> simp [EngineRoot.Init]
    · obtain ⟨g, w, cx, cy, gl, ri, cam, st⟩ := envR
      cases g <;> cases w <;> cases gl <;> cases ri <;> simp [EngineRoot.Init]
    · rw [h2, hr]
      simp [Bool.and_eq_true, and_assoc]

/-- C6 at a concrete input: the loader fails in the first copy, so the
renderer is not initialised and `Startup` is not called; the renderer fails
in the second copy, so `Startup` is not called either. -/
theorem C6_init_short_circuits_witness :
    (Engine.Init Example.app "OpenGL" false Example.initNoGlad).2.1
      = [Engine.Event.glfwInit,
         Engine.Event.glfwCreateWindow Example.app.m_winWidth Example.app.m_winHeight
           "OpenGL" false,
         Engine.Event.glfwGetCursorPos, Engine.Event.gladLoadGLLoader] ∧
    ¬ ((EngineRoot.Init Example.appRoot "OpenGL" false Example.rootInitNoRenderer).2.2 = true) :=
  have h := C6_init_short_circuits Example.app Example.appRoot "OpenGL" false
    Example.initNoGlad Example.rootInitNoRenderer rfl rfl
  ⟨h.1.2.2.2.2.1 rfl rfl rfl,
   fun hres => by
     have h2 := (h.2.2.1.mp (h.2.1.mp hres).2.2.2.1).2.2.2
     simp [Example.rootInitNoRenderer] at h2⟩

/-- C7. `Application::Run` (first copy) checks the close flag at the top of
each iteration only. After a successful `Init` that attaches camera and spot
light, on frames that keep the window open followed by a frame with End
pressed: `Run` returns; exactly the frames up to and including that one are
iterated; in the last iteration `ProcessInput` raises the close flag and the
iteration still runs to its end (`Update` is called after the flag was
raised, and a shown window is still drawn and swapped); no further iteration
starts; `Shutdown` then `glfwTerminate` follow. And a loop reached with the
flag already set runs no iteration. -/
theorem C7_close_flag_checked_at_top {K : Type} [LinearOrderedField K] [FloorRing K]
    (m : Engine.MathFns K) (s : Engine.Application K) (pWidth pHeight : Nat) (pTitle : String)
    (pFullscreen : Bool) (env : Engine.RunEnv K)
    (pre : List (Engine.FrameInput K)) (i : Engine.FrameInput K)
    (rest : List (Engine.FrameInput K))
    (hinit : env.init.glfwInitOk = true ∧ env.init.windowCreated = true ∧
      env.init.gladOk = true ∧ env.init.startupOk = true)
    (hready : ∀ a, (env.init.rendererInit a).m_cameraRef ≠ none ∧
      (env.init.rendererInit a).m_lightSpot ≠ none)
    (hframes : env.frames = pre ++ i :: rest)
    (hpre : ∀ j ∈ pre, j.keepsOpen) (hend : i.keys Engine.Key.END = true) :
    (Engine.Run m s pWidth pHeight pTitle pFullscreen env).status = Engine.LoopStatus.exited ∧
    (Engine.Run m s pWidth pHeight pTitle pFullscreen env).iterations.length = pre.length + 1 ∧
    (Engine.Run m s pWidth pHeight pTitle pFullscreen env).after
      = [Engine.Event.Shutdown, Engine.Event.glfwTerminate] ∧
    (Engine.Run m s pWidth pHeight pTitle pFullscreen env).state.windowShouldClose = true ∧
    (∃ its a b d,
      (Engine.Run m s pWidth pHeight pTitle pFullscreen env).iterations
        = its ++ [a ++ Engine.Event.glfwSetWindowShouldClose :: b] ∧
      Engine.updateArgs b = [d] ∧
      (i.iconified = false →
        ∃ c, b = c ++ [Engine.Event.Draw i.now, Engine.Event.glfwSwapBuffers])) ∧
    (∀ (s0 : Engine.Application K) (fs : List (Engine.FrameInput K)),
      s0.windowShouldClose = true →
      Engine.loop m s0 fs = ⟨s0, [], Engine.LoopStatus.exited⟩) := by
  obtain ⟨s1, evDim, hd⟩ := Engine.SetDimensions_isSome s pWidth pHeight
  obtain ⟨g1, g2, g3, g4⟩ := hinit
  have hres : (Engine.Init s1 pTitle pFullscreen env.init).2.2 = true := by
    rw [(Engine.Init_spec s1 pTitle pFullscreen env.init).1, g1, g2, g3, g4]; rfl
  have hst : (Engine.Init s1 pTitle pFullscreen env.init).1.windowShouldClose = false ∧
      (Engine.Init s1 pTitle pFullscreen env.init).1.m_rendererInst
        = env.init.rendererInit ((s1.m_winWidth : K) / (s1.m_winHeight : K)) := by
    simp [Engine.Init, g1, g2, g3]
  obtain ⟨its, t1, t2, it, hl, hlen, hf⟩ := Engine.loop_end_key m i rest hend pre
    { (Engine.Init s1 pTitle pFullscreen env.init).1 with
      m_currentTime := env.startTime - 2 / 100 }
    (by
      constructor
      · show (Engine.Init s1 pTitle pFullscreen env.init).1.m_rendererInst.m_cameraRef ≠ none
        rw [hst.2]; exact (hready _).1
      · show (Engine.Init s1 pTitle pFullscreen env.init).1.m_rendererInst.m_lightSpot ≠ none
        rw [hst.2]; exact (hready _).2)
    hst.1 hpre
  obtain ⟨hclose, a, b, hab, hupd, hdraw⟩ := Engine.frame_end_shape m t1 t2 i it hf hend
  have hrun : Engine.Run m s pWidth pHeight pTitle pFullscreen env
      = ⟨t2, evDim ++ (Engine.Init s1 pTitle pFullscreen env.init).2.1
            ++ [Engine.Event.glfwGetTime], its ++ [it],
          [Engine.Event.Shutdown, Engine.Event.glfwTerminate], Engine.LoopStatus.exited⟩ := by
    simp only [Engine.Run, hd, hres, if_true, hframes, hl]
  rw [hrun]
  refine ⟨rfl, by simp [hlen], rfl, hclose, ⟨its, a, b, _, by rw [hab], hupd, hdraw⟩, ?_⟩
  intro s0 fs h0
  exact Engine.loop_closed m s0 fs h0

/-- C7 at a concrete input: an idle frame, then a frame with End pressed,
then one more frame on offer: two iterations run and `Run` returns. -/
theorem C7_close_flag_checked_at_top_witness :
    (Engine.Run Example.math Example.app 1600 900 "OpenGL" false Example.runEnd).status
      = Engine.LoopStatus.exited ∧
    (Engine.Run Example.math Example.app 1600 900 "OpenGL" false
      Example.runEnd).iterations.length = [Example.idle].length + 1 :=
  have h := C7_close_flag_checked_at_top Example.math Example.app 1600 900 "OpenGL" false
    Example.runEnd [Example.idle] Example.endFrame [Example.idle]
    ⟨rfl, rfl, rfl, rfl⟩
    (fun _ => ⟨by simp [Example.runEnd, Example.initOk], by simp [Example.runEnd, Example.initOk]⟩)
    rfl
    (by intro j hj
        simp only [List.mem_singleton] at hj
        subst hj
        exact ⟨rfl, by simp [Example.idle]⟩)
    (by simp [Example.endFrame])
  ⟨h.1, h.2.1⟩

/-- C8 as stated fails in the first copy. `Run` reads the initial time
stamp 0, the first iteration reads the time stamp 1/4, and `Update` is
called (once) with 27/100, not with 1/4 - 0: line 64 stores
`glfwGetTime() - 0.02f` in `m_currentTime` before the loop. -/
theorem C8_first_delta_offset :
    (Engine.Run Example.math Example.app 1600 900 "OpenGL" false
        Example.runQuarter).iterations.map Engine.updateArgs = [[27 / 100]] ∧
    (27 / 100 : ℚ) ≠ Example.quarterFrame.now - Example.runQuarter.startTime := by
  constructor
  · simp [Engine.Run, Engine.SetDimensions, Engine.UpdateCamera, Engine.Init, Engine.loop,
      Engine.frame, Engine.frame.timers, Engine.pollEvents, Engine.ProcessInput,
      Engine.ProcessInput.window, Engine.ProcessInput.spotLight, Engine.ProcessInput.keyT,
      Engine.ProcessInput.keyG, Engine.ProcessInput.keyY, Engine.ProcessInput.keyH,
      Engine.ProcessInput.moveSpeed, Engine.ProcessInput.translation, Engine.frame.fixed,
      Engine.frame.present, Example.app, Example.appOver, Example.runQuarter,
      Example.quarterFrame, Example.initOk, Example.noKeys, Example.camera, Example.light,
      Example.cameraOver, Engine.vec3.zero]
    norm_num
    rfl
  · simp [Example.quarterFrame, Example.runQuarter]
    norm_num

/-- C8, amended. In both copies of the frame loop of `Application::Run`, from any
state with the camera (and, in the first copy, the spot light) attached and
on any script of frame inputs (minimised or not, fixed step firing or not):
no iteration stops on a null pointer, so every frame on offer is iterated
until the close flag is seen; every iteration invokes `Update` exactly once,
and its argument is the time stamp read in this iteration minus the one read
in the previous iteration; for the first iteration the subtrahend is the
value of `m_currentTime` stored before the loop, which in `Run` is
`glfwGetTime() - 0.02` in the first copy and `glfwGetTime()` in the
second. -/
theorem C8_update_once_per_iteration {K : Type} [LinearOrderedField K] [FloorRing K]
    (m : Engine.MathFns K) (s : Engine.Application K) (r : EngineRoot.Application K)
    (u : K → Nat) (fs : List (Engine.FrameInput K))
    (pWidth pHeight : Nat) (pTitle : String) (pFullscreen : Bool)
    (env : Engine.RunEnv K) (envR : EngineRoot.RunEnv K)
    (hs : Engine.Ready s) (hr : r.m_cameraRef ≠ none) :
    ((Engine.loop m s fs).status ≠ Engine.LoopStatus.fault ∧
      ((Engine.loop m s fs).status = Engine.LoopStatus.running →
        (Engine.loop m s fs).iterations.length = fs.length)) ∧
    (Engine.loop m s fs).iterations.map Engine.updateArgs
      = ((Engine.deltas s.m_currentTime (fs.map Engine.FrameInput.now)).take
          (Engine.loop m s fs).iterations.length).map (fun d => [d]) ∧
    (Engine.Run m s pWidth pHeight pTitle pFullscreen env).iterations.map Engine.updateArgs
      = ((Engine.deltas (env.startTime - 2 / 100) (env.frames.map Engine.FrameInput.now)).take
          (Engine.Run m s pWidth pHeight pTitle pFullscreen env).iterations.length).map
            (fun d => [d]) ∧
    ((EngineRoot.loop m u r fs).status ≠ Engine.LoopStatus.fault ∧
      ((EngineRoot.loop m u r fs).status = Engine.LoopStatus.running →
        (EngineRoot.loop m u r fs).iterations.length = fs.length)) ∧
    (EngineRoot.loop m u r fs).iterations.map Engine.updateArgs
      = ((Engine.deltas r.m_currentTime (fs.map Engine.FrameInput.now)).take
          (EngineRoot.loop m u r fs).iterations.length).map (fun d => [d]) ∧
    (EngineRoot.Run m r pWidth pHeight pTitle pFullscreen envR).iterations.map Engine.updateArgs
      = ((Engine.deltas envR.startTime (envR.frames.map Engine.FrameInput.now)).take
          (EngineRoot.Run m r pWidth pHeight pTitle pFullscreen envR).iterations.length).map
            (fun d => [d]) := by
  refine ⟨Engine.loop_no_fault m fs s hs, Engine.loop_updateArgs m fs s, ?_,
    EngineRoot.rootLoop_no_fault m u fs r hr, EngineRoot.rootLoop_updateArgs m u fs r, ?_⟩
  · rcases Engine.Run_iterations m s pWidth pHeight pTitle pFullscreen env with h | ⟨s0, h0, h⟩
    · rw [h]; simp
    · rw [h, ← h0]; exact Engine.loop_updateArgs m env.frames s0
  · rcases EngineRoot.rootRun_iterations m r pWidth pHeight pTitle pFullscreen envR
      with h | ⟨r0, h0, h⟩
    · rw [h]; simp
    · rw [h, ← h0]; exact EngineRoot.rootLoop_updateArgs m envR.toUShort envR.frames r0

/-- C8 at a concrete input: a minimised frame followed by a frame spanning
further time, in both copies; neither loop stops on a null pointer. -/
theorem C8_update_once_per_iteration_witness :
    (Engine.loop Example.math Example.app [Example.minimised, Example.threeSteps]).status
      ≠ Engine.LoopStatus.fault ∧
    (EngineRoot.loop Example.math (fun _ => 0) Example.appRoot
      [Example.minimised, Example.threeSteps]).status ≠ Engine.LoopStatus.fault :=
  have h := C8_update_once_per_iteration Example.math Example.app Example.appRoot
    (fun _ => 0) [Example.minimised, Example.threeSteps] 1600 900 "OpenGL" false
    Example.runEnd Example.rootRunNoRenderer
    ⟨by simp [Example.app, Example.appOver], by simp [Example.app, Example.appOver]⟩
    (by simp [Example.appRoot, Example.appRootOver])
  ⟨h.1.1, h.2.2.2.1.1⟩

/-- C9. In both copies of the frame loop of `Application::Run`, from any
state with the camera (and, in the first copy, the spot light) attached and
on any script of frame inputs: no iteration stops on a null pointer, and
every iteration treats its frame input as follows. Minimised window: neither
`Renderer::Draw` nor `glfwSwapBuffers` is invoked; the first copy calls
`Sleep(50)` exactly when the frame delta is below 50, the second copy never
sleeps. Window shown: `Renderer::Draw` is invoked exactly once, directly
followed by the only `glfwSwapBuffers`, at the end of the iteration, and
there is no sleep. -/
theorem C9_draw_skipped_when_minimised {K : Type} [LinearOrderedField K] [FloorRing K]
    (m : Engine.MathFns K) (s : Engine.Application K) (r : EngineRoot.Application K)
    (u : K → Nat) (fs : List (Engine.FrameInput K))
    (pWidth pHeight : Nat) (pTitle : String) (pFullscreen : Bool)
    (env : Engine.RunEnv K) (envR : EngineRoot.RunEnv K)
    (hs : Engine.Ready s) (hr : r.m_cameraRef ≠ none) :
    (Engine.loop m s fs).status ≠ Engine.LoopStatus.fault ∧
    List.Forall₂ Engine.presents (Engine.loop m s fs).iterations
      (fs.take (Engine.loop m s fs).iterations.length) ∧
    List.Forall₂ Engine.presents
      (Engine.Run m s pWidth pHeight pTitle pFullscreen env).iterations
      (env.frames.take
        (Engine.Run m s pWidth pHeight pTitle pFullscreen env).iterations.length) ∧
    (EngineRoot.loop m u r fs).status ≠ Engine.LoopStatus.fault ∧
    List.Forall₂ EngineRoot.presents (EngineRoot.loop m u r fs).iterations
      (fs.take (EngineRoot.loop m u r fs).iterations.length) ∧
    List.Forall₂ EngineRoot.presents
      (EngineRoot.Run m r pWidth pHeight pTitle pFullscreen envR).iterations
      (envR.frames.take
        (EngineRoot.Run m r pWidth pHeight pTitle pFullscreen envR).iterations.length) := by
  have h1 := fun fs s => Engine.loop_forall₂ m Engine.presents
    (fun s s' i ev h => Engine.frame_presents m s s' i ev h) fs s
  have h2 := fun u fs r => EngineRoot.rootLoop_forall₂ m u EngineRoot.presents
    (fun s s' i ev h => EngineRoot.rootFrame_presents m u s s' i ev h) fs r
  refine ⟨(Engine.loop_no_fault m fs s hs).1, h1 fs s, ?_,
    (EngineRoot.rootLoop_no_fault m u fs r hr).1, h2 u fs r, ?_⟩
  · rcases Engine.Run_iterations m s pWidth pHeight pTitle pFullscreen env with h | ⟨s0, _, h⟩
    · rw [h]; simp
    · rw [h]; exact h1 env.frames s0
  · rcases EngineRoot.rootRun_iterations m r pWidth pHeight pTitle pFullscreen envR
      with h | ⟨r0, _, h⟩
    · rw [h]; simp
    · rw [h]; exact h2 envR.toUShort envR.frames r0

/-- C9 at a concrete input: a minimised frame followed by a shown one, in
both copies. -/
theorem C9_draw_skipped_when_minimised_witness :
    List.Forall₂ Engine.presents
      (Engine.loop Example.math Example.app [Example.minimised, Example.threeSteps]).iterations
      ([Example.minimised, Example.threeSteps].take
        (Engine.loop Example.math Example.app
          [Example.minimised, Example.threeSteps]).iterations.length) ∧
    List.Forall₂ EngineRoot.presents
      (EngineRoot.loop Example.math (fun _ => 0) Example.appRoot
        [Example.minimised, Example.threeSteps]).iterations
      ([Example.minimised, Example.threeSteps].take
        (EngineRoot.loop Example.math (fun _ => 0) Example.appRoot
          [Example.minimised, Example.threeSteps]).iterations.length) :=
  have h := C9_draw_skipped_when_minimised Example.math Example.app Example.appRoot
    (fun _ => 0) [Example.minimised, Example.threeSteps] 1600 900 "OpenGL" false
    Example.runEnd Example.rootRunNoRenderer
    ⟨by simp [Example.app, Example.appOver], by simp [Example.app, Example.appOver]⟩
    (by simp [Example.appRoot, Example.appRootOver])
  ⟨h.2.1, h.2.2.2.2.1⟩

/-- C10, evaluated on the code. The sequence of `main` (construct an
application, then delete it) leaves no live instance while
`GetApplication` still returns the deleted one, because the destructor does
not reset `sm_appRef`; constructing another application afterwards deletes
that object a second time, which has no defined result. Constructing twice
without deleting does destroy the first instance and leaves exactly the
second one alive and registered. -/
theorem C10_reference_dangles_after_delete :
    Singleton.run Singleton.Heap.start [Singleton.Op.new 1, Singleton.Op.delete 1]
      = some ⟨[], some 1⟩ ∧
    (Singleton.run Singleton.Heap.start [Singleton.Op.new 1, Singleton.Op.delete 1]).map
      Singleton.GetApplication = some (some 1) ∧
    Singleton.run Singleton.Heap.start
      [Singleton.Op.new 1, Singleton.Op.delete 1, Singleton.Op.new 2] = none ∧
    Singleton.run Singleton.Heap.start [Singleton.Op.new 1, Singleton.Op.new 2]
      = some ⟨[2], some 2⟩ := by
  decide

/-- C12. `Application::ProcessInput` (first copy), with `SetAngle`/`SetBlur`
storing their argument: for every key state, with a camera attached and a
spot light whose angle is in `[0, 90]` and whose blur is in `[0, 1]`,
`ProcessInput` completes and leaves the angle in `[0, 90]` and the blur in
`[0, 1]`; the angle changes by at most 0.05 and the blur by at most 0.005.
Each key taken by itself either applies its step of exactly 0.05 (angle) or
0.005 (blur), which it does only when the result stays in range, or leaves the
light as it is. -/
theorem C12_spot_light_stays_in_range {K : Type} [LinearOrderedField K]
    (s : Engine.Application K) (keys : Engine.Key → Bool) (l : Engine.Light K)
    (hcam : s.m_rendererInst.m_cameraRef ≠ none)
    (hl : s.m_rendererInst.m_lightSpot = some l)
    (hangle : 0 ≤ l.angle ∧ l.angle ≤ 90) (hblur : 0 ≤ l.blur ∧ l.blur ≤ 1) :
    (∃ s' ev l', Engine.ProcessInput s keys = some (s', ev) ∧
      s'.m_rendererInst.m_lightSpot = some l' ∧
      (0 ≤ l'.angle ∧ l'.angle ≤ 90) ∧ (0 ≤ l'.blur ∧ l'.blur ≤ 1) ∧
      |l'.angle - l.angle| ≤ 5 / 100 ∧ |l'.blur - l.blur| ≤ 5 / 1000) ∧
    (∀ (r : Engine.Renderer K) (la : Engine.Light K), r.m_lightSpot = some la →
      Engine.ProcessInput.keyT r keys = some ⟨r.m_cameraRef,
        some ⟨if keys Engine.Key.T = true ∧ la.angle + 5 / 100 ≤ 90 then la.angle + 5 / 100
              else la.angle, la.blur⟩⟩ ∧
      Engine.ProcessInput.keyG r keys = some ⟨r.m_cameraRef,
        some ⟨if keys Engine.Key.G = true ∧ 0 ≤ la.angle - 5 / 100 then la.angle - 5 / 100
              else la.angle, la.blur⟩⟩ ∧
      Engine.ProcessInput.keyY r keys = some ⟨r.m_cameraRef,
        some ⟨la.angle, if keys Engine.Key.Y = true ∧ la.blur + 5 / 1000 ≤ 1
              then la.blur + 5 / 1000 else la.blur⟩⟩ ∧
      Engine.ProcessInput.keyH r keys = some ⟨r.m_cameraRef,
        some ⟨la.angle, if keys Engine.Key.H = true ∧ 0 < la.blur - 5 / 1000
              then la.blur - 5 / 1000 else la.blur⟩⟩) := by
  constructor
  · obtain ⟨s', ev, a1, a2, b1, b2, hp, hlight, e1, e2, e3, e4⟩ :=
      Engine.ProcessInput_light s keys l hcam hl
    obtain ⟨p1, p2, p3⟩ := Engine.step_up_bounds l.angle (5 / 100) 90 a1 _ e1 (by norm_num)
      hangle.2
    obtain ⟨q1, q2, q3⟩ := Engine.step_down_bounds a1 (5 / 100) 0 a2 _ e2 (by norm_num)
      (le_trans hangle.1 p1)
    obtain ⟨u1, u2, u3⟩ := Engine.step_up_bounds l.blur (5 / 1000) 1 b1 _ e3 (by norm_num)
      hblur.2
    obtain ⟨v1, v2, v3, _⟩ := Engine.step_down_strict_bounds b1 (5 / 1000) 0 b2 _ e4
      (by norm_num)
    refine ⟨s', ev, ⟨a2, b2⟩, hp, hlight, ⟨q3, by linarith⟩,
      ⟨v3 (le_trans hblur.1 u1), by linarith⟩, ?_, ?_⟩
    · show |a2 - l.angle| ≤ 5 / 100
      rw [abs_le]
      constructor <;> linarith
    · show |b2 - l.blur| ≤ 5 / 1000
      rw [abs_le]
      constructor <;> linarith
  · intro r la hr
    exact ⟨Engine.ProcessInput.keyT_light r keys la hr, Engine.ProcessInput.keyG_light r keys la hr,
      Engine.ProcessInput.keyY_light r keys la hr, Engine.ProcessInput.keyH_light r keys la hr⟩

/-- C12 at a concrete input: all four spot-light keys held together on the
example light (angle 45, blur 1/2). -/
theorem C12_spot_light_stays_in_range_witness :
    ∃ s' ev l', Engine.ProcessInput Example.app Example.spotKeys = some (s', ev) ∧
      s'.m_rendererInst.m_lightSpot = some l' ∧
      (0 ≤ l'.angle ∧ l'.angle ≤ 90) ∧ (0 ≤ l'.blur ∧ l'.blur ≤ 1) ∧
      |l'.angle - (45 : ℚ)| ≤ 5 / 100 ∧ |l'.blur - (1 / 2 : ℚ)| ≤ 5 / 1000 :=
  (C12_spot_light_stays_in_range Example.app Example.spotKeys ⟨45, 1 / 2⟩
    (by simp [Example.app, Example.appOver]) rfl
    (by norm_num) (by norm_num)).1

/-- C13: in both copies, with the camera attached (and, in the first copy,
the spot light that the T, G, Y and H keys dereference), `ProcessInput`
completes for every key state and calls `Camera::Translate` exactly once,
with `speed * deltaTime * ((w - s) * forward + (a - d) * right +
(space - c) * up)`, where each of `w, s, a, d, space, c` is 1 for a pressed
key and 0 otherwise, `speed` is the copy's movement speed for the modifier
keys and `deltaTime` is `m_deltaTime`.  Hence when each pair of opposite
keys is in the same state (all released, or both held) the translation is
the zero vector. -/
theorem C13_translation_formula {K : Type} [LinearOrderedField K]
    (s : Engine.Application K) (r : EngineRoot.Application K) (keys : Engine.Key → Bool)
    (cam camR : Engine.Camera K)
    (hs : Engine.Ready s) (hcam : s.m_rendererInst.m_cameraRef = some cam)
    (hr : r.m_cameraRef = some camR) :
    (∃ s' ev, Engine.ProcessInput s keys = some (s', ev) ∧
      Engine.translateArgs ev
        = [Engine.vec3.smul (Engine.ProcessInput.moveSpeed keys * s.m_deltaTime)
            (Engine.vec3.add
              (Engine.vec3.add
                (Engine.vec3.smul
                  (Engine.pressed keys Engine.Key.W - Engine.pressed keys Engine.Key.S)
                  cam.forward)
                (Engine.vec3.smul
                  (Engine.pressed keys Engine.Key.A - Engine.pressed keys Engine.Key.D)
                  cam.right))
              (Engine.vec3.smul
                (Engine.pressed keys Engine.Key.SPACE - Engine.pressed keys Engine.Key.C)
                cam.up))] ∧
      (keys Engine.Key.W = keys Engine.Key.S → keys Engine.Key.A = keys Engine.Key.D →
        keys Engine.Key.SPACE = keys Engine.Key.C →
        Engine.translateArgs ev = [Engine.vec3.zero])) ∧
    (∃ r' ev, EngineRoot.ProcessInput r keys = some (r', ev) ∧
      Engine.translateArgs ev
        = [Engine.vec3.smul (EngineRoot.ProcessInput.speed keys * r.m_deltaTime)
            (Engine.vec3.add
              (Engine.vec3.add
                (Engine.vec3.smul
                  (Engine.pressed keys Engine.Key.W - Engine.pressed keys Engine.Key.S)
                  camR.forward)
                (Engine.vec3.smul
                  (Engine.pressed keys Engine.Key.A - Engine.pressed keys Engine.Key.D)
                  camR.right))
              (Engine.vec3.smul
                (Engine.pressed keys Engine.Key.SPACE - Engine.pressed keys Engine.Key.C)
                camR.up))] ∧
      (keys Engine.Key.W = keys Engine.Key.S → keys Engine.Key.A = keys Engine.Key.D →
        keys Engine.Key.SPACE = keys Engine.Key.C →
        Engine.translateArgs ev = [Engine.vec3.zero])) := by
  have zero : ∀ (k : K) (c : Engine.Camera K),
      keys Engine.Key.W = keys Engine.Key.S → keys Engine.Key.A = keys Engine.Key.D →
      keys Engine.Key.SPACE = keys Engine.Key.C →
      Engine.vec3.smul k
        (Engine.vec3.add
          (Engine.vec3.add
            (Engine.vec3.smul
              (Engine.pressed keys Engine.Key.W - Engine.pressed keys Engine.Key.S) c.forward)
            (Engine.vec3.smul
              (Engine.pressed keys Engine.Key.A - Engine.pressed keys Engine.Key.D) c.right))
          (Engine.vec3.smul
            (Engine.pressed keys Engine.Key.SPACE - Engine.pressed keys Engine.Key.C) c.up))
        = Engine.vec3.zero := by
    intro k c h1 h2 h3
    simp [Engine.pressed, h1, h2, h3, Engine.vec3.smul, Engine.vec3.add, Engine.vec3.zero]
  constructor
  · obtain ⟨s', ev, h⟩ := Engine.ProcessInput_isSome s keys hs
    obtain ⟨cam', hc, ht⟩ := Engine.ProcessInput_translate s s' keys ev h
    rw [hcam] at hc
    cases hc
    rw [Engine.ProcessInput.translation_eq] at ht
    exact ⟨s', ev, h, ht, fun h1 h2 h3 => by rw [ht, zero _ _ h1 h2 h3]⟩
  · have h := EngineRoot.rootProcessInput_translate r keys camR hr
    rw [Engine.ProcessInput.translation_eq] at h
    refine ⟨_, _, h, by simp only [Engine.translateArgs], fun h1 h2 h3 => ?_⟩
    simp only [Engine.translateArgs]
    rw [zero _ _ h1 h2 h3]

theorem C13_translation_formula_witness :
    (∃ s' ev, Engine.ProcessInput Example.movingApp Example.moveKeys = some (s', ev) ∧
      Engine.translateArgs ev = [(⟨12 / 5, 0, -(12 / 5)⟩ : Engine.vec3 ℚ)]) ∧
    (∃ r' ev, EngineRoot.ProcessInput Example.movingAppRoot Example.moveKeys = some (r', ev) ∧
      Engine.translateArgs ev = [(⟨8 / 5, 0, -(8 / 5)⟩ : Engine.vec3 ℚ)]) :=
  have h := C13_translation_formula Example.movingApp Example.movingAppRoot Example.moveKeys
    (Example.cameraOver ℚ) (Example.cameraOver ℚ)
    ⟨by simp [Example.movingApp, Example.app, Example.appOver],
      by simp [Example.movingApp, Example.app, Example.appOver]⟩
    rfl rfl
  ⟨h.1.imp fun _ h1 => h1.imp fun _ h2 => ⟨h2.1, h2.2.1.trans (by
      simp [Engine.ProcessInput.moveSpeed, Engine.pressed, Example.moveKeys, Example.movingApp,
        Example.cameraOver, Engine.vec3.smul, Engine.vec3.add]
      norm_num)⟩,
    h.2.imp fun _ h1 => h1.imp fun _ h2 => ⟨h2.1, h2.2.1.trans (by
      simp [EngineRoot.ProcessInput.speed, Engine.pressed, Example.moveKeys,
        Example.movingAppRoot, Example.cameraOver, Engine.vec3.smul, Engine.vec3.add]
      norm_num)⟩⟩

/-- C14, the second copy: its `ProcessInput` assigns the speeds 2 (Left
Control) and 16 (Left Shift), not `8 * 0.2` and `8 * 3`; in a frame of a
tenth of a second with W held the camera is translated by `2 * 0.1` and
`16 * 0.1` along `forward`, while the first copy moves it by
`8 * 0.2 * 0.1` and `8 * 3 * 0.1`. -/
theorem C14_second_copy_speeds :
    EngineRoot.ProcessInput.speed Example.slowKeys = (2 : ℚ) ∧
    (2 : ℚ) ≠ 8 * (2 / 10) ∧
    EngineRoot.ProcessInput.speed Example.fastKeys = (16 : ℚ) ∧
    (16 : ℚ) ≠ 8 * 3 ∧
    EngineRoot.ProcessInput Example.movingAppRoot Example.slowKeys
      = some (Example.movingAppRoot, [Engine.Event.Translate ⟨0, 0, -(2 * (1 / 10))⟩]) ∧
    EngineRoot.ProcessInput Example.movingAppRoot Example.fastKeys
      = some (Example.movingAppRoot, [Engine.Event.Translate ⟨0, 0, -(16 * (1 / 10))⟩]) ∧
    Engine.ProcessInput Example.movingApp Example.slowKeys
      = some (Example.movingApp, [Engine.Event.Translate ⟨0, 0, -(8 * (2 / 10) * (1 / 10))⟩]) ∧
    Engine.ProcessInput Example.movingApp Example.fastKeys
      = some (Example.movingApp, [Engine.Event.Translate ⟨0, 0, -(8 * 3 * (1 / 10))⟩]) := by
  refine ⟨?_, by norm_num, ?_, by norm_num, ?_, ?_, ?_, ?_⟩
  · simp [EngineRoot.ProcessInput.speed, Example.slowKeys]
  · simp [EngineRoot.ProcessInput.speed, Example.fastKeys]
  · simp [EngineRoot.ProcessInput, EngineRoot.ProcessInput.speed, Example.slowKeys,
      Example.movingAppRoot, Example.appRoot, Example.appRootOver, Example.cameraOver,
      Engine.ProcessInput.translation, Engine.vec3.zero, Engine.vec3.add, Engine.vec3.smul]
  · simp [EngineRoot.ProcessInput, EngineRoot.ProcessInput.speed, Example.fastKeys,
      Example.movingAppRoot, Example.appRoot, Example.appRootOver, Example.cameraOver,
      Engine.ProcessInput.translation, Engine.vec3.zero, Engine.vec3.add, Engine.vec3.smul]
  · simp [Engine.ProcessInput, Engine.ProcessInput.window, Engine.ProcessInput.spotLight,
      Engine.ProcessInput.keyT, Engine.ProcessInput.keyG, Engine.ProcessInput.keyY,
      Engine.ProcessInput.keyH, Engine.ProcessInput.moveSpeed, Example.slowKeys,
      Example.movingApp, Example.app, Example.appOver, Example.cameraOver,
      Engine.ProcessInput.translation, Engine.vec3.zero, Engine.vec3.add, Engine.vec3.smul]
  · simp [Engine.ProcessInput, Engine.ProcessInput.window, Engine.ProcessInput.spotLight,
      Engine.ProcessInput.keyT, Engine.ProcessInput.keyG, Engine.ProcessInput.keyY,
      Engine.ProcessInput.keyH, Engine.ProcessInput.moveSpeed, Example.fastKeys,
      Example.movingApp, Example.app, Example.appOver, Example.cameraOver,
      Engine.ProcessInput.translation, Engine.vec3.zero, Engine.vec3.add, Engine.vec3.smul]

/-- C14, amended: in both copies, with the camera attached (and the spot
light in the first copy), the single `Camera::Translate` call of
`ProcessInput` is scaled by a speed chosen by the modifier keys alone.  In
the first copy it is `8 * 0.2` with Left Control, otherwise `8 * 3` with
Left Shift, otherwise 8; in the second copy it is 2, otherwise 16,
otherwise 8.  With both modifiers pressed Left Control wins in both copies
and the Left Shift factor is not applied. -/
theorem C14_modifier_speed {K : Type} [LinearOrderedField K]
    (s : Engine.Application K) (r : EngineRoot.Application K) (keys : Engine.Key → Bool)
    (cam camR : Engine.Camera K)
    (hs : Engine.Ready s) (hcam : s.m_rendererInst.m_cameraRef = some cam)
    (hr : r.m_cameraRef = some camR) :
    (∃ s' ev, Engine.ProcessInput s keys = some (s', ev) ∧
      Engine.translateArgs ev
        = [Engine.ProcessInput.translation keys
            (if keys Engine.Key.LEFT_CONTROL = true then 8 * (2 / 10)
              else if keys Engine.Key.LEFT_SHIFT = true then 8 * 3 else 8)
            s.m_deltaTime cam]) ∧
    (∃ r' ev, EngineRoot.ProcessInput r keys = some (r', ev) ∧
      Engine.translateArgs ev
        = [Engine.ProcessInput.translation keys
            (if keys Engine.Key.LEFT_CONTROL = true then 2
              else if keys Engine.Key.LEFT_SHIFT = true then 16 else 8)
            r.m_deltaTime camR]) ∧
    (keys Engine.Key.LEFT_CONTROL = true → keys Engine.Key.LEFT_SHIFT = true →
      Engine.ProcessInput.moveSpeed keys = (8 * (2 / 10) : K) ∧
      Engine.ProcessInput.moveSpeed keys ≠ (8 * (2 / 10) * 3 : K) ∧
      EngineRoot.ProcessInput.speed keys = (2 : K)) := by
  refine ⟨?_, ?_, ?_⟩
  · obtain ⟨s', ev, h⟩ := Engine.ProcessInput_isSome s keys hs
    obtain ⟨cam', hc, ht⟩ := Engine.ProcessInput_translate s s' keys ev h
    rw [hcam] at hc
    cases hc
    exact ⟨s', ev, h, ht⟩
  · have h := EngineRoot.rootProcessInput_translate r keys camR hr
    exact ⟨_, _, h, by simp only [Engine.translateArgs]; rfl⟩
  · intro h1 h2
    simp only [Engine.ProcessInput.moveSpeed, EngineRoot.ProcessInput.speed, h1, if_true]
    refine ⟨trivial, ?_, trivial⟩
    norm_num

theorem C14_modifier_speed_witness :
    (∃ s' ev, Engine.ProcessInput Example.movingApp Example.bothModifiers = some (s', ev) ∧
      Engine.translateArgs ev = [(⟨0, 0, -(4 / 25)⟩ : Engine.vec3 ℚ)]) ∧
    (∃ r' ev, EngineRoot.ProcessInput Example.movingAppRoot Example.bothModifiers
        = some (r', ev) ∧
      Engine.translateArgs ev = [(⟨0, 0, -(1 / 5)⟩ : Engine.vec3 ℚ)]) :=
  have h := C14_modifier_speed Example.movingApp Example.movingAppRoot Example.bothModifiers
    (Example.cameraOver ℚ) (Example.cameraOver ℚ)
    ⟨by simp [Example.movingApp, Example.app, Example.appOver],
      by simp [Example.movingApp, Example.app, Example.appOver]⟩
    rfl rfl
  ⟨h.1.imp fun _ h1 => h1.imp fun _ h2 => ⟨h2.1, h2.2.trans (by
      simp [Engine.ProcessInput.translation, Example.bothModifiers, Example.movingApp,
        Example.cameraOver, Engine.vec3.smul, Engine.vec3.add, Engine.vec3.zero]
      norm_num)⟩,
    h.2.1.imp fun _ h1 => h1.imp fun _ h2 => ⟨h2.1, h2.2.trans (by
      simp [Engine.ProcessInput.translation, Example.bothModifiers, Example.movingAppRoot,
        Example.cameraOver, Engine.vec3.smul, Engine.vec3.add, Engine.vec3.zero]
      norm_num)⟩⟩

/-- C15. In the first copy's frame loop, from any state with camera and
spot light attached and on any script of frame inputs, no iteration stops on
a null pointer, and after the `n` iterations executed the fixed-step timer
equals its value at loop entry plus the sum of the `n` frame deltas minus
`k * m_fixedDeltaTime`, where `k` is the number of `FixedUpdate` calls made
in these iterations and `k ≤ n`; `m_fixedDeltaTime` itself is unchanged.  If
the timer at loop entry and all frame deltas are non-negative, the timer is
non-negative after every iteration (after the run on every prefix of the
script). -/
theorem C15_fixed_timer_conservation {K : Type} [LinearOrderedField K] [FloorRing K]
    (m : Engine.MathFns K) (s : Engine.Application K) (fs : List (Engine.FrameInput K))
    (hs : Engine.Ready s) :
    ((Engine.loop m s fs).status ≠ Engine.LoopStatus.fault ∧
      ((Engine.loop m s fs).status = Engine.LoopStatus.running →
        (Engine.loop m s fs).iterations.length = fs.length)) ∧
    (Engine.fixedUpdateArgs (Engine.loop m s fs).iterations.flatten).length
      ≤ (Engine.loop m s fs).iterations.length ∧
    (Engine.loop m s fs).state.m_fixedDeltaTime = s.m_fixedDeltaTime ∧
    (Engine.loop m s fs).state.m_fixedTimer
      = s.m_fixedTimer
        + ((Engine.deltas s.m_currentTime (fs.map Engine.FrameInput.now)).take
            (Engine.loop m s fs).iterations.length).sum
        - ((Engine.fixedUpdateArgs (Engine.loop m s fs).iterations.flatten).length : K)
            * s.m_fixedDeltaTime ∧
    (0 ≤ s.m_fixedTimer →
      (∀ d ∈ Engine.deltas s.m_currentTime (fs.map Engine.FrameInput.now), 0 ≤ d) →
      ∀ j : Nat, 0 ≤ (Engine.loop m s (fs.take j)).state.m_fixedTimer) := by
  refine ⟨Engine.loop_no_fault m fs s hs, (Engine.loop_fixedTimer m fs s).1,
    (Engine.loop_fixedTimer m fs s).2.1, (Engine.loop_fixedTimer m fs s).2.2, ?_⟩
  intro h0 hd j
  refine Engine.loop_fixedTimer_nonneg m (fs.take j) s h0 ?_
  intro d hmem
  rw [List.map_take] at hmem
  exact hd d (Engine.deltas_take_subset _ _ _ _ hmem)

/-- C15 at a concrete input: a minimised frame one fixed step after loop
entry and a shown frame two fixed steps later. -/
theorem C15_fixed_timer_conservation_witness :
    (Engine.loop Example.math Example.app [Example.minimised, Example.threeSteps]).status
      ≠ Engine.LoopStatus.fault ∧
    (Engine.loop Example.math Example.app
        [Example.minimised, Example.threeSteps]).state.m_fixedTimer
      = Example.app.m_fixedTimer
        + ((Engine.deltas Example.app.m_currentTime
              ([Example.minimised, Example.threeSteps].map Engine.FrameInput.now)).take
            (Engine.loop Example.math Example.app
              [Example.minimised, Example.threeSteps]).iterations.length).sum
        - ((Engine.fixedUpdateArgs (Engine.loop Example.math Example.app
              [Example.minimised, Example.threeSteps]).iterations.flatten).length : ℚ)
            * Example.app.m_fixedDeltaTime :=
  have h := C15_fixed_timer_conservation Example.math Example.app
    [Example.minimised, Example.threeSteps]
    ⟨by simp [Example.app, Example.appOver], by simp [Example.app, Example.appOver]⟩
  ⟨h.1.1, h.2.2.2.1⟩

/-- C16. In both copies of `Application::MouseCallback`, with a camera
attached and in exact arithmetic: after each callback of any sequence of
positions the yaw equals the yaw before the sequence plus the sensitivity
times (the x of this callback minus the x recorded before the sequence),
whatever the positions in between, and the recorded last position is the
position of this callback; a callback that repeats the position of the
callback before it leaves the whole state (yaw, pitch and camera basis
included) unchanged; the yaw exceeds any bound for a suitable x; and from
any state with the pitch in `[-89, 89]` there is a vertical excursion after
which the cursor is back at its recorded position and the yaw is back at its
value, while the pitch is not. -/
theorem C16_yaw_telescopes {K : Type} [LinearOrderedField K] (m : Engine.MathFns K)
    (s : Engine.Application K) (r : EngineRoot.Application K) (ps : List (K × K))
    (hs : s.m_rendererInst.m_cameraRef ≠ none) (hr : r.m_cameraRef ≠ none) :
    (List.Forall₂
        (fun t p => ∃ s' : Engine.Application K, t = some s' ∧
          s'.m_yaw = s.m_yaw + Engine.sens * (p.1 - s.m_mouseLastX) ∧
          s'.m_mouseLastX = p.1 ∧ s'.m_mouseLastY = p.2)
        (Engine.mouseStates m Engine.sens s ps) ps ∧
      (∀ x y : K, ∃ s', Engine.MouseCallback m Engine.sens s x y = some s' ∧
        Engine.MouseCallback m Engine.sens s' x y = some s') ∧
      (∀ B : K, ∃ x : K, ∀ y : K, ∃ s',
        Engine.MouseCallback m Engine.sens s x y = some s' ∧ B < s'.m_yaw) ∧
      (-89 ≤ s.m_pitch ∧ s.m_pitch ≤ 89 →
        ∃ (y : K) (s1 s2 : Engine.Application K),
          Engine.MouseCallback m Engine.sens s s.m_mouseLastX y = some s1 ∧
          Engine.MouseCallback m Engine.sens s1 s.m_mouseLastX s.m_mouseLastY = some s2 ∧
          s2.m_mouseLastX = s.m_mouseLastX ∧ s2.m_mouseLastY = s.m_mouseLastY ∧
          s2.m_yaw = s.m_yaw ∧ s2.m_pitch ≠ s.m_pitch)) ∧
    (List.Forall₂
        (fun t p => ∃ r' : EngineRoot.Application K, t = some r' ∧
          r'.m_yaw = r.m_yaw + EngineRoot.sens * (p.1 - r.m_mouseLastX) ∧
          r'.m_mouseLastX = p.1 ∧ r'.m_mouseLastY = p.2)
        (EngineRoot.mouseStates m EngineRoot.sens r ps) ps ∧
      (∀ x y : K, ∃ r', EngineRoot.MouseCallback m EngineRoot.sens r x y = some r' ∧
        EngineRoot.MouseCallback m EngineRoot.sens r' x y = some r') ∧
      (∀ B : K, ∃ x : K, ∀ y : K, ∃ r',
        EngineRoot.MouseCallback m EngineRoot.sens r x y = some r' ∧ B < r'.m_yaw) ∧
      (-89 ≤ r.m_pitch ∧ r.m_pitch ≤ 89 →
        ∃ (y : K) (r1 r2 : EngineRoot.Application K),
          EngineRoot.MouseCallback m EngineRoot.sens r r.m_mouseLastX y = some r1 ∧
          EngineRoot.MouseCallback m EngineRoot.sens r1 r.m_mouseLastX r.m_mouseLastY
            = some r2 ∧
          r2.m_mouseLastX = r.m_mouseLastX ∧ r2.m_mouseLastY = r.m_mouseLastY ∧
          r2.m_yaw = r.m_yaw ∧ r2.m_pitch ≠ r.m_pitch)) := by
  have h1 : (0 : K) < Engine.sens := by unfold Engine.sens; norm_num
  have h2 : (0 : K) < EngineRoot.sens := by unfold EngineRoot.sens; norm_num
  exact ⟨⟨Engine.mouseStates_yaw m Engine.sens ps s hs,
      fun x y => Engine.MouseCallback_repeat m Engine.sens s x y hs,
      fun B => Engine.MouseCallback_yaw_unbounded m Engine.sens h1 s hs B,
      fun hp => Engine.MouseCallback_pitch_no_return m Engine.sens h1 s hs hp⟩,
    ⟨EngineRoot.rootMouseStates_yaw m EngineRoot.sens ps r hr,
      fun x y => EngineRoot.rootMouseCallback_repeat m EngineRoot.sens r x y hr,
      fun B => EngineRoot.rootMouseCallback_yaw_unbounded m EngineRoot.sens h2 r hr B,
      fun hp => EngineRoot.rootMouseCallback_pitch_no_return m EngineRoot.sens h2 r hr hp⟩⟩

/-- C16 at a concrete input: the cursor goes far down and to the right, then
back to where it started, in both copies. -/
theorem C16_yaw_telescopes_witness :
    List.Forall₂
      (fun t p => ∃ s' : Engine.Application ℚ, t = some s' ∧
        s'.m_yaw = Example.app.m_yaw + Engine.sens * (p.1 - Example.app.m_mouseLastX) ∧
        s'.m_mouseLastX = p.1 ∧ s'.m_mouseLastY = p.2)
      (Engine.mouseStates Example.math Engine.sens Example.app [(700, 4000), (0, 0)])
      [(700, 4000), (0, 0)] ∧
    List.Forall₂
      (fun t p => ∃ r' : EngineRoot.Application ℚ, t = some r' ∧
        r'.m_yaw = Example.appRoot.m_yaw
          + EngineRoot.sens * (p.1 - Example.appRoot.m_mouseLastX) ∧
        r'.m_mouseLastX = p.1 ∧ r'.m_mouseLastY = p.2)
      (EngineRoot.mouseStates Example.math EngineRoot.sens Example.appRoot
        [(700, 4000), (0, 0)])
      [(700, 4000), (0, 0)] :=
  have h := C16_yaw_telescopes Example.math Example.app Example.appRoot
    [(700, 4000), (0, 0)]
    (by simp [Example.app, Example.appOver]) (by simp [Example.appRoot, Example.appRootOver])
  ⟨h.1.1, h.2.1⟩

/-- C17. In the first copy's `ProcessInput`, assuming the setters of `Light`
store their argument: the G key applies its decrement of 0.05 whenever the
resulting angle is `≥ 0`, so an angle of exactly 0.05 becomes exactly 0,
while the H key applies its decrement of 0.005 only when the resulting blur
is `> 0`, so a blur of at most 0.005 is left as it is.  Hence, with camera
and spot light attached, `ProcessInput` completes for every key state and a
strictly positive blur stays strictly positive, after one call and after any
sequence of calls with any key states. -/
theorem C17_blur_stays_positive {K : Type} [LinearOrderedField K]
    (s : Engine.Application K) (keys : Engine.Key → Bool) (ks : List (Engine.Key → Bool))
    (l : Engine.Light K)
    (hcam : s.m_rendererInst.m_cameraRef ≠ none)
    (hl : s.m_rendererInst.m_lightSpot = some l) :
    (∃ s' ev l', Engine.ProcessInput s keys = some (s', ev) ∧
      s'.m_rendererInst.m_lightSpot = some l' ∧
      (0 < l.blur → 0 < l'.blur) ∧
      (keys Engine.Key.G = true → keys Engine.Key.T = false → 5 / 100 ≤ l.angle →
        l'.angle = l.angle - 5 / 100) ∧
      (keys Engine.Key.H = true → keys Engine.Key.Y = false → l.blur ≤ 5 / 1000 →
        l'.blur = l.blur) ∧
      (keys Engine.Key.H = true → keys Engine.Key.Y = false → 5 / 1000 < l.blur →
        l'.blur = l.blur - 5 / 1000)) ∧
    (0 < l.blur →
      ∃ s' l', Engine.pressKeys s ks = some s' ∧ s'.m_rendererInst.m_lightSpot = some l' ∧
        0 < l'.blur) ∧
    (∀ (r : Engine.Renderer K) (la : Engine.Light K), r.m_lightSpot = some la →
      Engine.ProcessInput.keyG r keys = some ⟨r.m_cameraRef,
        some ⟨if keys Engine.Key.G = true ∧ 0 ≤ la.angle - 5 / 100 then la.angle - 5 / 100
              else la.angle, la.blur⟩⟩ ∧
      Engine.ProcessInput.keyH r keys = some ⟨r.m_cameraRef,
        some ⟨la.angle, if keys Engine.Key.H = true ∧ 0 < la.blur - 5 / 1000
              then la.blur - 5 / 1000 else la.blur⟩⟩) := by
  refine ⟨?_, fun hb => Engine.pressKeys_blur_pos ks s l hcam hl hb, fun r la hr =>
    ⟨Engine.ProcessInput.keyG_light r keys la hr, Engine.ProcessInput.keyH_light r keys la hr⟩⟩
  obtain ⟨s', ev, a1, a2, b1, b2, hp, hlight, e1, e2, e3, e4⟩ :=
    Engine.ProcessInput_light s keys l hcam hl
  have u1 := Engine.step_up_ge l.blur (5 / 1000) b1 _ e3 (by norm_num)
  obtain ⟨_, _, _, v4⟩ := Engine.step_down_strict_bounds b1 (5 / 1000) 0 b2 _ e4 (by norm_num)
  refine ⟨s', ev, ⟨a2, b2⟩, hp, hlight, fun hb => v4 (lt_of_lt_of_le hb u1), ?_, ?_, ?_⟩
  · intro hG hT ha
    show a2 = l.angle - 5 / 100
    rw [hT] at e1
    simp only [Bool.false_eq_true, false_and, if_false] at e1
    rw [e2, e1, if_pos ⟨hG, by linarith⟩]
  · intro hH hY hb
    show b2 = l.blur
    rw [hY] at e3
    simp only [Bool.false_eq_true, false_and, if_false] at e3
    rw [e4, e3, if_neg (fun h => absurd h.2 (by linarith))]
  · intro hH hY hb
    show b2 = l.blur - 5 / 1000
    rw [hY] at e3
    simp only [Bool.false_eq_true, false_and, if_false] at e3
    rw [e4, e3, if_pos ⟨hH, by linarith⟩]

/-- C17 at a concrete input: G and H held together on a spot light with
angle 0.05 and blur 0.005; the angle becomes 0, the blur stays at 0.005. -/
theorem C17_blur_stays_positive_witness :
    ∃ s' ev l', Engine.ProcessInput Example.narrowApp Example.narrowKeys = some (s', ev) ∧
      s'.m_rendererInst.m_lightSpot = some l' ∧
      l'.angle = 0 ∧ l'.blur = 5 / 1000 :=
  have h := C17_blur_stays_positive Example.narrowApp Example.narrowKeys
    [Example.narrowKeys, Example.narrowKeys] ⟨5 / 100, 5 / 1000⟩
    (by simp [Example.narrowApp]) rfl
  h.1.imp fun _ h1 => h1.imp fun _ h2 => h2.imp fun _ h3 =>
    ⟨h3.1, h3.2.1,
      (h3.2.2.2.1 (by simp [Example.narrowKeys]) (by simp [Example.narrowKeys])
        (le_refl _)).trans (by norm_num),
      h3.2.2.2.2.1 (by simp [Example.narrowKeys]) (by simp [Example.narrowKeys]) (le_refl _)⟩

/-- C18. In the first copy, `SetDimensions` completes for every state and
every width and height, and always stores both.  When a camera is attached
and both are greater than 0 it hands the camera the aspect ratio
`width / height` and calls `UpdateFovV`, changing nothing else; otherwise
(no camera, or a zero width or height) it does nothing more: no call is
made and the renderer with its camera is left as it was.  So every aspect
ratio handed over on this path is `width / height` with a non-zero height.
`framebuffer_size_callback` does exactly this and then calls
`glViewport`. -/
theorem C18_set_dimensions_guard {K : Type} [LinearOrderedField K] (m : Engine.MathFns K)
    (s : Engine.Application K) (w h : Nat) :
    ∃ s' ev, Engine.SetDimensions s w h = some (s', ev) ∧
      Engine.dispatch m s (Engine.Callback.framebufferSize w h)
        = some (s', ev ++ [Engine.Event.glViewport w h]) ∧
      s'.m_winWidth = w ∧ s'.m_winHeight = h ∧
      (∀ cam, s.m_rendererInst.m_cameraRef = some cam → 0 < w → 0 < h →
        ev = [Engine.Event.SetAspectRatio ((w : K) / (h : K)), Engine.Event.UpdateFovV] ∧
        s' = { s with
                m_winWidth := w, m_winHeight := h,
                m_rendererInst :=
                  ⟨some { cam with aspectRatio := (w : K) / (h : K) },
                    s.m_rendererInst.m_lightSpot⟩ }) ∧
      (s.m_rendererInst.m_cameraRef = none ∨ w = 0 ∨ h = 0 →
        ev = [] ∧ s' = { s with m_winWidth := w, m_winHeight := h } ∧
        s'.m_rendererInst = s.m_rendererInst) ∧
      (∀ ratio : K, Engine.Event.SetAspectRatio ratio ∈ ev →
        s.m_rendererInst.m_cameraRef ≠ none ∧ 0 < w ∧ 0 < h ∧ ratio = (w : K) / (h : K)) := by
  by_cases hc : s.m_rendererInst.m_cameraRef ≠ none ∧ 0 < w ∧ 0 < h
  · obtain ⟨cam, hcam⟩ := Option.ne_none_iff_exists'.mp hc.1
    have hd := Engine.SetDimensions_attached s w h cam hcam hc.2.1 hc.2.2
    refine ⟨_, _, hd, by simp only [Engine.dispatch, hd], rfl, rfl, ?_, ?_, ?_⟩
    · intro cam' hcam' _ _
      rw [hcam] at hcam'
      cases hcam'
      exact ⟨rfl, rfl⟩
    · rintro (h0 | h0 | h0)
      · exact absurd h0 hc.1
      · omega
      · omega
    · intro ratio hmem
      simp only [List.mem_cons, Engine.Event.SetAspectRatio.injEq, List.mem_singleton,
        List.not_mem_nil, or_false, reduceCtorEq] at hmem
      exact ⟨hc.1, hc.2.1, hc.2.2, hmem⟩
  · have hd := Engine.SetDimensions_skipped s w h hc
    refine ⟨_, _, hd, by simp only [Engine.dispatch, hd], rfl, rfl, ?_, ?_, ?_⟩
    · intro cam hcam hw hh
      exact absurd ⟨by rw [hcam]; simp, hw, hh⟩ hc
    · intro _
      exact ⟨rfl, rfl, rfl⟩
    · intro ratio hmem
      simp at hmem

/-- C18 at two concrete inputs: the example application resized to 800 by
600, and to 800 by 0. -/
theorem C18_set_dimensions_guard_witness :
    (∃ s' ev, Engine.SetDimensions Example.app 800 600 = some (s', ev) ∧
      ev = [Engine.Event.SetAspectRatio (((800 : Nat) : ℚ) / ((600 : Nat) : ℚ)),
        Engine.Event.UpdateFovV]) ∧
    (∃ s' ev, Engine.SetDimensions Example.app 800 0 = some (s', ev) ∧
      ev = [] ∧ s'.m_winHeight = 0 ∧ s'.m_rendererInst = Example.app.m_rendererInst) :=
  have h1 := C18_set_dimensions_guard Example.math Example.app 800 600
  have h2 := C18_set_dimensions_guard Example.math Example.app 800 0
  ⟨h1.imp fun _ a => a.imp fun _ b =>
      ⟨b.1, (b.2.2.2.2.1 (Example.cameraOver ℚ) rfl (by decide) (by decide)).1⟩,
    h2.imp fun _ a => a.imp fun _ b =>
      ⟨b.1, (b.2.2.2.2.2.1 (Or.inr (Or.inr rfl))).1, b.2.2.2.1,
        (b.2.2.2.2.2.1 (Or.inr (Or.inr rfl))).2.2⟩⟩
